import Mathlib

/-!
# Particle simulation: cell grid, boundary policies and force passes

A shallow embedding of the C++ sources (`vector.cpp`, `particle.cpp`,
`universe.cpp`, `finite_universe.cpp`, `intern_cell.cpp`,
`extern_border_cell.cpp`, `gridded_universe.cpp`, `forces.cpp`) followed by theorems about
them.

Conventions of the embedding.
* A `double` is a rational number (`ℚ`).  Arithmetic is exact, except in the
  three computations whose rounding decides a discrete outcome: the mirroring
  loop of `reflectOutOfBoundsParticles`, the cell coordinate of
  `correspondingCellCoordonates` and the cell count of `cellsCreation`.  There
  each operation is followed by `roundDouble`, the rounding to 53 significant
  binary digits.
* A pointer `Particle*` held by a cell is the position of the particle in the
  universe's particle list; a pointer `InternCell*` is the position of the cell
  in `_internCells`.
* `xassert` is an empty statement in the shipped configuration (`config.hpp`
  defines `NDEBUG`), so assertions do not appear in the definitions; the
  section on assertions gives, for some functions, a second definition that
  takes the configuration as a parameter.
* An exception `std::runtime_error` is the value `Except.error` with its
  message.
* An access outside an array, or through a pointer that designates nothing,
  has no defined result: the operation returns `none`.
* `size_t` arithmetic is taken modulo `2^64`, the narrowing of a `size_t` to
  `int` modulo `2^32`.
* `std::sqrt` is a parameter `sqrt : ℚ → ℚ` of the definitions that call it;
  each theorem states what it assumes of that function.  `std::pow(r, n)` with
  a whole exponent `n` is the exact power; the constant `std::pow(2, 1.0 / 6)`
  is a parameter `sixthRootOfTwo : ℚ` of the definitions that use it.
-/

namespace ParticlesSim

/-! ## Machine numbers -/

/-- Conversion `static_cast<int>(double)`: the fractional part is discarded
(rounding toward zero).  Values outside the range of `int` are undefined in
C++ and are kept exact here. -/
def truncToInt (q : ℚ) : Int := if 0 ≤ q then ⌊q⌋ else ⌈q⌉

/-- Conversion of an `int` to `size_t` (modulo `2^64`). -/
def intToSize (z : Int) : Nat := (z % (2 ^ 64 : Int)).toNat

/-- Narrowing of a `size_t` to `int` (two's complement, modulo `2^32`). -/
def sizeToInt (n : Nat) : Int := (((n + 2 ^ 31) % 2 ^ 32 : Nat) : Int) - 2 ^ 31

/-- Conversion `static_cast<size_t>(double)` of a value that is not negative. -/
def doubleToSize (q : ℚ) : Nat := (truncToInt q).toNat

/-- The function `std::fmod`: the remainder has the sign of `x`. -/
def fmod (x y : ℚ) : ℚ := x - y * (truncToInt (x / y) : ℚ)

/-- Number of binary digits of `n`, counted by at most `fuel` halvings. -/
def bitLengthAux : Nat → Nat → Nat
  | 0, _ => 0
  | fuel + 1, n => if n = 0 then 0 else bitLengthAux fuel (n / 2) + 1

/-- Number of binary digits of `n`. -/
def bitLength (n : Nat) : Nat := bitLengthAux n n

/-- Exponent of the leading binary digit of a rational number that is not zero:
the integer `e` with `2^e ≤ |q| < 2^(e+1)`. -/
def binaryExponent (q : ℚ) : Int :=
  let e : Int := (bitLength q.num.natAbs : Int) - (bitLength q.den : Int)
  if (2 : ℚ) ^ e ≤ |q| then e else e - 1

/-- Rounding to the nearest integer, a tie going to the even one. -/
def roundHalfEven (m : ℚ) : Int :=
  let f := ⌊m⌋
  if m - f < 1 / 2 then f
  else if 1 / 2 < m - f then f + 1
  else if f % 2 = 0 then f else f + 1

/-- Rounding of the exact result of an arithmetic operation to a `double`:
the nearest number with 53 significant binary digits, a tie going to the one
whose last digit is even (the default rounding of IEEE 754 binary64).  The
range of the exponent is not bounded: overflow and gradual underflow are not
modelled. -/
def roundDouble (q : ℚ) : ℚ :=
  if q = 0 then 0
  else (roundHalfEven (q / (2 : ℚ) ^ (binaryExponent q - 52)) : ℚ) *
    (2 : ℚ) ^ (binaryExponent q - 52)

/-! ## Vector (`vector.hpp`, `vector.cpp`) -/

/-- Class `Vector`: `_data`; `_dimension` is the length of `_data`. -/
structure Vector where
  data : List ℚ
deriving DecidableEq, Repr

namespace Vector

/-- Getter `getDimension`. -/
def getDimension (v : Vector) : Nat := v.data.length

/-- Constructor `Vector(size_t size)`: `size` zeros. -/
def zero (size : Nat) : Vector := ⟨List.replicate size 0⟩

/-- Read access `operator[]`.  The value 0 stands for a read outside the
array, which has no defined result; the definitions of the section on
assertions, where operands of different dimensions are considered, read through
`data[i]?` instead. -/
def get (v : Vector) (i : Nat) : ℚ := v.data.getD i 0

/-- Write access through `operator[]`. -/
def set (v : Vector) (i : Nat) (x : ℚ) : Vector := ⟨v.data.set i x⟩

/-- Operator `*=`. -/
def scale (v : Vector) (scalar : ℚ) : Vector := ⟨v.data.map (fun x => x * scalar)⟩

/-- Operator `+=`: the loop runs over the coordinates of `v`. -/
def add (v other : Vector) : Vector :=
  ⟨(List.range v.getDimension).map (fun i => v.get i + other.get i)⟩

/-- Operator `-=`. -/
def sub (v other : Vector) : Vector :=
  ⟨(List.range v.getDimension).map (fun i => v.get i - other.get i)⟩

/-- Method `areAllCoordsGreater`. -/
def areAllCoordsGreater (v other : Vector) : Bool :=
  (List.range v.getDimension).all (fun i => !decide (v.get i ≤ other.get i))

/-- Method `isInBounds`: every coordinate lies in the closed interval. -/
def isInBounds (v lowerBound upperBound : Vector) : Bool :=
  (List.range v.getDimension).all
    (fun i => !(decide (v.get i < lowerBound.get i) || decide (v.get i > upperBound.get i)))

/-- Sum of the squared coordinates, the value `Vector::norm` takes the square
root of. -/
def normSq (v : Vector) : ℚ :=
  (List.range v.getDimension).foldl (fun sum i => sum + v.get i * v.get i) 0

end Vector

/-! ## Particle (`particle.hpp`, `particle.cpp`) -/

/-- Class `Particle`; `_dimension` is the dimension of `_position`. -/
structure Particle where
  position : Vector
  speed : Vector
  force : Vector
  oldForce : Vector
  mass : ℚ
  name : String
  id : Int
deriving DecidableEq, Repr

namespace Particle

/-- Constructor `Particle(pos, speed, mass, name)`; `particleCount` is the value
of the static counter `_particleCount` read by the constructor, which the
caller then increments. -/
def new (pos speed : Vector) (mass : ℚ) (name : String) (particleCount : Int) : Particle :=
  { position := pos, speed := speed, force := Vector.zero pos.getDimension,
    oldForce := Vector.zero pos.getDimension, mass := mass, name := name,
    id := particleCount }

/-- Getter `getDimension`. -/
def getDimension (p : Particle) : Nat := p.position.getDimension

/-- Method `addToPosition`. -/
def addToPosition (p : Particle) (vect : Vector) : Particle :=
  { p with position := p.position.add vect }

/-- Method `addToForce`. -/
def addToForce (p : Particle) (vect : Vector) : Particle :=
  { p with force := p.force.add vect }

/-- Method `setPosCoord`. -/
def setPosCoord (p : Particle) (coord : Nat) (value : ℚ) : Particle :=
  { p with position := p.position.set coord value }

/-- Method `invertSpeed`. -/
def invertSpeed (p : Particle) (i : Nat) : Particle :=
  { p with speed := p.speed.set i (p.speed.get i * (-1)) }

end Particle

/-! ## Interactions and external forces (`interraction.hpp`, `external_force.hpp`) -/

/-- Class `Interaction`: the stored function receives the source and the
target and returns the target as the call leaves it. -/
structure Interaction where
  interactionFunction : Particle → Particle → Particle

/-- Class `ExternalForce`: the stored function returns the target as the call
leaves it. -/
structure ExternalForce where
  forceFunction : Particle → Particle

/-- Method `ExternalForce::applyOn`. -/
def ExternalForce.applyOn (f : ExternalForce) (target : Particle) : Particle :=
  f.forceFunction target

/-- Default constructor `ExternalForce()`, whose function does nothing here. -/
def ExternalForce.empty : ExternalForce := ⟨fun p => p⟩

/-! ## Cells (`cell.hpp`, `intern_cell.hpp`, `extern_border_cell.hpp`) -/

/-- Class `InternCell`: `_coordinates`, `_neighbours` (positions in
`_internCells`) and `_particles` (positions in the particle list). -/
structure InternCell where
  coordinates : List Int
  neighbours : List Nat
  particles : List Nat
deriving DecidableEq, Repr

/-- Class `ExternBorderCell`: `_coordinates`, `_neighbours`, `_offset`,
`_copyCell` (a position in `_internCells`) and the owned copies `_particles`. -/
structure ExternBorderCell where
  coordinates : List Int
  neighbours : List Nat
  offset : Vector
  copyCell : Nat
  particles : List Particle
deriving DecidableEq, Repr

/-- Constructor `InternCell(dimension, universe, coordinates)`. -/
def InternCell.new (coordinates : List Int) : InternCell :=
  { coordinates := coordinates, neighbours := [], particles := [] }

/-- Method `Cell::addNeighbour` on an intern cell. -/
def InternCell.addNeighbour (cell : InternCell) (neighbour : Nat) : InternCell :=
  { cell with neighbours := cell.neighbours ++ [neighbour] }

/-- Method `Cell::addNeighbour` on a border cell. -/
def ExternBorderCell.addNeighbour (cell : ExternBorderCell) (neighbour : Nat) :
    ExternBorderCell :=
  { cell with neighbours := cell.neighbours ++ [neighbour] }

/-- Method `InternCell::addParticle`. -/
def InternCell.addParticle (cell : InternCell) (p : Nat) : InternCell :=
  { cell with particles := cell.particles ++ [p] }

/-- Method `InternCell::clearParticles`. -/
def InternCell.clearParticles (cell : InternCell) : InternCell :=
  { cell with particles := [] }

/-- Method `ExternBorderCell::clearParticles`. -/
def ExternBorderCell.clearParticles (cell : ExternBorderCell) : ExternBorderCell :=
  { cell with particles := [] }

/-! ## Universes (`universe.hpp`, `finite_universe.hpp`, `gridded_universe.hpp`) -/

/-- Enumeration `OOBBehavior`. -/
inductive OOBBehavior where
  | PERIODIC
  | REFLEXION
  | ABSORPTION
deriving DecidableEq, Repr

/-- Class `Universe`.  The field `particleCount` is the static counter
`Particle::_particleCount`. -/
structure Universe where
  dimension : Nat
  particles : List Particle
  nbPastStates : Nat
  interactions : List Interaction
  forces : List ExternalForce
  minPosition : Vector
  maxPosition : Vector
  maxForce : ℚ
  cineticEnergyLimit : ℚ
  particleCount : Int

/-- Class `FiniteUniverse`. -/
structure FiniteUniverse extends Universe where
  lowerBound : Vector
  upperBound : Vector
  oobbehavior : OOBBehavior
  wallsForce : ExternalForce
  applyWallsForce : Bool

/-- Class `GriddedUniverse`. -/
structure GriddedUniverse extends FiniteUniverse where
  cellSide : ℚ
  internCells : List InternCell
  externBorderCells : List ExternBorderCell
  dimensions : List Int

/-- Constructor `Universe(size_t dimension)`; `maxForce` is the value the
uninitialised member `_maxForce` happens to hold. -/
def Universe.new (dimension : Nat) (maxForce : ℚ) (particleCount : Int) : Universe :=
  { dimension := dimension, particles := [], nbPastStates := 0, interactions := [],
    forces := [], minPosition := Vector.zero dimension,
    maxPosition := Vector.zero dimension, maxForce := maxForce,
    cineticEnergyLimit := 100000, particleCount := particleCount }

/-- Constructor `FiniteUniverse(lowerBound, upperBound)`. -/
def FiniteUniverse.new (lowerBound upperBound : Vector) (maxForce : ℚ)
    (particleCount : Int) : FiniteUniverse :=
  { Universe.new lowerBound.getDimension maxForce particleCount with
    lowerBound := lowerBound, upperBound := upperBound,
    oobbehavior := OOBBehavior.ABSORPTION, wallsForce := ExternalForce.empty,
    applyWallsForce := false }

/-- Method `Universe::addParticle(pos, speed, mass, name)`. -/
def Universe.addParticle (u : Universe) (pos speed : Vector) (mass : ℚ) (name : String) :
    Universe :=
  { u with particles := u.particles ++ [Particle.new pos speed mass name u.particleCount],
           particleCount := u.particleCount + 1 }

/-- Method `Universe::addInteraction`. -/
def Universe.addInteraction (u : Universe) (interactionFunction : Particle → Particle → Particle) :
    Universe :=
  { u with interactions := u.interactions ++ [⟨interactionFunction⟩] }

/-- Method `FiniteUniverse::addParticle(pos, speed, mass, name)`. -/
def FiniteUniverse.addParticle (u : FiniteUniverse) (pos speed : Vector) (mass : ℚ)
    (name : String) : FiniteUniverse :=
  { u with toUniverse := u.toUniverse.addParticle pos speed mass name }

/-- Method `FiniteUniverse::addParticle`, called on a gridded universe. -/
def GriddedUniverse.addParticle (u : GriddedUniverse) (pos speed : Vector) (mass : ℚ)
    (name : String) : GriddedUniverse :=
  { u with toFiniteUniverse := u.toFiniteUniverse.addParticle pos speed mass name }

/-- Method `Universe::addInteraction`, called on a gridded universe. -/
def GriddedUniverse.addInteraction (u : GriddedUniverse)
    (interactionFunction : Particle → Particle → Particle) : GriddedUniverse :=
  { u with toUniverse := u.toUniverse.addInteraction interactionFunction }

/-- Method `FiniteUniverse::setOOBBehavior`. -/
def FiniteUniverse.setOOBBehavior (u : FiniteUniverse) (lb : OOBBehavior) :
    FiniteUniverse :=
  { u with oobbehavior := lb, applyWallsForce := false }

/-- Method `FiniteUniverse::setOOBBehavior`, called on a gridded universe. -/
def GriddedUniverse.setOOBBehavior (u : GriddedUniverse) (lb : OOBBehavior) :
    GriddedUniverse :=
  { u with toFiniteUniverse := u.toFiniteUniverse.setOOBBehavior lb }

/-! ## Construction of the grid (`gridded_universe.cpp`) -/

/-- Function `isExternCoord`. -/
def isExternCoord (coords dimensions : List Int) : Bool :=
  (List.range dimensions.length).any
    (fun i => decide (coords.getD i 0 = -1) || decide (coords.getD i 0 = dimensions.getD i 0))

/-- Function `isInternCoord`. -/
def isInternCoord (coords dimensions : List Int) : Bool :=
  (List.range dimensions.length).all
    (fun i => !(decide (coords.getD i 0 < 0) || decide (coords.getD i 0 ≥ dimensions.getD i 0)))

/-- Loop of `internCellIndex` over the axes still to visit, with the current
values of `index` and `multiplier` (both `size_t`). -/
def internCellIndexLoop : List Int → List Int → Nat → Nat → Nat
  | [], _, index, _ => index
  | d :: dimensions, coordinates, index, multiplier =>
      internCellIndexLoop dimensions coordinates.tail
        ((index + intToSize (coordinates.headD 0) * multiplier) % 2 ^ 64)
        ((multiplier * intToSize d) % 2 ^ 64)

/-- Method `GriddedUniverse::internCellIndex`. -/
def internCellIndex (dimensions coordinates : List Int) : Nat :=
  internCellIndexLoop dimensions coordinates 0 1

/-- Method `GriddedUniverse::areNeighbours`. -/
def areNeighbours (coord1 coord2 : List Int) : Bool :=
  (List.range coord1.length).all
    (fun d => !decide (|coord1.getD d 0 - coord2.getD d 0| > 1))

/-- Method `GriddedUniverse::createInternCellsRecursive`, on the list of cells
created so far.  The argument `depth` counts the axes still to enumerate (the
C++ `depth` plus one); the coordinate vector is handed down with the entry
of the current axis overwritten. -/
def createInternCellsRecursive (dimensions : List Int) :
    Nat → List Int → List InternCell → List InternCell
  | 0, coordinates, cells => cells ++ [InternCell.new coordinates]
  | depth + 1, coordinates, cells =>
      (List.range (dimensions.getD depth 0).toNat).foldl
        (fun cells (i : Nat) =>
          createInternCellsRecursive dimensions depth (coordinates.set depth (Int.ofNat i)) cells)
        cells

namespace GriddedUniverse

/-- Method `GriddedUniverse::createExternBorderCell`: the new border cell. -/
def createExternBorderCell (u : GriddedUniverse) (coords : List Int) (copyCell : Nat) :
    ExternBorderCell :=
  let universeSizes := u.upperBound.sub u.lowerBound
  let offset : Vector :=
    ⟨(List.range u.dimensions.length).map (fun i =>
        if coords.getD i 0 = -1 then 0 - universeSizes.get i
        else if coords.getD i 0 = u.dimensions.getD i 0 then 0 + universeSizes.get i
        else 0)⟩
  { coordinates := coords, neighbours := [], offset := offset, copyCell := copyCell,
    particles := [] }

/-- Coordinates of the cell a border cell copies, as computed in
`createExternCellsRecursive`. -/
def copyCellCoords (dimensions coordinates : List Int) : List Int :=
  (List.range coordinates.length).map (fun i =>
    if coordinates.getD i 0 = dimensions.getD i 0 then 0
    else if coordinates.getD i 0 = -1 then dimensions.getD i 0 - 1
    else coordinates.getD i 0)

/-- Method `GriddedUniverse::createExternCellsRecursive`, on the list of border
cells created so far; `depth` is as in `createInternCellsRecursive`.  The
checked access `_internCells.at` fails when the position is not below the
number of cells. -/
def createExternCellsRecursive (u : GriddedUniverse) :
    Nat → List Int → List ExternBorderCell → Option (List ExternBorderCell)
  | 0, coordinates, cells =>
      if isExternCoord coordinates u.dimensions then
        let index := internCellIndex u.dimensions (copyCellCoords u.dimensions coordinates)
        if index < u.internCells.length then
          some (cells ++ [u.createExternBorderCell coordinates index])
        else none
      else some cells
  | depth + 1, coordinates, cells =>
      (List.range (u.dimensions.getD depth 0 + 2).toNat).foldlM
        (fun cells (k : Nat) =>
          createExternCellsRecursive u depth (coordinates.set depth (Int.ofNat k - 1)) cells)
        cells

/-- Number of cells on axis `i`, as computed in `cellsCreation`: the difference
of the bounds and the quotient are rounded to `double`. -/
def cellCount (lowerBound upperBound : Vector) (cellSide : ℚ) (i : Nat) : Int :=
  sizeToInt (doubleToSize
    ((⌈roundDouble (roundDouble ((upperBound.sub lowerBound).get i) / cellSide)⌉ : Int) : ℚ))

/-- Method `GriddedUniverse::cellsCreation`. -/
def cellsCreation (u : GriddedUniverse) : Option GriddedUniverse :=
  let dimensions := u.dimensions ++
    (List.range u.dimension).map (cellCount u.lowerBound u.upperBound u.cellSide)
  let coords : List Int := List.replicate dimensions.length 0
  let u1 : GriddedUniverse :=
    { u with dimensions := dimensions,
             internCells :=
               (createInternCellsRecursive dimensions dimensions.length coords u.internCells) }
  (createExternCellsRecursive u1 dimensions.length coords u1.externBorderCells).map
    (fun cells => { u1 with externBorderCells := cells })

/-- Method `GriddedUniverse::setOneInernCellNeighbours` for the cell at
position `k`: the cell with its neighbours added. -/
def setOneInernCellNeighbours (internCells : List InternCell) (k : Nat)
    (internCell : InternCell) : InternCell :=
  (List.range internCells.length).foldl
    (fun cell j =>
      if j = k then cell
      else if areNeighbours internCell.coordinates ((internCells.getD j (InternCell.new [])).coordinates)
      then cell.addNeighbour j else cell)
    internCell

/-- Method `GriddedUniverse::setOneExternCellNeighbours`. -/
def setOneExternCellNeighbours (internCells : List InternCell)
    (borderCell : ExternBorderCell) : ExternBorderCell :=
  (List.range internCells.length).foldl
    (fun cell j =>
      if areNeighbours borderCell.coordinates ((internCells.getD j (InternCell.new [])).coordinates)
      then cell.addNeighbour j else cell)
    borderCell

/-- Method `GriddedUniverse::setCellsNeighbours`.  A cell's neighbours depend on
coordinates only, which no iteration changes. -/
def setCellsNeighbours (u : GriddedUniverse) : GriddedUniverse :=
  { u with
    internCells := u.internCells.mapIdx (fun k cell => setOneInernCellNeighbours u.internCells k cell),
    externBorderCells := u.externBorderCells.map (setOneExternCellNeighbours u.internCells) }

/-- Member initialisation of the constructor of `GriddedUniverse`, before its
body runs. -/
def init (lowerBound upperBound : Vector) (cellSide : ℚ) (maxForce : ℚ)
    (particleCount : Int) : GriddedUniverse :=
  { FiniteUniverse.new lowerBound upperBound maxForce particleCount with
    cellSide := cellSide, internCells := [], externBorderCells := [], dimensions := [] }

/-- Constructor `GriddedUniverse(lowerBound, upperBound, cellSide)`. -/
def new (lowerBound upperBound : Vector) (cellSide : ℚ) (maxForce : ℚ)
    (particleCount : Int) : Option GriddedUniverse :=
  (cellsCreation (init lowerBound upperBound cellSide maxForce particleCount)).map
    setCellsNeighbours

/-! ## Binding particles to cells (`gridded_universe.cpp`, `extern_border_cell.cpp`) -/

/-- Method `GriddedUniverse::correspondingCellCoordonates`: the difference to
the lower bound and the quotient are rounded to `double`. -/
def correspondingCellCoordonates (u : GriddedUniverse) (pos : Vector) : List Int :=
  (List.range u.dimension).map (fun i =>
    let coord := truncToInt
      (roundDouble (roundDouble (pos.get i - u.lowerBound.get i) / u.cellSide))
    if pos.get i = u.upperBound.get i then coord - 1 else coord)

/-- Method `GriddedUniverse::putInCorrespondingCell` for the particle at
position `p` of the particle list. -/
def putInCorrespondingCell (u : GriddedUniverse) (p : Nat) : Option GriddedUniverse :=
  match u.particles[p]? with
  | none => none
  | some particle =>
    let coordinates := u.correspondingCellCoordonates particle.position
    let index := internCellIndex u.dimensions coordinates
    match u.internCells[index]? with
    | none => none
    | some cell => some { u with internCells := u.internCells.set index (cell.addParticle p) }

/-- Position in `_internCells` that `putInCorrespondingCell` computes for the
particle at position `p` of the particle list. -/
def cellIndexOf (u : GriddedUniverse) (p : Nat) : Nat :=
  match u.particles[p]? with
  | some particle =>
      internCellIndex u.dimensions (u.correspondingCellCoordonates particle.position)
  | none => 0

/-- Method `ExternBorderCell::copyParticles`: the copies appended to the cell,
and the particle counter after the constructions. -/
def copyParticles (u : GriddedUniverse) (cell : ExternBorderCell) (particleCount : Int) :
    Option (ExternBorderCell × Int) :=
  match u.internCells[cell.copyCell]? with
  | none => none
  | some source =>
    source.particles.foldlM
      (fun (acc : ExternBorderCell × Int) p =>
        match u.particles[p]? with
        | none => none
        | some particle =>
          let newPosition := particle.position.add acc.1.offset
          some ({ acc.1 with particles := acc.1.particles ++
                    [Particle.new newPosition particle.speed particle.mass particle.name acc.2] },
                acc.2 + 1))
      (cell, particleCount)

/-- Method `GriddedUniverse::clearCells`. -/
def clearCells (u : GriddedUniverse) : GriddedUniverse :=
  let u1 : GriddedUniverse := { u with internCells := u.internCells.map InternCell.clearParticles }
  if u1.oobbehavior = OOBBehavior.PERIODIC then
    { u1 with externBorderCells := u1.externBorderCells.map ExternBorderCell.clearParticles }
  else u1

/-- Second loop of `fillCells`: every border cell copies its source cell. -/
def copyAllParticles (u : GriddedUniverse) : Option GriddedUniverse :=
  (u.externBorderCells.foldlM
    (fun (acc : List ExternBorderCell × Int) cell =>
      (u.copyParticles cell acc.2).map (fun r => (acc.1 ++ [r.1], r.2)))
    (([] : List ExternBorderCell), u.particleCount)).map
    (fun r => { u with externBorderCells := r.1, particleCount := r.2 })

/-- Method `GriddedUniverse::fillCells`. -/
def fillCells (u : GriddedUniverse) : Option GriddedUniverse :=
  match (List.range u.particles.length).foldlM (fun u p => putInCorrespondingCell u p) u with
  | none => none
  | some u1 =>
    if u1.oobbehavior = OOBBehavior.PERIODIC then u1.copyAllParticles else some u1

end GriddedUniverse

/-! ## Force passes (`particle.cpp`, `universe.cpp`, `intern_cell.cpp`,
`extern_border_cell.cpp`, `gridded_universe.cpp`)

The loops of a pass do not depend on the forces they change, so every pass is
written once, over an arbitrary state `σ` and an action `act st k source target`
standing for the call `interaction(source, target)` of the `k`-th registered
interaction.  The action that updates the particle list gives the pass itself;
the action that appends `(k, source, target)` to a list gives the sequence of
calls the pass makes. -/

/-- Method `Particle::applyInteractionForcesOn`: every registered interaction
is called in turn with the same source and target. -/
def applyInteractionForcesOn {σ α : Type} (act : σ → Nat → α → Nat → σ)
    (nbInteractions : Nat) (source : α) (other : Nat) (st : σ) : σ :=
  (List.range nbInteractions).foldl (fun st k => act st k source other) st

/-- Call `interaction(source, target)` on the particle list, for a source given
by value and a target given by its position. -/
def interactOnStore (interactions : List Interaction) (particles : List Particle)
    (k : Nat) (source : Particle) (target : Nat) : List Particle :=
  match interactions[k]?, particles[target]? with
  | some interaction, some tgt =>
      particles.set target (interaction.interactionFunction source tgt)
  | _, _ => particles

/-- Call `interaction(source, target)` on the particle list, for a source and a
target given by their positions. -/
def interactByPointer (interactions : List Interaction) (particles : List Particle)
    (k : Nat) (source target : Nat) : List Particle :=
  match particles[source]? with
  | some src => interactOnStore interactions particles k src target
  | none => particles

/-- Action recording the call instead of performing it. -/
def recordCall {α : Type} (log : List (Nat × α × Nat)) (k : Nat) (source : α)
    (target : Nat) : List (Nat × α × Nat) :=
  log ++ [(k, source, target)]

namespace InternCell

/-- Method `InternCell::applyForceOnParticle`. -/
def applyForceOnParticle {σ : Type} (act : σ → Nat → Nat → Nat → σ) (nbInteractions : Nat)
    (cell : InternCell) (p : Nat) (st : σ) : σ :=
  cell.particles.foldl
    (fun st cellParticle => applyInteractionForcesOn act nbInteractions cellParticle p st) st

/-- Method `InternCell::computeInternInterractions`. -/
def computeInternInterractions {σ : Type} (act : σ → Nat → Nat → Nat → σ)
    (nbInteractions : Nat) (cell : InternCell) (st : σ) : σ :=
  cell.particles.foldl
    (fun st p =>
      cell.particles.foldl
        (fun st cellParticle =>
          if cellParticle ≠ p then applyInteractionForcesOn act nbInteractions cellParticle p st
          else st)
        st)
    st

/-- Method `InternCell::applyForceOnNeighbours`.  Neighbour positions are below
the number of cells by construction; a position that designates no cell
contributes nothing. -/
def applyForceOnNeighbours {σ : Type} (act : σ → Nat → Nat → Nat → σ) (nbInteractions : Nat)
    (internCells : List InternCell) (cell : InternCell) (st : σ) : σ :=
  cell.neighbours.foldl
    (fun st neighbour =>
      match internCells[neighbour]? with
      | none => st
      | some nb =>
          nb.particles.foldl (fun st p => cell.applyForceOnParticle act nbInteractions p st) st)
    st

end InternCell

namespace ExternBorderCell

/-- Method `ExternBorderCell::applyForceOnParticle`: the sources are the owned
copies. -/
def applyForceOnParticle {σ : Type} (act : σ → Nat → Particle → Nat → σ)
    (nbInteractions : Nat) (cell : ExternBorderCell) (p : Nat) (st : σ) : σ :=
  cell.particles.foldl
    (fun st cellParticle => applyInteractionForcesOn act nbInteractions cellParticle p st) st

/-- Method `ExternBorderCell::applyForceOnNeighbours`. -/
def applyForceOnNeighbours {σ : Type} (act : σ → Nat → Particle → Nat → σ)
    (nbInteractions : Nat) (internCells : List InternCell) (cell : ExternBorderCell)
    (st : σ) : σ :=
  cell.neighbours.foldl
    (fun st neighbour =>
      match internCells[neighbour]? with
      | none => st
      | some nb =>
          nb.particles.foldl (fun st p => cell.applyForceOnParticle act nbInteractions p st) st)
    st

end ExternBorderCell

/-- Loops of `Universe::applyInteractionForces` over `nbParticles` particles:
for each interaction, each pair `i < j` is visited once and the interaction
called in both directions.  On an empty list the loop body is not reached. -/
def Universe.applyInteractionForcesWith {σ : Type} (act : σ → Nat → Nat → Nat → σ)
    (nbInteractions nbParticles : Nat) (st : σ) : σ :=
  (List.range nbInteractions).foldl
    (fun st k =>
      (List.range (nbParticles - 1)).foldl
        (fun st i =>
          (List.range' (i + 1) (nbParticles - (i + 1))).foldl
            (fun st j => act (act st k i j) k j i) st)
        st)
    st

/-- Method `Universe::applyInteractionForces`. -/
def Universe.applyInteractionForces (u : Universe) : Universe :=
  { u with particles :=
      (Universe.applyInteractionForcesWith (interactByPointer u.interactions)
        u.interactions.length u.particles.length u.particles) }

namespace GriddedUniverse

/-- Loops of `GriddedUniverse::applyInternInterractionsForces`. -/
def applyInternInterractionsForcesWith {σ : Type} (act : σ → Nat → Nat → Nat → σ)
    (u : GriddedUniverse) (st : σ) : σ :=
  u.internCells.foldl
    (fun st cell =>
      cell.computeInternInterractions act u.interactions.length
        (cell.applyForceOnNeighbours act u.interactions.length u.internCells st))
    st

/-- Method `GriddedUniverse::applyInternInterractionsForces`. -/
def applyInternInterractionsForces (u : GriddedUniverse) : GriddedUniverse :=
  { u with particles :=
      u.applyInternInterractionsForcesWith (interactByPointer u.interactions) u.particles }

/-- Calls `interaction(source, target)` made by
`GriddedUniverse::applyInternInterractionsForces`, in order, as triples
(interaction, source, target). -/
def applyInternInterractionsForcesCalls (u : GriddedUniverse) : List (Nat × Nat × Nat) :=
  u.applyInternInterractionsForcesWith recordCall []

/-- Loops of `GriddedUniverse::applyForeignNeighboursForces`. -/
def applyForeignNeighboursForcesWith {σ : Type} (act : σ → Nat → Particle → Nat → σ)
    (u : GriddedUniverse) (st : σ) : σ :=
  u.externBorderCells.foldl
    (fun st cell => cell.applyForceOnNeighbours act u.interactions.length u.internCells st) st

/-- Method `GriddedUniverse::applyForeignNeighboursForces`. -/
def applyForeignNeighboursForces (u : GriddedUniverse) : GriddedUniverse :=
  { u with particles :=
      u.applyForeignNeighboursForcesWith (interactOnStore u.interactions) u.particles }

/-- Calls `interaction(copy, target)` made by
`GriddedUniverse::applyForeignNeighboursForces`, in order. -/
def applyForeignNeighboursForcesCalls (u : GriddedUniverse) :
    List (Nat × Particle × Nat) :=
  u.applyForeignNeighboursForcesWith recordCall []

end GriddedUniverse

/-! ## Position update and boundary policies (`universe.cpp`, `finite_universe.cpp`) -/

/-- Body of the loop of `Universe::updatePositions` for one particle. -/
def Particle.updatePosition (p : Particle) (timeStep : ℚ) : Particle :=
  let deltaPosition := p.force
  let deltaPosition := deltaPosition.scale (0.5 * timeStep / p.mass)
  let deltaPosition := deltaPosition.add p.speed
  let deltaPosition := deltaPosition.scale timeStep
  p.addToPosition deltaPosition

/-- Method `Universe::updatePositions`. -/
def Universe.updatePositions (u : Universe) (timeStep : ℚ) : Universe :=
  { u with particles := u.particles.map (fun p => p.updatePosition timeStep) }

namespace FiniteUniverse

/-- Method `FiniteUniverse::isInBounds`. -/
def isInBounds (u : FiniteUniverse) (p : Particle) : Bool :=
  p.position.isInBounds u.lowerBound u.upperBound

/-- Loop of `removeOutOfBoundsParticles` from the iterator position onwards: a
particle in bounds is stepped over, any other is erased. -/
def removeOutOfBoundsLoop (u : FiniteUniverse) : List Particle → List Particle
  | [] => []
  | p :: rest =>
      if u.isInBounds p then p :: removeOutOfBoundsLoop u rest
      else removeOutOfBoundsLoop u rest

/-- Method `FiniteUniverse::removeOutOfBoundsParticles`. -/
def removeOutOfBoundsParticles (u : FiniteUniverse) : FiniteUniverse :=
  { u with particles := u.removeOutOfBoundsLoop u.particles }

/-- The `while` loop of `reflectOutOfBoundsParticles` on axis `i`, run for at
most `fuel` iterations; `none` when the loop has not ended by then.  The
product and the difference of `2*boundValue - coordValue` are rounded to
`double`. -/
def reflectLoop (lowerBound upperBound : ℚ) (i : Nat) : Nat → ℚ → Particle → Option Particle
  | 0, coordValue, p =>
      if coordValue < lowerBound ∨ coordValue > upperBound then none else some p
  | fuel + 1, coordValue, p =>
      if coordValue < lowerBound ∨ coordValue > upperBound then
        let boundValue := if coordValue < lowerBound then lowerBound else upperBound
        let p := p.invertSpeed i
        let coordValue := roundDouble (roundDouble (2 * boundValue) - coordValue)
        reflectLoop lowerBound upperBound i fuel coordValue (p.setPosCoord i coordValue)
      else some p

/-- Body of the loop of `reflectOutOfBoundsParticles` for one particle. -/
def reflectParticle (u : FiniteUniverse) (fuel : Nat) (p : Particle) : Option Particle :=
  (List.range u.dimension).foldlM
    (fun p i => reflectLoop (u.lowerBound.get i) (u.upperBound.get i) i fuel (p.position.get i) p)
    p

/-- Method `FiniteUniverse::reflectOutOfBoundsParticles`. -/
def reflectOutOfBoundsParticles (u : FiniteUniverse) (fuel : Nat) : Option FiniteUniverse :=
  (u.particles.mapM (u.reflectParticle fuel)).map (fun ps => { u with particles := ps })

/-- Body of the loop of `teleportOutOfBoundsParticles` for one particle. -/
def teleportParticle (u : FiniteUniverse) (p : Particle) : Particle :=
  (List.range u.dimension).foldl
    (fun p i =>
      let coordValue := p.position.get i
      if coordValue < u.lowerBound.get i ∨ coordValue > u.upperBound.get i then
        let divisor := u.upperBound.get i - u.lowerBound.get i
        let coordValue := fmod (fmod (coordValue - u.lowerBound.get i) divisor + divisor) divisor
        p.setPosCoord i coordValue
      else p)
    p

/-- Method `FiniteUniverse::teleportOutOfBoundsParticles`. -/
def teleportOutOfBoundsParticles (u : FiniteUniverse) : FiniteUniverse :=
  { u with particles := u.particles.map u.teleportParticle }

/-- Method `FiniteUniverse::handleOutOfBoundsParticles`. -/
def handleOutOfBoundsParticles (u : FiniteUniverse) (fuel : Nat) : Option FiniteUniverse :=
  match u.oobbehavior with
  | OOBBehavior.ABSORPTION => some u.removeOutOfBoundsParticles
  | OOBBehavior.REFLEXION => u.reflectOutOfBoundsParticles fuel
  | OOBBehavior.PERIODIC => some u.teleportOutOfBoundsParticles

/-- Method `FiniteUniverse::updatePositions`; `fuel` bounds the iterations of
each reflection loop. -/
def updatePositions (u : FiniteUniverse) (fuel : Nat) (timeStep : ℚ) : Option FiniteUniverse :=
  handleOutOfBoundsParticles { u with toUniverse := u.toUniverse.updatePositions timeStep } fuel

end FiniteUniverse

/-- Method `GriddedUniverse::updatePositions`. -/
def GriddedUniverse.updatePositions (u : GriddedUniverse) (fuel : Nat) (timeStep : ℚ) :
    Option GriddedUniverse :=
  match u.toFiniteUniverse.updatePositions fuel timeStep with
  | none => none
  | some fu => ({ u with toFiniteUniverse := fu } : GriddedUniverse).clearCells.fillCells

/-! ## Force update, velocity update and time loop (`particle.cpp`, `universe.cpp`, `forces.cpp`) -/

/-- Method `Vector::norm`. -/
def Vector.norm (sqrt : ℚ → ℚ) (v : Vector) : ℚ := sqrt v.normSq

/-- Function `min` of two vectors: the loop runs over the coordinates of `v1`. -/
def Vector.min (v1 v2 : Vector) : Vector :=
  (List.range v1.getDimension).foldl
    (fun result i => if v2.get i < result.get i then result.set i (v2.get i) else result) v1

/-- Function `max` of two vectors. -/
def Vector.max (v1 v2 : Vector) : Vector :=
  (List.range v1.getDimension).foldl
    (fun result i => if v2.get i > result.get i then result.set i (v2.get i) else result) v1

/-- Method `Particle::addToForceCoord`. -/
def Particle.addToForceCoord (p : Particle) (coord : Nat) (value : ℚ) : Particle :=
  { p with force := p.force.set coord (p.force.get coord + value) }

/-- Method `Particle::setForceToZero`: the loop runs over the dimension of the
particle. -/
def Particle.setForceToZero (p : Particle) : Particle :=
  { p with force := (List.range p.getDimension).foldl (fun force i => force.set i 0) p.force }

/-- Method `Particle::addToSpeed`. -/
def Particle.addToSpeed (p : Particle) (vect : Vector) : Particle :=
  { p with speed := p.speed.add vect }

/-- Method `Particle::multiplySpeed`. -/
def Particle.multiplySpeed (p : Particle) (scalar : ℚ) : Particle :=
  { p with speed := p.speed.scale scalar }

/-- Method `Particle::setOldForce`. -/
def Particle.setOldForce (p : Particle) (oldForce : Vector) : Particle :=
  { p with oldForce := oldForce }

/-- Method `Particle::distanceTo`. -/
def Particle.distanceTo (sqrt : ℚ → ℚ) (p other : Particle) : ℚ :=
  (other.position.sub p.position).norm sqrt

/-- Function `gravitationalInteraction`: the target as the call leaves it. -/
def gravitationalInteraction (sqrt : ℚ → ℚ) (source target : Particle) : Particle :=
  let r := source.distanceTo sqrt target
  let force := source.position
  let force := force.sub target.position
  let force := force.scale (source.mass * target.mass / r ^ 3)
  target.addToForce force

/-- Function `lennardJonesInteraction`: the target as the call leaves it. -/
def lennardJonesInteraction (sqrt : ℚ → ℚ) (source target : Particle) (epsilon sigma : ℚ) :
    Particle :=
  let r := source.distanceTo sqrt target
  let power_6_term := (sigma / r) ^ 6
  let force := source.position
  let force := force.sub target.position
  let force := force.scale (24 * epsilon * 1 / r ^ 2 * power_6_term * (1 - 2 * power_6_term))
  target.addToForce force

/-- Function `FWall`. -/
def FWall (r epsilon sigma : ℚ) : ℚ :=
  let power_6_term := (sigma / r / 2) ^ 6
  24 * epsilon / 2 / r * power_6_term * (1 - 2 * power_6_term)

/-- Function `wallsForce`: the target as the call leaves it. -/
def wallsForce (sixthRootOfTwo : ℚ) (target : Particle) (lowerBound upperBound : Vector)
    (epsilon sigma : ℚ) : Particle :=
  let r_cut := sigma * sixthRootOfTwo
  let dim := target.getDimension
  let pos := target.position
  (List.range dim).foldl
    (fun target i =>
      let r := pos.get i - lowerBound.get i
      let target := if r < r_cut then target.addToForceCoord i (-(FWall r epsilon sigma))
        else target
      let r := upperBound.get i - pos.get i
      if r < r_cut then target.addToForceCoord i (FWall r epsilon sigma) else target)
    target

namespace Universe

/-- Method `Universe::setForcesToZero`. -/
def setForcesToZero (u : Universe) : Universe :=
  { u with particles := u.particles.map Particle.setForceToZero }

/-- Method `Universe::applyExternalForces`. -/
def applyExternalForces (u : Universe) : Universe :=
  { u with particles := u.forces.foldl (fun ps force => ps.map force.applyOn) u.particles }

/-- Method `Universe::updateForces`. -/
def updateForces (u : Universe) : Universe :=
  u.setForcesToZero.applyExternalForces.applyInteractionForces

/-- Method `Universe::updatesExtremumValues`. -/
def updatesExtremumValues (sqrt : ℚ → ℚ) (u : Universe) : Universe :=
  u.particles.foldl
    (fun u p =>
      let u1 := { u with maxPosition := Vector.max u.maxPosition p.position }
      let u2 := { u1 with minPosition := Vector.min u1.minPosition p.position }
      let pforce := p.force.norm sqrt
      if pforce > u2.maxForce then { u2 with maxForce := pforce } else u2)
    u

/-- Method `Universe::currentCineticEnergy`. -/
def currentCineticEnergy (sqrt : ℚ → ℚ) (u : Universe) : ℚ :=
  (u.particles.foldl
    (fun sum p =>
      let speedNorm := p.speed.norm sqrt
      sum + p.mass * speedNorm * speedNorm)
    0) / 2

/-- First loop of `Universe::updatePaces`: the update of the speeds. -/
def updatePacesLoop (u : Universe) (timeStep : ℚ) : Universe :=
  { u with particles := u.particles.map (fun p =>
      let deltaSpeed := p.force
      let deltaSpeed := deltaSpeed.add p.oldForce
      let deltaSpeed := deltaSpeed.scale (0.5 * timeStep / p.mass)
      p.addToSpeed deltaSpeed) }

/-- Method `Universe::updatePaces`. -/
def updatePaces (sqrt : ℚ → ℚ) (u : Universe) (timeStep : ℚ) : Universe :=
  let u1 := u.updatePacesLoop timeStep
  let cineticEnergy := u1.currentCineticEnergy sqrt
  if cineticEnergy > u1.cineticEnergyLimit then
    let betaFactor := sqrt (u1.cineticEnergyLimit / cineticEnergy)
    { u1 with particles := u1.particles.map (fun p => p.multiplySpeed betaFactor) }
  else u1

/-- Body of the loop of `Universe::simulateStormerVerlet`, the update of
`currentTime` apart. -/
def simulateStep (sqrt : ℚ → ℚ) (u : Universe) (timeStep : ℚ) : Universe :=
  let u1 := u.updatesExtremumValues sqrt
  let u2 := u1.updatePositions timeStep
  let u3 : Universe := { u2 with particles := u2.particles.map (fun p => p.setOldForce p.force) }
  let u4 := u3.updateForces
  let u5 := u4.updatePaces sqrt timeStep
  { u5 with nbPastStates := u5.nbPastStates + 1 }

/-- Loop of `Universe::simulateStormerVerlet` from the value `currentTime`;
`fuel` bounds the number of iterations. -/
def simulateLoop (sqrt : ℚ → ℚ) (timeStep finalTime : ℚ) : Nat → ℚ → Universe → Option Universe
  | 0, currentTime, u => if currentTime < finalTime then none else some u
  | fuel + 1, currentTime, u =>
      if currentTime < finalTime then
        simulateLoop sqrt timeStep finalTime fuel (currentTime + timeStep)
          (u.simulateStep sqrt timeStep)
      else some u

/-- Method `Universe::simulateStormerVerlet`. -/
def simulateStormerVerlet (sqrt : ℚ → ℚ) (u : Universe) (fuel : Nat) (timeStep finalTime : ℚ) :
    Option Universe :=
  simulateLoop sqrt timeStep finalTime fuel 0 u.updateForces

/-- The value `nbIterations` that `Universe::simulateStormerVerlet` computes
for its progress bar. -/
def nbIterations (timeStep finalTime : ℚ) : Nat := doubleToSize (finalTime / timeStep)

end Universe

/-! ## Force update of a finite universe (`finite_universe.cpp`)

An exception `std::runtime_error` is the value `Except.error` with its
message. -/

namespace FiniteUniverse

/-- Method `FiniteUniverse::activateReflexionWithForces`: the stored function
reads the bounds the universe has at the call. -/
def activateReflexionWithForces (sixthRootOfTwo : ℚ) (u : FiniteUniverse)
    (epsilon sigma : ℚ) : FiniteUniverse :=
  { u with
    oobbehavior := OOBBehavior.REFLEXION,
    applyWallsForce := true,
    wallsForce :=
      ⟨fun target =>
        ParticlesSim.wallsForce sixthRootOfTwo target u.lowerBound u.upperBound epsilon sigma⟩ }

/-- Method `FiniteUniverse::applyWallsForces`. -/
def applyWallsForces (u : FiniteUniverse) : FiniteUniverse :=
  { u with particles := u.particles.map u.wallsForce.applyOn }

/-- Method `FiniteUniverse::applyForeignNeighboursForces`. -/
def applyForeignNeighboursForces (_u : FiniteUniverse) : Except String FiniteUniverse :=
  Except.error "Not yet implemented."

/-- Method `FiniteUniverse::applyExternalForces`. -/
def applyExternalForces (u : FiniteUniverse) : FiniteUniverse :=
  let u1 : FiniteUniverse := { u with toUniverse := u.toUniverse.applyExternalForces }
  if u1.applyWallsForce then u1.applyWallsForces else u1

/-- Method `FiniteUniverse::applyInternInterractionsForces`. -/
def applyInternInterractionsForces (u : FiniteUniverse) : FiniteUniverse :=
  { u with toUniverse := u.toUniverse.applyInteractionForces }

/-- Method `FiniteUniverse::applyLimitinterractionForces`. -/
def applyLimitinterractionForces (u : FiniteUniverse) : Except String FiniteUniverse :=
  if u.oobbehavior = OOBBehavior.PERIODIC then u.applyForeignNeighboursForces
  else Except.ok u

/-- Method `FiniteUniverse::applyInteractionForces`. -/
def applyInteractionForces (u : FiniteUniverse) : Except String FiniteUniverse :=
  u.applyInternInterractionsForces.applyLimitinterractionForces

/-- Method `Universe::updateForces` called on a finite universe: the calls of
`applyExternalForces` and `applyInteractionForces` reach the overrides. -/
def updateForces (u : FiniteUniverse) : Except String FiniteUniverse :=
  let u1 : FiniteUniverse := { u with toUniverse := u.toUniverse.setForcesToZero }
  u1.applyExternalForces.applyInteractionForces

end FiniteUniverse

/-! ## Assertions (`xassert.hpp`, `config.hpp`)

The definitions above are those of the shipped configuration, in which
`config.hpp` defines `NDEBUG` and `xassert` expands to nothing.  The
definitions of this section take the configuration as a parameter `ndebug`
(`true` for the shipped one).  With assertions enabled a failed assertion
calls `abort`, which is the value `none`; the asserted expression is evaluated
only in that configuration.  The operations on vectors read the coordinates of
their operands through `data[i]?`: a read outside the array has no defined
result, which is the value `none` as well. -/

/-- Macro `xassert(expr, msg)`. -/
def xassert (ndebug : Bool) (expr : Bool) : Option Unit :=
  if ndebug then some () else if expr then some () else none

namespace Vector

/-- Operator `+=`, which contains no assertion: the loop runs over the
coordinates of `v` and reads `other._data[i]`; `none` when that read is outside
the array. -/
def addCfg (_ndebug : Bool) (v other : Vector) : Option Vector :=
  ((List.range v.getDimension).mapM
    (fun i => (other.data[i]?).map (fun y => v.get i + y))).map Vector.mk

/-- Operator `-=`, which contains no assertion. -/
def subCfg (_ndebug : Bool) (v other : Vector) : Option Vector :=
  ((List.range v.getDimension).mapM
    (fun i => (other.data[i]?).map (fun y => v.get i - y))).map Vector.mk

/-- Loop of operator `==` over the coordinates still to compare. -/
def eqLoop (v other : Vector) : List Nat → Option Bool
  | [] => some true
  | i :: rest =>
      match other.data[i]? with
      | none => none
      | some y => if v.get i ≠ y then some false else eqLoop v other rest

/-- Operator `==`. -/
def eqCfg (ndebug : Bool) (v other : Vector) : Option Bool := do
  xassert ndebug (v.getDimension == other.getDimension)
  eqLoop v other (List.range v.getDimension)

/-- Operator `!=`. -/
def neCfg (ndebug : Bool) (v other : Vector) : Option Bool :=
  (v.eqCfg ndebug other).map (fun b => !b)

/-- Loop of `areAllCoordsGreater` over the coordinates still to compare. -/
def areAllCoordsGreaterLoop (v other : Vector) : List Nat → Option Bool
  | [] => some true
  | i :: rest =>
      match other.data[i]? with
      | none => none
      | some y => if v.get i ≤ y then some false else areAllCoordsGreaterLoop v other rest

/-- Method `areAllCoordsGreater`. -/
def areAllCoordsGreaterCfg (ndebug : Bool) (v other : Vector) : Option Bool := do
  xassert ndebug (v.getDimension == other.getDimension)
  areAllCoordsGreaterLoop v other (List.range v.getDimension)

/-- Loop of `isInBounds` over the coordinates still to compare; the upper bound
is read only when the coordinate is not below the lower bound. -/
def isInBoundsLoop (v lowerBound upperBound : Vector) : List Nat → Option Bool
  | [] => some true
  | i :: rest =>
      match lowerBound.data[i]? with
      | none => none
      | some lo =>
          if v.get i < lo then some false
          else
            match upperBound.data[i]? with
            | none => none
            | some up =>
                if v.get i > up then some false
                else isInBoundsLoop v lowerBound upperBound rest

/-- Method `isInBounds`. -/
def isInBoundsCfg (ndebug : Bool) (v lowerBound upperBound : Vector) : Option Bool := do
  xassert ndebug (lowerBound.getDimension == upperBound.getDimension)
  xassert ndebug (v.getDimension == lowerBound.getDimension)
  if ndebug then some ()
    else (upperBound.areAllCoordsGreaterCfg ndebug lowerBound).bind (xassert ndebug)
  isInBoundsLoop v lowerBound upperBound (List.range v.getDimension)

/-- Loop of `min`: `result` starts as the copy of `v1`. -/
def minLoop (v2 : Vector) : List Nat → Vector → Option Vector
  | [], result => some result
  | i :: rest, result =>
      match v2.data[i]? with
      | none => none
      | some y => minLoop v2 rest (if y < result.get i then result.set i y else result)

/-- Function `min`. -/
def minCfg (ndebug : Bool) (v1 v2 : Vector) : Option Vector := do
  xassert ndebug (v1.getDimension == v2.getDimension)
  minLoop v2 (List.range v1.getDimension) v1

/-- Loop of `max`: `result` starts as the copy of `v1`. -/
def maxLoop (v2 : Vector) : List Nat → Vector → Option Vector
  | [], result => some result
  | i :: rest, result =>
      match v2.data[i]? with
      | none => none
      | some y => maxLoop v2 rest (if y > result.get i then result.set i y else result)

/-- Function `max`. -/
def maxCfg (ndebug : Bool) (v1 v2 : Vector) : Option Vector := do
  xassert ndebug (v1.getDimension == v2.getDimension)
  maxLoop v2 (List.range v1.getDimension) v1

end Vector

/-- Constructor `Particle(pos, speed, mass, name)`. -/
def Particle.newCfg (ndebug : Bool) (pos speed : Vector) (mass : ℚ) (name : String)
    (particleCount : Int) : Option Particle := do
  xassert ndebug (pos.getDimension == speed.getDimension)
  some (Particle.new pos speed mass name particleCount)

/-- Method `Universe::addParticle(pos, speed, mass, name)`. -/
def Universe.addParticleCfg (ndebug : Bool) (u : Universe) (pos speed : Vector) (mass : ℚ)
    (name : String) : Option Universe := do
  xassert ndebug
    (pos.getDimension == speed.getDimension && pos.getDimension == u.dimension)
  let p ← Particle.newCfg ndebug pos speed mass name u.particleCount
  some { u with particles := u.particles ++ [p], particleCount := u.particleCount + 1 }

/-- Method `Universe::addParticle(pos, speed, mass)`, without a name: it is not
virtual and appends the particle itself. -/
def Universe.addParticleUnnamedCfg (ndebug : Bool) (u : Universe) (pos speed : Vector)
    (mass : ℚ) : Option Universe := do
  let name := "Particle " ++ toString u.particles.length
  let p ← Particle.newCfg ndebug pos speed mass name u.particleCount
  some { u with particles := u.particles ++ [p], particleCount := u.particleCount + 1 }

/-- Method `FiniteUniverse::addParticle(pos, speed, mass, name)`, the override
of the virtual method. -/
def FiniteUniverse.addParticleCfg (ndebug : Bool) (u : FiniteUniverse) (pos speed : Vector)
    (mass : ℚ) (name : String) : Option FiniteUniverse := do
  if ndebug then some ()
    else (pos.isInBoundsCfg ndebug u.lowerBound u.upperBound).bind (xassert ndebug)
  let v ← u.toUniverse.addParticleCfg ndebug pos speed mass name
  some { u with toUniverse := v }

/-- Method `Universe::addParticle(pos, speed, mass)` called on a finite
universe, where `using Universe::addParticle` makes it visible. -/
def FiniteUniverse.addParticleUnnamedCfg (ndebug : Bool) (u : FiniteUniverse)
    (pos speed : Vector) (mass : ℚ) : Option FiniteUniverse := do
  let v ← u.toUniverse.addParticleUnnamedCfg ndebug pos speed mass
  some { u with toUniverse := v }

/-! ## Predicates used in the statements -/

/-- The particle `c` is a copy, shifted by `offset`, of the particle at position
`i` of `particles`: same speed, mass and name, position moved by `offset`. -/
def IsCopyOf (particles : List Particle) (offset : Vector) (i : Nat) (c : Particle) : Prop :=
  ∃ p, particles[i]? = some p ∧ c.position = p.position.add offset ∧ c.speed = p.speed ∧
    c.mass = p.mass ∧ c.name = p.name

/-- Coordinate tuples written by nested loops over the axes `depth - 1`, ..., `0`
(outermost first), the loop on axis `i` running through `vals i`; the entries
of the other axes are those of `coordinates`. -/
def enumWith (vals : Nat → List Int) : Nat → List Int → List (List Int)
  | 0, coordinates => [coordinates]
  | depth + 1, coordinates =>
      (vals depth).flatMap (fun v => enumWith vals depth (coordinates.set depth v))

/-- Values of the loop variable of `createInternCellsRecursive` on axis `i`. -/
def internVals (dimensions : List Int) (i : Nat) : List Int :=
  (List.range (dimensions.getD i 0).toNat).map Int.ofNat

/-- Values of the loop variable of `createExternCellsRecursive` on axis `i`. -/
def externVals (dimensions : List Int) (i : Nat) : List Int :=
  (List.range (dimensions.getD i 0 + 2).toNat).map (fun k => Int.ofNat k - 1)

/-- Product of the cell counts of the axes below `i`. -/
def strideOf (dimensions : List Int) (i : Nat) : Nat :=
  ((dimensions.take i).map Int.toNat).prod

/-- Sum over the axes below `depth` of coordinate times stride. -/
def linearIndex (dimensions coordinates : List Int) (depth : Nat) : Nat :=
  ((List.range depth).map (fun i => (coordinates.getD i 0).toNat * strideOf dimensions i)).sum

/-- Calls `(interaction, source, target)` of the loops of
`Universe::applyInteractionForces`, in order. -/
def baselineCalls (nbInteractions nbParticles : Nat) : List (Nat × Nat × Nat) :=
  (List.range nbInteractions).flatMap (fun k =>
    (List.range (nbParticles - 1)).flatMap (fun i =>
      (List.range' (i + 1) (nbParticles - (i + 1))).flatMap (fun j => [(k, i, j), (k, j, i)])))

/-- The interaction that adds the vector `F source target` to the force of the
target. -/
def additiveInteraction (F : Particle → Particle → Vector) : Interaction :=
  ⟨fun source target => target.addToForce (F source target)⟩

/-- The external force that adds the vector `G target` to the force of the
target. -/
def additiveForce (G : Particle → Vector) : ExternalForce :=
  ⟨fun target => target.addToForce (G target)⟩

/-- The vector `F source target` does not depend on the forces stored in the
two particles. -/
def ForceBlindInteraction (F : Particle → Particle → Vector) : Prop :=
  ∀ (source target : Particle) (fs ft : Vector),
    F { source with force := fs } { target with force := ft } = F source target

/-- The vector `G target` does not depend on the force stored in the particle. -/
def ForceBlindForce (G : Particle → Vector) : Prop :=
  ∀ (target : Particle) (ft : Vector), G { target with force := ft } = G target

/-- One mirroring of the reflection loop: the coordinate `x` is replaced by its
mirror image about the lower bound when it is below it, about the upper bound
otherwise. -/
def mirrorAbout (lowerBound upperBound x : ℚ) : ℚ :=
  roundDouble (roundDouble (2 * (if x < lowerBound then lowerBound else upperBound)) - x)

/-! ## Example universes -/

/-- An interaction with a cutoff: the target receives the force
`source.position - target.position` when the squared distance is at most
`cutoff * cutoff`, and the zero vector otherwise. -/
def cutoffInteraction (cutoff : ℚ) (source target : Particle) : Particle :=
  let force := source.position.sub target.position
  if force.normSq ≤ cutoff * cutoff then target.addToForce force
  else target.addToForce (Vector.zero target.getDimension)

/-- The universe of sizes (1.5, 3) with cell side 1. -/
def grid2x3 : GriddedUniverse :=
  (GriddedUniverse.new ⟨[0, 0]⟩ ⟨[3 / 2, 3]⟩ 1 0 0).getD
    (GriddedUniverse.init ⟨[0, 0]⟩ ⟨[3 / 2, 3]⟩ 1 0 0)

/-- A universe on `[0, 0.5]` with cell side 1 and one particle on the upper
bound. -/
def thinLine : Option GriddedUniverse :=
  (GriddedUniverse.new ⟨[0]⟩ ⟨[1 / 2]⟩ 1 0 0).map
    (fun u => u.addParticle ⟨[1 / 2]⟩ ⟨[0]⟩ 1 "a")

/-- A universe on `[0, 1.5]` with cell side 1 and one particle on the upper
bound. -/
def shortLine : Option GriddedUniverse :=
  (GriddedUniverse.new ⟨[0]⟩ ⟨[3 / 2]⟩ 1 0 0).map
    (fun u => u.addParticle ⟨[3 / 2]⟩ ⟨[0]⟩ 1 "a")

/-- A universe on `[0, 0.5] x [0, 3]` with cell side 1 (absorbing bounds), the
cutoff interaction of radius 1, and two particles at distance below 1: one at
`(0.5, 1.25)` on the upper face of the first axis and one at `(0.25, 2)`. -/
def thinStrip : Option GriddedUniverse :=
  (GriddedUniverse.new ⟨[0, 0]⟩ ⟨[1 / 2, 3]⟩ 1 0 0).map
    (fun u =>
      (((u.addInteraction (cutoffInteraction 1)).addParticle ⟨[1 / 2, 5 / 4]⟩ ⟨[0, 0]⟩ 1 "a").addParticle
        ⟨[1 / 4, 2]⟩ ⟨[0, 0]⟩ 1 "b").setOOBBehavior OOBBehavior.ABSORPTION)

/-- A periodic universe on `[0, 2.5]` with cell side 1, the cutoff interaction
of radius 1, a particle `a` at 0 and a particle `b` at 1.75 (at distance 0.75
from `a` across the boundary). -/
def periodicLine : Option GriddedUniverse :=
  (GriddedUniverse.new ⟨[0]⟩ ⟨[5 / 2]⟩ 1 0 0).map
    (fun u =>
      (((u.addInteraction (cutoffInteraction 1)).addParticle ⟨[0]⟩ ⟨[0]⟩ 1 "a").addParticle
        ⟨[7 / 4]⟩ ⟨[0]⟩ 1 "b").setOOBBehavior OOBBehavior.PERIODIC)

/-- A periodic universe on `[0, 3]` with cell side 1, the cutoff interaction of
radius 1 and particles at 0.25, 2.75 and 0.5. -/
def periodicLine3 : Option GriddedUniverse :=
  (GriddedUniverse.new ⟨[0]⟩ ⟨[3]⟩ 1 0 0).map
    (fun u =>
      ((((u.addInteraction (cutoffInteraction 1)).addParticle ⟨[1 / 4]⟩ ⟨[0]⟩ 1 "a").addParticle
        ⟨[11 / 4]⟩ ⟨[0]⟩ 2 "b").addParticle ⟨[1 / 2]⟩ ⟨[0]⟩ 1 "c").setOOBBehavior
          OOBBehavior.PERIODIC)

/-- An absorbing unit square with three particles; with time step 1 the second
one leaves the bounds. -/
def absorbingBox : FiniteUniverse :=
  (((FiniteUniverse.new ⟨[0, 0]⟩ ⟨[1, 1]⟩ 0 0).addParticle ⟨[1 / 4, 1 / 4]⟩ ⟨[1 / 4, 0]⟩ 1 "a").addParticle
    ⟨[3 / 4, 1 / 2]⟩ ⟨[1 / 2, 0]⟩ 1 "b").addParticle ⟨[1 / 2, 1 / 2]⟩ ⟨[0, 1 / 2]⟩ 2 "c"

/-- The universe `periodicLine3`, as a universe. -/
def periodicLine3U : GriddedUniverse :=
  periodicLine3.getD (GriddedUniverse.init ⟨[0]⟩ ⟨[3]⟩ 1 0 0)

/-- The universe of sizes (1, 3) with cell side 1: a grid of 1 x 3 cells. -/
def strip1x3 : Option GriddedUniverse := GriddedUniverse.new ⟨[0, 0]⟩ ⟨[1, 3]⟩ 1 0 0

/-- The vector from the target to the source. -/
def linearPull (source target : Particle) : Vector := source.position.sub target.position

/-- A weight along the second axis. -/
def weight (target : Particle) : Vector := ⟨[0, -target.mass]⟩

/-- An unbounded universe of dimension 2 with the interaction `linearPull`,
the external force `weight` and three particles at `(0, 0)`, `(1, 0)` and
`(0, 2)` of masses 1, 2 and 3, each with a stored force `(5, 5)`. -/
def threeBody : Universe :=
  { Universe.new 2 0 0 with
    particles :=
      [{ Particle.new ⟨[0, 0]⟩ ⟨[0, 0]⟩ 1 "a" 0 with force := ⟨[5, 5]⟩ },
       { Particle.new ⟨[1, 0]⟩ ⟨[0, 0]⟩ 2 "b" 1 with force := ⟨[5, 5]⟩ },
       { Particle.new ⟨[0, 2]⟩ ⟨[0, 0]⟩ 3 "c" 2 with force := ⟨[5, 5]⟩ }],
    interactions := [additiveInteraction linearPull],
    forces := [additiveForce weight],
    particleCount := 3 }

/-- Least natural number whose square is `n`, or 0 when there is none. -/
def sqrtNat (n : Nat) : Nat := ((List.range (n + 1)).find? (fun k => k * k == n)).getD 0

/-- A square root that is exact on the quotients of two perfect squares. -/
def sqrtExact (q : ℚ) : ℚ := (sqrtNat q.num.toNat : ℚ) / (sqrtNat q.den : ℚ)

/-- The unit square with three particles: `a` at rest at `(1/4, 1/2)`, and two
moving particles that leave the bounds with time step 1. -/
def restingBox (policy : OOBBehavior) : FiniteUniverse :=
  ((((FiniteUniverse.new ⟨[0, 0]⟩ ⟨[1, 1]⟩ 0 0).addParticle ⟨[3 / 4, 1 / 2]⟩ ⟨[5, 0]⟩ 1 "b").addParticle
    ⟨[1 / 4, 1 / 2]⟩ ⟨[0, 0]⟩ 1 "a").addParticle ⟨[1 / 2, 1 / 2]⟩ ⟨[0, -7 / 2]⟩ 2 "c").setOOBBehavior
      policy

/-- The vector that `gravitationalInteraction` adds to the force of the
target. -/
def gravitationalVector (sqrt : ℚ → ℚ) (source target : Particle) : Vector :=
  (source.position.sub target.position).scale
    (source.mass * target.mass / (source.distanceTo sqrt target) ^ 3)

/-- A square root that is exact on the quotients of two perfect squares and
positive on positive numbers. -/
def sqrtPos (q : ℚ) : ℚ := if sqrtExact q * sqrtExact q = q then sqrtExact q else 1

/-- An unbounded universe with the gravitational interaction alone and two
particles of mass `mass` at rest at `posA` and `posB`. -/
def twoBody (sqrt : ℚ → ℚ) (posA posB : Vector) (mass : ℚ) : Universe :=
  ((((Universe.new posA.getDimension 0 0).addInteraction (gravitationalInteraction sqrt)).addParticle
    posA (Vector.zero posA.getDimension) mass "a").addParticle
      posB (Vector.zero posA.getDimension) mass "b")

/-- A periodic universe on `[10, 20]` with one particle at 19 of speed 6. -/
def shiftedLine : FiniteUniverse :=
  ((FiniteUniverse.new ⟨[10]⟩ ⟨[20]⟩ 0 0).addParticle ⟨[19]⟩ ⟨[6]⟩ 1 "a").setOOBBehavior
    OOBBehavior.PERIODIC

/-- The universe `shiftedLine` with a grid of cell side 5. -/
def shiftedGrid : Option GriddedUniverse :=
  (GriddedUniverse.new ⟨[10]⟩ ⟨[20]⟩ 5 0 0).map
    (fun u => (u.addParticle ⟨[19]⟩ ⟨[6]⟩ 1 "a").setOOBBehavior OOBBehavior.PERIODIC)

/-- A periodic universe on `[1, 3]` with one particle at 2.5 of speed 1. -/
def offsetLine : FiniteUniverse :=
  ((FiniteUniverse.new ⟨[1]⟩ ⟨[3]⟩ 0 0).addParticle ⟨[5 / 2]⟩ ⟨[1]⟩ 1 "a").setOOBBehavior
    OOBBehavior.PERIODIC

/-- The universe `restingBox` under REFLEXION after the position update of
time step 1: `b` is at `(5.75, 0.5)`, `a` at `(0.25, 0.5)` and `c` at
`(0.5, -3)`. -/
def movedBox : FiniteUniverse :=
  { restingBox OOBBehavior.REFLEXION with
    toUniverse := (restingBox OOBBehavior.REFLEXION).toUniverse.updatePositions 1 }

/-- The vector that `lennardJonesInteraction` adds to the force of the
target. -/
def lennardJonesVector (sqrt : ℚ → ℚ) (epsilon sigma : ℚ) (source target : Particle) : Vector :=
  (source.position.sub target.position).scale
    (24 * epsilon * 1 / (source.distanceTo sqrt target) ^ 2 *
      (sigma / source.distanceTo sqrt target) ^ 6 *
      (1 - 2 * (sigma / source.distanceTo sqrt target) ^ 6))

/-- An unbounded universe of dimension 2 with the gravitational interaction, the
Lennard-Jones interaction of parameters `epsilon = 1` and `sigma = 2`, and
three particles at `(0, 0)`, `(3, 0)` and `(0, 4)` of masses 1, 2 and 3. -/
def mixedTriple : Universe :=
  ((((((Universe.new 2 0 0).addInteraction (gravitationalInteraction sqrtPos)).addInteraction
    (fun source target => lennardJonesInteraction sqrtPos source target 1 2)).addParticle
      ⟨[0, 0]⟩ ⟨[0, 0]⟩ 1 "a").addParticle ⟨[3, 0]⟩ ⟨[0, 0]⟩ 2 "b").addParticle
        ⟨[0, 4]⟩ ⟨[0, 0]⟩ 3 "c")

/-- The universe of sizes (3, 3) with cell side 1, right after construction: a
grid of 3 x 3 cells. -/
def grid3x3 : GriddedUniverse :=
  (GriddedUniverse.new ⟨[0, 0]⟩ ⟨[3, 3]⟩ 1 0 0).getD
    (GriddedUniverse.init ⟨[0, 0]⟩ ⟨[3, 3]⟩ 1 0 0)

/-- The universe of sizes (1, 1) with cell side 1, right after construction: a
single cell. -/
def grid1x1 : GriddedUniverse :=
  (GriddedUniverse.new ⟨[0, 0]⟩ ⟨[1, 1]⟩ 1 0 0).getD
    (GriddedUniverse.init ⟨[0, 0]⟩ ⟨[1, 1]⟩ 1 0 0)

/-- A periodic universe on `[0, 3]` with cell side 1, after `clearCells` and
`fillCells`: the particle `a` at 0.25 is in the first cell, `b` at 2.75 in the
last one and `m` at 1.5 in the middle one; each border cell holds one copy. -/
def periodicTripleBare : GriddedUniverse :=
  ((GriddedUniverse.new ⟨[0]⟩ ⟨[3]⟩ 1 0 0).bind
    (fun u =>
      ((((u.addParticle ⟨[1 / 4]⟩ ⟨[0]⟩ 1 "a").addParticle
        ⟨[11 / 4]⟩ ⟨[0]⟩ 2 "b").addParticle ⟨[3 / 2]⟩ ⟨[0]⟩ 1 "m").setOOBBehavior
          OOBBehavior.PERIODIC).clearCells.fillCells)).getD
    (GriddedUniverse.init ⟨[0]⟩ ⟨[3]⟩ 1 0 0)

/-- The universe `periodicTripleBare` with the cutoff interaction of radius 1. -/
def periodicTriple : GriddedUniverse :=
  periodicTripleBare.addInteraction (cutoffInteraction 1)

/-- A universe on `[-(1 - 2^-53), 2]` with cell side 1 (three cells) and the
cutoff interaction of radius 1; the lower bound is the `double`
`-0.9999999999999999`.  The particle `a` is at `2^-55` and `b` at `1`, at
distance below 1. -/
def roundedLine : Option GriddedUniverse :=
  (GriddedUniverse.new ⟨[-(1 - 1 / 2 ^ 53)]⟩ ⟨[2]⟩ 1 0 0).map
    (fun u =>
      (((u.addInteraction (cutoffInteraction 1)).addParticle ⟨[1 / 2 ^ 55]⟩ ⟨[0]⟩ 1 "a").addParticle
        ⟨[1]⟩ ⟨[0]⟩ 1 "b").setOOBBehavior OOBBehavior.ABSORPTION)

/-- A universe on `[0, 0.9]` with cell side `0.3`, both the `double` nearest to
the decimal number, and one particle at the `double` just below `0.9`. -/
def shortGrid : Option GriddedUniverse :=
  (GriddedUniverse.new ⟨[0]⟩ ⟨[roundDouble (9 / 10)]⟩ (roundDouble (3 / 10)) 0 0).map
    (fun u => u.addParticle ⟨[roundDouble (9 / 10) - 1 / 2 ^ 53]⟩ ⟨[0]⟩ 1 "a")

/-- The segment `[0, 1]` under REFLEXION with a particle `a` at rest at `0.5`
and a particle `b` at `0` of speed `2^55`. -/
def runawayLine : FiniteUniverse :=
  (((FiniteUniverse.new ⟨[0]⟩ ⟨[1]⟩ 0 0).addParticle ⟨[1 / 2]⟩ ⟨[0]⟩ 1 "a").addParticle
    ⟨[0]⟩ ⟨[2 ^ 55]⟩ 1 "b").setOOBBehavior OOBBehavior.REFLEXION

/-- The universe `runawayLine` after the position update of time step 1: `b` is
at `2^55`. -/
def runawayMoved : FiniteUniverse :=
  { runawayLine with toUniverse := runawayLine.toUniverse.updatePositions 1 }

/-! # Theorems -/

theorem truncToInt_of_nonneg {q : ℚ} (h : 0 ≤ q) : truncToInt q = ⌊q⌋ := by
  simp [truncToInt, h]

theorem roundDouble_zero : roundDouble 0 = 0 := by
  simp [roundDouble]

/-- Cell coordinate computed by `correspondingCellCoordonates` on one axis. -/
theorem getD_correspondingCellCoordonates (u : GriddedUniverse) (pos : Vector) (i : Nat)
    (hi : i < u.dimension) :
    (u.correspondingCellCoordonates pos).getD i 0 =
      if pos.get i = u.upperBound.get i
      then truncToInt
        (roundDouble (roundDouble (pos.get i - u.lowerBound.get i) / u.cellSide)) - 1
      else truncToInt
        (roundDouble (roundDouble (pos.get i - u.lowerBound.get i) / u.cellSide)) := by
  simp [GriddedUniverse.correspondingCellCoordonates, List.getD_eq_getElem?_getD,
    List.getElem?_map, List.getElem?_range, hi]

theorem floor_adjacent {X Y : ℚ} (h1 : X - Y ≤ 1) (h2 : Y - X ≤ 1) :
    |⌊X⌋ - ⌊Y⌋| ≤ 1 := by
  have hX := Int.floor_le X
  have hX' := Int.lt_floor_add_one X
  have hY := Int.floor_le Y
  have hY' := Int.lt_floor_add_one Y
  rw [abs_le]
  constructor
  · have : ((⌊Y⌋ : Int) : ℚ) < (⌊X⌋ : ℚ) + 2 := by linarith
    have : ⌊Y⌋ < ⌊X⌋ + 2 := by exact_mod_cast this
    omega
  · have : ((⌊X⌋ : Int) : ℚ) < (⌊Y⌋ : ℚ) + 2 := by linarith
    have : ⌊X⌋ < ⌊Y⌋ + 2 := by exact_mod_cast this
    omega

theorem floor_adjacent_upper {X Y : ℚ} (h1 : Y < X) (h2 : X - Y ≤ 1) :
    |(⌊X⌋ - 1) - ⌊Y⌋| ≤ 1 := by
  have hX := Int.floor_le X
  have hX' := Int.lt_floor_add_one X
  have hY := Int.floor_le Y
  have hY' := Int.lt_floor_add_one Y
  have hle : ⌊Y⌋ ≤ ⌊X⌋ := Int.floor_le_floor (le_of_lt h1)
  rw [abs_le]
  constructor
  · omega
  · have : ((⌊X⌋ : Int) : ℚ) < (⌊Y⌋ : ℚ) + 2 := by linarith
    have : ⌊X⌋ < ⌊Y⌋ + 2 := by exact_mod_cast this
    omega

theorem foldl_add_sq (f : Nat → ℚ) (l : List Nat) (init : ℚ) :
    l.foldl (fun sum i => sum + f i * f i) init = init + (l.map (fun i => f i * f i)).sum := by
  induction l generalizing init with
  | nil => simp
  | cons x xs ih => simp [ih, add_assoc]

theorem Vector.sq_le_normSq (v : Vector) (i : Nat) (hi : i < v.getDimension) :
    v.get i * v.get i ≤ v.normSq := by
  unfold Vector.normSq
  rw [foldl_add_sq, zero_add]
  apply List.single_le_sum
  · intro x hx
    simp only [List.mem_map] at hx
    obtain ⟨j, _, rfl⟩ := hx
    exact mul_self_nonneg _
  · simp only [List.mem_map, List.mem_range]
    exact ⟨i, hi, rfl⟩

theorem Vector.get_sub (v w : Vector) (i : Nat) (hi : i < v.getDimension) :
    (v.sub w).get i = v.get i - w.get i := by
  simp [Vector.sub, Vector.get, List.getD_eq_getElem?_getD, List.getElem?_map,
    List.getElem?_range, hi]

theorem Vector.getDimension_sub (v w : Vector) : (v.sub w).getDimension = v.getDimension := by
  simp [Vector.sub, Vector.getDimension]

theorem Vector.isInBounds_iff (v lb ub : Vector) :
    v.isInBounds lb ub = true ↔
      ∀ i, i < v.getDimension → lb.get i ≤ v.get i ∧ v.get i ≤ ub.get i := by
  simp [Vector.isInBounds, List.all_eq_true]

theorem abs_le_of_sq_le {d s : ℚ} (hs : 0 < s) (h : d * d ≤ s * s) : |d| ≤ s := by
  rw [abs_le]
  constructor <;> nlinarith

/-- Pure form of the adjacency of cell coordinates on one axis. -/
theorem cellCoordinate_adjacent {lb ub s x y : ℚ} (hs : 0 < s)
    (hx : lb ≤ x) (hx' : x ≤ ub) (hy : lb ≤ y) (hy' : y ≤ ub) (hxy : |y - x| ≤ s) :
    |(if x = ub then truncToInt ((x - lb) / s) - 1 else truncToInt ((x - lb) / s)) -
      (if y = ub then truncToInt ((y - lb) / s) - 1 else truncToInt ((y - lb) / s))| ≤ 1 := by
  have hX : 0 ≤ (x - lb) / s := div_nonneg (by linarith) hs.le
  have hY : 0 ≤ (y - lb) / s := div_nonneg (by linarith) hs.le
  rw [truncToInt_of_nonneg hX, truncToInt_of_nonneg hY]
  rw [abs_le] at hxy
  have hsub : (x - lb) / s - (y - lb) / s = (x - y) / s := by ring
  have h1 : (x - lb) / s - (y - lb) / s ≤ 1 := by
    rw [hsub, div_le_one hs]; linarith
  have h2 : (y - lb) / s - (x - lb) / s ≤ 1 := by
    have : (y - lb) / s - (x - lb) / s = (y - x) / s := by ring
    rw [this, div_le_one hs]; linarith
  by_cases hxu : x = ub <;> by_cases hyu : y = ub
  · subst hxu; subst hyu; simp
  · simp only [hxu, hyu, if_true, if_false]
    have hlt : (y - lb) / s < (x - lb) / s := by
      apply div_lt_div_of_pos_right _ hs
      have : y < ub := lt_of_le_of_ne hy' hyu
      linarith
    simpa [hxu] using floor_adjacent_upper hlt h1
  · simp only [hxu, hyu, if_true, if_false]
    have hlt : (x - lb) / s < (y - lb) / s := by
      apply div_lt_div_of_pos_right _ hs
      have : x < ub := lt_of_le_of_ne hx' hxu
      linarith
    have := floor_adjacent_upper hlt h2
    rw [abs_sub_comm] at this
    simpa [hyu] using this
  · simp only [hxu, hyu, if_false]
    exact floor_adjacent h1 h2

/-- Where the difference to the lower bound and the quotient by the cell side
are computed without rounding error for both positions, two positions inside
the closed bounds whose Euclidean distance is at most the cell side get cell
coordinates that differ by at most 1 on every axis. -/
theorem correspondingCellCoordonates_adjacent_of_exact (u : GriddedUniverse) (a b : Vector)
    (hside : 0 < u.cellSide)
    (ha : a.getDimension = u.dimension) (hb : b.getDimension = u.dimension)
    (hina : a.isInBounds u.lowerBound u.upperBound = true)
    (hinb : b.isInBounds u.lowerBound u.upperBound = true)
    (hdist : (b.sub a).normSq ≤ u.cellSide * u.cellSide)
    (hea : ∀ i, i < u.dimension →
      roundDouble (a.get i - u.lowerBound.get i) = a.get i - u.lowerBound.get i ∧
      roundDouble ((a.get i - u.lowerBound.get i) / u.cellSide) =
        (a.get i - u.lowerBound.get i) / u.cellSide)
    (heb : ∀ i, i < u.dimension →
      roundDouble (b.get i - u.lowerBound.get i) = b.get i - u.lowerBound.get i ∧
      roundDouble ((b.get i - u.lowerBound.get i) / u.cellSide) =
        (b.get i - u.lowerBound.get i) / u.cellSide) :
    ∀ i, i < u.dimension →
      |(u.correspondingCellCoordonates a).getD i 0 -
        (u.correspondingCellCoordonates b).getD i 0| ≤ 1 := by
  intro i hi
  rw [getD_correspondingCellCoordonates u a i hi, getD_correspondingCellCoordonates u b i hi,
    (hea i hi).1, (hea i hi).2, (heb i hi).1, (heb i hi).2]
  rw [Vector.isInBounds_iff] at hina hinb
  obtain ⟨ha1, ha2⟩ := hina i (by omega)
  obtain ⟨hb1, hb2⟩ := hinb i (by omega)
  have hsq := Vector.sq_le_normSq (b.sub a) i (by rw [Vector.getDimension_sub]; omega)
  rw [Vector.get_sub b a i (by omega)] at hsq
  exact cellCoordinate_adjacent hside ha1 ha2 hb1 hb2 (abs_le_of_sq_le hside (le_trans hsq hdist))

theorem sizeToInt_of_lt {n : Nat} (h : n < 2 ^ 31) : sizeToInt n = n := by
  unfold sizeToInt
  have : (n + 2 ^ 31) % 2 ^ 32 = n + 2 ^ 31 := Nat.mod_eq_of_lt (by omega)
  rw [this]
  push_cast
  ring

theorem doubleToSize_intCast {z : Int} (hz : 0 ≤ z) : doubleToSize (z : ℚ) = z.toNat := by
  unfold doubleToSize
  rw [truncToInt_of_nonneg (by exact_mod_cast hz)]
  simp

theorem GriddedUniverse.dimensions_new {lb ub : Vector} {side mf : ℚ} {pc : Int}
    {u : GriddedUniverse} (h : GriddedUniverse.new lb ub side mf pc = some u) :
    u.dimensions = (List.range lb.getDimension).map (GriddedUniverse.cellCount lb ub side) := by
  unfold GriddedUniverse.new at h
  rw [Option.map_eq_some'] at h
  obtain ⟨u1, h1, rfl⟩ := h
  unfold GriddedUniverse.cellsCreation at h1
  rw [Option.map_eq_some'] at h1
  obtain ⟨cells, _, rfl⟩ := h1
  rfl

theorem getD_map_range {α : Type} (f : Nat → α) (n i : Nat) (d : α) (hi : i < n) :
    ((List.range n).map f).getD i d = f i := by
  simp [List.getD_eq_getElem?_getD, List.getElem?_map, List.getElem?_range, hi]

/-- Where the difference of the bounds and its quotient by the cell side are
computed without rounding error, on an axis where the upper bound is above the
lower bound, the cell side is positive and `ceil(extent / cellSide)` is below
`2^31`, the number of cells computed by `cellsCreation` is
`ceil(extent / cellSide)`; it is at least 1, it is the least integer `n` with
`n * cellSide ≥ extent`, and it is the entry the constructed universe stores in
`_dimensions` for that axis. -/
theorem cellCount_eq_ceil_of_exact (lb ub : Vector) (side : ℚ) (i : Nat)
    (hi : i < ub.getDimension) (hi' : i < lb.getDimension)
    (hlt : lb.get i < ub.get i) (hside : 0 < side)
    (hfit : ⌈(ub.get i - lb.get i) / side⌉ < 2147483648)
    (hex1 : roundDouble (ub.get i - lb.get i) = ub.get i - lb.get i)
    (hex2 : roundDouble ((ub.get i - lb.get i) / side) = (ub.get i - lb.get i) / side) :
    GriddedUniverse.cellCount lb ub side i = ⌈(ub.get i - lb.get i) / side⌉ ∧
    1 ≤ GriddedUniverse.cellCount lb ub side i ∧
    ub.get i - lb.get i ≤ (GriddedUniverse.cellCount lb ub side i : ℚ) * side ∧
    (∀ n : Int, ub.get i - lb.get i ≤ (n : ℚ) * side →
      GriddedUniverse.cellCount lb ub side i ≤ n) ∧
    (∀ (mf : ℚ) (pc : Int) (u : GriddedUniverse),
      GriddedUniverse.new lb ub side mf pc = some u →
      u.dimensions.getD i 0 = ⌈(ub.get i - lb.get i) / side⌉) := by
  have hpos : 0 < (ub.get i - lb.get i) / side := div_pos (by linarith) hside
  have hceil : 1 ≤ ⌈(ub.get i - lb.get i) / side⌉ := Int.one_le_ceil_iff.mpr hpos
  have hle : ub.get i - lb.get i ≤ ((⌈(ub.get i - lb.get i) / side⌉ : Int) : ℚ) * side := by
    rw [← div_le_iff₀ hside]
    exact Int.le_ceil _
  have hleast : ∀ n : Int, ub.get i - lb.get i ≤ (n : ℚ) * side →
      ⌈(ub.get i - lb.get i) / side⌉ ≤ n := by
    intro n hn
    apply Int.ceil_le.mpr
    rw [div_le_iff₀ hside]
    exact hn
  have hcount : GriddedUniverse.cellCount lb ub side i = ⌈(ub.get i - lb.get i) / side⌉ := by
    unfold GriddedUniverse.cellCount
    rw [Vector.get_sub ub lb i hi, hex1, hex2]
    generalize ⌈(ub.get i - lb.get i) / side⌉ = c at hfit hceil
    have hnat : c.toNat < 2 ^ 31 := by
      have := Int.toNat_of_nonneg (show 0 ≤ c by omega)
      omega
    rw [doubleToSize_intCast (by omega), sizeToInt_of_lt hnat]
    exact Int.toNat_of_nonneg (by omega)
  refine ⟨hcount, hcount ▸ hceil, hcount ▸ hle, ?_, ?_⟩
  · intro n hn
    rw [hcount]
    exact hleast n hn
  · intro mf pc u hu
    have hd := GriddedUniverse.dimensions_new hu
    have hg := getD_map_range (GriddedUniverse.cellCount lb ub side) lb.getDimension i 0 hi'
    exact (congrArg (fun l => l.getD i 0) hd).trans (hg.trans hcount)

/-- C4, evaluation: on `[0, 0.5]` with cell side 1 there is one cell; the position
0.5 (inside the closed bounds) gets the coordinate -1, `internCellIndex` of it
is `2^64 - 1`, and filling the cells has no defined result. -/
theorem correspondingCellCoordonates_negative :
    thinLine.map (fun u => (u.dimensions, u.internCells.length)) = some ([1], 1) ∧
    thinLine.map (fun u =>
      u.particles.map (fun p => p.position.isInBounds u.lowerBound u.upperBound)) =
        some [true] ∧
    thinLine.map (fun u =>
      u.particles.map (fun p => u.correspondingCellCoordonates p.position)) = some [[-1]] ∧
    thinLine.map (fun u => u.particles.map (fun p =>
      internCellIndex u.dimensions (u.correspondingCellCoordonates p.position))) =
        some [18446744073709551615] ∧
    thinLine.map (fun u => u.clearCells.fillCells.isSome) = some false := by
  decide!

/-- C5, evaluation: on `[0, 1.5]` with cell side 1 there are 2 cells on the axis
(`ceil(1.5) = 2`), and the position 1.5 on the upper bound gets the coordinate
0, not `2 - 1 = 1`; the particle is bound to the cell of coordinate 0. -/
theorem correspondingCellCoordonates_upper_face :
    shortLine.map (fun u =>
        (u.dimensions,
         u.particles.map (fun p => decide (p.position.get 0 = u.upperBound.get 0)),
         u.particles.map (fun p => u.correspondingCellCoordonates p.position))) =
      some ([2], [true], [[0]]) ∧
    (shortLine.bind (fun u => u.clearCells.fillCells)).map
        (fun u => u.internCells.map (fun c => (c.coordinates, c.particles))) =
      some [([0], [0]), ([1], [])] := by
  decide!

theorem FiniteUniverse.removeOutOfBoundsLoop_eq_filter (u : FiniteUniverse) (ps : List Particle) :
    u.removeOutOfBoundsLoop ps = ps.filter (fun p => u.isInBounds p) := by
  induction ps with
  | nil => rfl
  | cons p rest ih =>
    by_cases hp : u.isInBounds p = true
    · simp [FiniteUniverse.removeOutOfBoundsLoop, hp, ih]
    · simp [FiniteUniverse.removeOutOfBoundsLoop, hp, ih]

theorem FiniteUniverse.updatePositions_of_absorption (u : FiniteUniverse) (fuel : Nat)
    (timeStep : ℚ) (h : u.oobbehavior = OOBBehavior.ABSORPTION) :
    u.updatePositions fuel timeStep =
      some (FiniteUniverse.removeOutOfBoundsParticles
        { u with toUniverse := u.toUniverse.updatePositions timeStep }) := by
  simp only [FiniteUniverse.updatePositions, FiniteUniverse.handleOutOfBoundsParticles, h]

theorem FiniteUniverse.particles_removeOutOfBounds_update (u : FiniteUniverse) (timeStep : ℚ) :
    (FiniteUniverse.removeOutOfBoundsParticles
        { u with toUniverse := u.toUniverse.updatePositions timeStep }).particles =
      (u.particles.map (fun p => p.updatePosition timeStep)).filter
        (fun p => p.position.isInBounds u.lowerBound u.upperBound) := by
  simp only [FiniteUniverse.removeOutOfBoundsParticles,
    FiniteUniverse.removeOutOfBoundsLoop_eq_filter, Universe.updatePositions]
  rfl

/-- C7: under ABSORPTION, `FiniteUniverse::updatePositions` returns, and its
particle list is the list of Verlet-updated particles with exactly those whose
updated position lies inside the closed bounds kept: a particle is in the list
if and only if it is an updated particle with its position in bounds, and the
survivors are a sublist (same relative order, same state) of the updated
particles. -/
theorem updatePositions_absorption (u : FiniteUniverse) (fuel : Nat) (timeStep : ℚ)
    (h : u.oobbehavior = OOBBehavior.ABSORPTION) :
    ∃ u1, u.updatePositions fuel timeStep = some u1 ∧
      u1.particles =
        (u.particles.map (fun p => p.updatePosition timeStep)).filter
          (fun p => p.position.isInBounds u.lowerBound u.upperBound) ∧
      u1.particles.Sublist (u.particles.map (fun p => p.updatePosition timeStep)) ∧
      (∀ p, p ∈ u1.particles ↔
        p ∈ u.particles.map (fun p => p.updatePosition timeStep) ∧
          p.position.isInBounds u.lowerBound u.upperBound = true) := by
  refine ⟨_, FiniteUniverse.updatePositions_of_absorption u fuel timeStep h,
    FiniteUniverse.particles_removeOutOfBounds_update u timeStep, ?_, ?_⟩
  · rw [FiniteUniverse.particles_removeOutOfBounds_update]
    exact List.filter_sublist _
  · intro p
    rw [FiniteUniverse.particles_removeOutOfBounds_update, List.mem_filter]

/-- C7, witness: in the absorbing unit square the particle `b` moves to
`(1.25, 0.5)` and is removed; `a` and `c` stay, in this order, at their updated
positions. -/
theorem updatePositions_absorption_witness :
    (∃ u1, absorbingBox.updatePositions 0 1 = some u1 ∧
      u1.particles =
        (absorbingBox.particles.map (fun p => p.updatePosition 1)).filter
          (fun p => p.position.isInBounds absorbingBox.lowerBound absorbingBox.upperBound)) ∧
    (absorbingBox.updatePositions 0 1).map
        (fun u => u.particles.map (fun p => (p.name, p.position.data))) =
      some [("a", [1 / 2, 1 / 4]), ("c", [1 / 2, 1])] :=
  ⟨(updatePositions_absorption absorbingBox 0 1 (by decide)).imp (fun _ h => ⟨h.1, h.2.1⟩),
   by decide!⟩

/-- C1, evaluation: in the strip `[0, 0.5] x [0, 3]` with cell side 1 and the
cutoff interaction of radius 1, the particles at `(0.5, 1.25)` and `(0.25, 2)`
are in bounds and at squared distance 0.625; after filling the cells the
gridded pass makes no call and leaves both forces at zero, while the all-pairs
pass gives the forces `(-0.25, 0.75)` and `(0.25, -0.75)`. -/
theorem gridded_pass_differs_from_baseline :
    thinStrip.map (fun u => (u.oobbehavior,
      u.particles.map (fun p => p.position.isInBounds u.lowerBound u.upperBound))) =
      some (OOBBehavior.ABSORPTION, [true, true]) ∧
    ((Vector.mk [1 / 4, 2]).sub (Vector.mk [1 / 2, 5 / 4])).normSq = 5 / 8 ∧
    (thinStrip.bind (fun u => u.clearCells.fillCells)).map
        (fun u => u.applyInternInterractionsForcesCalls) = some [] ∧
    (thinStrip.bind (fun u => u.clearCells.fillCells)).map
        (fun u => u.applyInternInterractionsForces.particles.map (fun p => p.force.data)) =
      some [[0, 0], [0, 0]] ∧
    (thinStrip.bind (fun u => u.clearCells.fillCells)).map
        (fun u => u.toUniverse.applyInteractionForces.particles.map (fun p => p.force.data)) =
      some [[-1 / 4, 3 / 4], [1 / 4, -3 / 4]] := by
  decide!

/-- C6, evaluation: in the strip `[0, 0.5] x [0, 3]` with cell side 1, after
`clearCells` and `fillCells` the particle at `(0.5, 1.25)` is referenced by the
cell of coordinates `(0, 0)`, while `correspondingCellCoordonates` of its
position is `(-1, 1)`. -/
theorem fillCells_wrong_cell :
    thinStrip.map (fun u =>
        u.particles.map (fun p => u.correspondingCellCoordonates p.position)) =
      some [[-1, 1], [0, 2]] ∧
    (thinStrip.bind (fun u => u.clearCells.fillCells)).map
        (fun u => u.internCells.map (fun c => (c.coordinates, c.particles))) =
      some [([0, 0], [0]), ([0, 1], []), ([0, 2], [1])] := by
  decide!

/-- C8, evaluation: in the periodic universe `[0, 2.5]` with cell side 1, the
particle `b` at 1.75 shifted by the extent lies at -0.75, within one cell side
of the particle `a` at 0; a source of the mass of `b` at -0.75 exerts the force
-0.75 on `a`, but the ghost pass makes no call and leaves the force of `a` at
zero (`b` is in the cell of coordinate 1, which no border cell copies). -/
theorem ghost_pass_misses_wrapped_pair :
    periodicLine.map (fun u => (u.oobbehavior, u.dimensions,
      u.particles.map (fun p => (p.name, p.position.data)))) =
      some (OOBBehavior.PERIODIC, [3], [("a", [0]), ("b", [7 / 4])]) ∧
    (cutoffInteraction 1 (Particle.new ⟨[7 / 4 - 5 / 2]⟩ ⟨[0]⟩ 1 "b" 2)
      (Particle.new ⟨[0]⟩ ⟨[0]⟩ 1 "a" 0)).force.data = [-3 / 4] ∧
    (periodicLine.bind (fun u => u.clearCells.fillCells)).map
        (fun u => u.internCells.map (fun c => (c.coordinates, c.particles))) =
      some [([0], [0]), ([1], [1]), ([2], [])] ∧
    (periodicLine.bind (fun u => u.clearCells.fillCells)).map
        (fun u => u.externBorderCells.map (fun c => (c.coordinates, c.copyCell, c.neighbours))) =
      some [([-1], 2, [0]), ([3], 0, [2])] ∧
    (periodicLine.bind (fun u => u.clearCells.fillCells)).map
        (fun u => u.applyForeignNeighboursForcesCalls) = some [] ∧
    (periodicLine.bind (fun u => u.clearCells.fillCells)).map
        (fun u => u.applyForeignNeighboursForces.particles.map (fun p => p.force.data)) =
      some [[0], [0]] :=
  ⟨by decide!, by decide!, by decide!, by decide!, by decide!, by decide!⟩

/-! ## Filling the cells -/

theorem GriddedUniverse.putInCorrespondingCell_eq_some {u u1 : GriddedUniverse} {p : Nat}
    (h : u.putInCorrespondingCell p = some u1) :
    p < u.particles.length ∧
    ∃ cell, u.internCells[u.cellIndexOf p]? = some cell ∧
      u1 = { u with internCells := u.internCells.set (u.cellIndexOf p) (cell.addParticle p) } := by
  unfold GriddedUniverse.putInCorrespondingCell at h
  unfold GriddedUniverse.cellIndexOf
  cases hp : u.particles[p]? with
  | none => rw [hp] at h; exact absurd h (by simp)
  | some particle =>
    rw [hp] at h
    simp only at h
    have hlt : p < u.particles.length := by
      rcases Nat.lt_or_ge p u.particles.length with hl | hl
      · exact hl
      · rw [List.getElem?_eq_none hl] at hp; exact absurd hp (by simp)
    refine ⟨hlt, ?_⟩
    cases hc : u.internCells[internCellIndex u.dimensions
        (u.correspondingCellCoordonates particle.position)]? with
    | none => rw [hc] at h; exact absurd h (by simp)
    | some cell =>
      rw [hc] at h
      simp only [Option.some.injEq] at h
      exact ⟨cell, rfl, h.symm⟩

theorem GriddedUniverse.putInCorrespondingCell_of_lt {u : GriddedUniverse} {p : Nat}
    (hp : p < u.particles.length) (hc : u.cellIndexOf p < u.internCells.length) :
    ∃ u1, u.putInCorrespondingCell p = some u1 := by
  unfold GriddedUniverse.putInCorrespondingCell
  unfold GriddedUniverse.cellIndexOf at hc
  rw [List.getElem?_eq_getElem hp] at hc ⊢
  simp only at hc ⊢
  rw [List.getElem?_eq_getElem hc]
  exact ⟨_, rfl⟩

theorem InternCell.addParticles_nil (cell : InternCell) :
    ({ cell with particles := cell.particles ++ [] } : InternCell) = cell := by
  cases cell; simp

/-- Loop of `fillCells` over the particles `l`: if it ends, every particle of
`l` had a cell, and each cell has received, in order, the particles of `l`
whose computed position is that of the cell. -/
theorem GriddedUniverse.foldlM_put_eq_some (l : List Nat) (u u1 : GriddedUniverse)
    (h : l.foldlM (fun u p => GriddedUniverse.putInCorrespondingCell u p) u = some u1) :
    u1 = { u with internCells := u1.internCells } ∧
    (∀ p ∈ l, p < u.particles.length ∧ u.cellIndexOf p < u.internCells.length) ∧
    u1.internCells.length = u.internCells.length ∧
    ∀ c : Nat, u1.internCells[c]? = (u.internCells[c]?).map (fun (cell : InternCell) =>
      ({ cell with particles := cell.particles ++ l.filter (fun p => u.cellIndexOf p = c) } :
        InternCell)) := by
  induction l generalizing u with
  | nil =>
    simp only [List.foldlM_nil, pure, Option.some.injEq] at h
    subst h
    refine ⟨rfl, by simp, rfl, ?_⟩
    intro c
    cases hc : u.internCells[c]? with
    | none => rfl
    | some cell => simp [InternCell.addParticles_nil]
  | cons p rest ih =>
    rw [List.foldlM_cons] at h
    cases h2 : u.putInCorrespondingCell p with
    | none => rw [h2] at h; exact absurd h (by simp)
    | some u2 =>
      rw [h2] at h
      change rest.foldlM (fun u p => GriddedUniverse.putInCorrespondingCell u p) u2 = some u1 at h
      obtain ⟨hp, cell, hcell, hu2⟩ := GriddedUniverse.putInCorrespondingCell_eq_some h2
      obtain ⟨e1, e2, e3, e4⟩ := ih u2 h
      have hidx : u.cellIndexOf p < u.internCells.length := by
        rcases Nat.lt_or_ge (u.cellIndexOf p) u.internCells.length with hl | hl
        · exact hl
        · rw [List.getElem?_eq_none hl] at hcell; exact absurd hcell (by simp)
      have hlen2 : u2.internCells.length = u.internCells.length := by
        rw [hu2]; simp
      have hci : ∀ q, u2.cellIndexOf q = u.cellIndexOf q := by
        intro q; rw [hu2]; rfl
      have hpl : u2.particles.length = u.particles.length := by rw [hu2]
      refine ⟨?_, ?_, ?_, ?_⟩
      · rw [e1, hu2]
      · intro q hq
        rcases List.mem_cons.mp hq with rfl | hq
        · exact ⟨hp, hidx⟩
        · have := e2 q hq
          rw [hci, hlen2, hpl] at this
          exact this
      · rw [e3, hlen2]
      · intro c
        rw [e4 c]
        have hset : u2.internCells[c]? =
            if u.cellIndexOf p = c then some (cell.addParticle p) else u.internCells[c]? := by
          rw [hu2]
          simp only [List.getElem?_set, hidx, if_true]
        rw [hset]
        by_cases hpc : u.cellIndexOf p = c
        · subst hpc
          simp only [if_true, hcell, Option.map_some', hci, List.filter_cons, decide_True,
            InternCell.addParticle, List.append_assoc, List.singleton_append]
        · simp only [hpc, if_false, hci, List.filter_cons, decide_False]
          rfl

/-- Loop of `fillCells` over the particles `l`: it ends when every particle of
`l` has a cell. -/
theorem GriddedUniverse.foldlM_put_isSome (l : List Nat) (u : GriddedUniverse)
    (h : ∀ p ∈ l, p < u.particles.length ∧ u.cellIndexOf p < u.internCells.length) :
    ∃ u1, l.foldlM (fun u p => GriddedUniverse.putInCorrespondingCell u p) u = some u1 := by
  induction l generalizing u with
  | nil => exact ⟨u, rfl⟩
  | cons p rest ih =>
    obtain ⟨hp, hc⟩ := h p (List.mem_cons_self _ _)
    obtain ⟨u2, h2⟩ := GriddedUniverse.putInCorrespondingCell_of_lt hp hc
    obtain ⟨_, cell, hcell, hu2⟩ := GriddedUniverse.putInCorrespondingCell_eq_some h2
    have hrest : ∀ q ∈ rest, q < u2.particles.length ∧ u2.cellIndexOf q < u2.internCells.length := by
      intro q hq
      have := h q (List.mem_cons_of_mem _ hq)
      rw [hu2]
      simpa [GriddedUniverse.cellIndexOf] using this
    obtain ⟨u1, h1⟩ := ih u2 hrest
    refine ⟨u1, ?_⟩
    rw [List.foldlM_cons, h2]
    exact h1

/-- Loop of `copyParticles` over the particle positions `l` of the source cell:
the cell receives one copy per position, in order. -/
theorem GriddedUniverse.copyLoop_eq_some (u : GriddedUniverse) (l : List Nat)
    (e0 e : ExternBorderCell) (n0 n : Int)
    (h : l.foldlM
      (fun (acc : ExternBorderCell × Int) p =>
        match u.particles[p]? with
        | none => none
        | some particle =>
          let newPosition := particle.position.add acc.1.offset
          some ({ acc.1 with particles := acc.1.particles ++
                    [Particle.new newPosition particle.speed particle.mass particle.name acc.2] },
                acc.2 + 1))
      (e0, n0) = some (e, n)) :
    ∃ copies : List Particle,
      e = { e0 with particles := e0.particles ++ copies } ∧ n = n0 + l.length ∧
      List.Forall₂ (IsCopyOf u.particles e0.offset) l copies := by
  induction l generalizing e0 n0 with
  | nil =>
    simp only [List.foldlM_nil, pure, Option.some.injEq, Prod.mk.injEq] at h
    obtain ⟨rfl, rfl⟩ := h
    refine ⟨[], ?_, by simp, List.Forall₂.nil⟩
    cases e0; simp
  | cons i rest ih =>
    rw [List.foldlM_cons] at h
    cases hp : u.particles[i]? with
    | none => simp [hp] at h
    | some particle =>
      simp only [hp] at h
      change rest.foldlM _ _ = some (e, n) at h
      obtain ⟨copies, he, hn, hf⟩ := ih _ _ h
      refine ⟨Particle.new (particle.position.add e0.offset) particle.speed particle.mass
        particle.name n0 :: copies, ?_, ?_, ?_⟩
      · rw [he]; simp
      · rw [hn]; simp; omega
      · exact List.Forall₂.cons ⟨particle, hp, rfl, rfl, rfl, rfl⟩ hf

theorem GriddedUniverse.copyLoop_isSome (u : GriddedUniverse) (l : List Nat)
    (e0 : ExternBorderCell) (n0 : Int) (hl : ∀ i ∈ l, i < u.particles.length) :
    ∃ r, l.foldlM
      (fun (acc : ExternBorderCell × Int) p =>
        match u.particles[p]? with
        | none => none
        | some particle =>
          let newPosition := particle.position.add acc.1.offset
          some ({ acc.1 with particles := acc.1.particles ++
                    [Particle.new newPosition particle.speed particle.mass particle.name acc.2] },
                acc.2 + 1))
      (e0, n0) = some r := by
  induction l generalizing e0 n0 with
  | nil => exact ⟨(e0, n0), rfl⟩
  | cons i rest ih =>
    have hi := hl i (List.mem_cons_self _ _)
    rw [List.foldlM_cons, List.getElem?_eq_getElem hi]
    exact ih _ _ (fun j hj => hl j (List.mem_cons_of_mem _ hj))

theorem GriddedUniverse.copyParticles_eq_some {u : GriddedUniverse} {cell e : ExternBorderCell}
    {pc n : Int} (h : u.copyParticles cell pc = some (e, n)) :
    ∃ (source : InternCell) (copies : List Particle),
      u.internCells[cell.copyCell]? = some source ∧
      e = { cell with particles := cell.particles ++ copies } ∧
      n = pc + source.particles.length ∧
      List.Forall₂ (IsCopyOf u.particles cell.offset) source.particles copies := by
  unfold GriddedUniverse.copyParticles at h
  cases hs : u.internCells[cell.copyCell]? with
  | none => simp [hs] at h
  | some source =>
    simp only [hs] at h
    obtain ⟨copies, he, hn, hf⟩ := GriddedUniverse.copyLoop_eq_some u source.particles cell e pc n h
    exact ⟨source, copies, rfl, he, hn, hf⟩

theorem GriddedUniverse.copyParticles_isSome {u : GriddedUniverse} {cell : ExternBorderCell}
    {source : InternCell} (pc : Int) (hs : u.internCells[cell.copyCell]? = some source)
    (hl : ∀ i ∈ source.particles, i < u.particles.length) :
    ∃ r, u.copyParticles cell pc = some r := by
  unfold GriddedUniverse.copyParticles
  simp only [hs]
  exact GriddedUniverse.copyLoop_isSome u source.particles cell pc hl

/-- Second loop of `fillCells` over the border cells `l`: each cell is replaced
by itself with the copies of its source cell appended. -/
theorem GriddedUniverse.copyAllLoop_eq_some (u : GriddedUniverse) (l : List ExternBorderCell)
    (acc res : List ExternBorderCell) (n0 n : Int)
    (h : l.foldlM
      (fun (acc : List ExternBorderCell × Int) cell =>
        (u.copyParticles cell acc.2).map (fun r => (acc.1 ++ [r.1], r.2)))
      (acc, n0) = some (res, n)) :
    ∃ added : List ExternBorderCell, res = acc ++ added ∧
      List.Forall₂ (fun (e0 e : ExternBorderCell) =>
        ∃ (source : InternCell) (copies : List Particle),
          u.internCells[e0.copyCell]? = some source ∧
          e = { e0 with particles := e0.particles ++ copies } ∧
          List.Forall₂ (IsCopyOf u.particles e0.offset) source.particles copies) l added := by
  induction l generalizing acc n0 with
  | nil =>
    simp only [List.foldlM_nil, pure, Option.some.injEq, Prod.mk.injEq] at h
    exact ⟨[], by simp [h.1], List.Forall₂.nil⟩
  | cons e0 rest ih =>
    rw [List.foldlM_cons] at h
    cases hc : u.copyParticles e0 n0 with
    | none => simp [hc] at h
    | some r =>
      obtain ⟨e, m⟩ := r
      simp only [hc, Option.map_some'] at h
      change rest.foldlM _ _ = some (res, n) at h
      obtain ⟨added, hres, hf⟩ := ih _ _ h
      obtain ⟨source, copies, hs, he, _, hcp⟩ := GriddedUniverse.copyParticles_eq_some hc
      refine ⟨e :: added, ?_, List.Forall₂.cons ⟨source, copies, hs, he, hcp⟩ hf⟩
      rw [hres]; simp

theorem GriddedUniverse.copyAllLoop_isSome (u : GriddedUniverse) (l : List ExternBorderCell)
    (acc : List ExternBorderCell) (n0 : Int)
    (hl : ∀ e0 ∈ l, ∃ source, u.internCells[e0.copyCell]? = some source ∧
      ∀ i ∈ source.particles, i < u.particles.length) :
    ∃ r, l.foldlM
      (fun (acc : List ExternBorderCell × Int) cell =>
        (u.copyParticles cell acc.2).map (fun r => (acc.1 ++ [r.1], r.2)))
      (acc, n0) = some r := by
  induction l generalizing acc n0 with
  | nil => exact ⟨(acc, n0), rfl⟩
  | cons e0 rest ih =>
    obtain ⟨source, hs, hp⟩ := hl e0 (List.mem_cons_self _ _)
    obtain ⟨r, hr⟩ := GriddedUniverse.copyParticles_isSome n0 hs hp
    rw [List.foldlM_cons]
    simp only [hr, Option.map_some']
    exact ih _ _ (fun e he => hl e (List.mem_cons_of_mem _ he))

theorem GriddedUniverse.clearCells_facts (u : GriddedUniverse) :
    u.clearCells.particles = u.particles ∧
    u.clearCells.internCells = u.internCells.map InternCell.clearParticles ∧
    u.clearCells.oobbehavior = u.oobbehavior ∧
    u.clearCells.interactions = u.interactions ∧
    (∀ p, u.clearCells.cellIndexOf p = u.cellIndexOf p) ∧
    (u.oobbehavior = OOBBehavior.PERIODIC →
      u.clearCells.externBorderCells =
        u.externBorderCells.map ExternBorderCell.clearParticles) ∧
    (u.oobbehavior ≠ OOBBehavior.PERIODIC →
      u.clearCells.externBorderCells = u.externBorderCells) := by
  by_cases h : u.oobbehavior = OOBBehavior.PERIODIC
  · simp [GriddedUniverse.clearCells, GriddedUniverse.cellIndexOf,
      GriddedUniverse.correspondingCellCoordonates, h]
  · simp [GriddedUniverse.clearCells, GriddedUniverse.cellIndexOf,
      GriddedUniverse.correspondingCellCoordonates, h]

theorem GriddedUniverse.fillCells_eq_some {u u1 : GriddedUniverse}
    (h : u.fillCells = some u1) :
    ∃ u2, (List.range u.particles.length).foldlM
        (fun u p => GriddedUniverse.putInCorrespondingCell u p) u = some u2 ∧
      (if u2.oobbehavior = OOBBehavior.PERIODIC then u2.copyAllParticles = some u1
       else u1 = u2) := by
  unfold GriddedUniverse.fillCells at h
  cases h2 : (List.range u.particles.length).foldlM
      (fun u p => GriddedUniverse.putInCorrespondingCell u p) u with
  | none => simp [h2] at h
  | some u2 =>
    simp only [h2] at h
    refine ⟨u2, rfl, ?_⟩
    by_cases hp : u2.oobbehavior = OOBBehavior.PERIODIC
    · simp only [hp, if_true] at h ⊢; exact h
    · simp only [hp, if_false, Option.some.injEq] at h ⊢; exact h.symm

/-- C9: in PERIODIC mode, when every live particle has a cell and every border
cell has a source cell, `clearCells` followed by `fillCells` returns; the
border cells are the same cells in the same order (coordinates, neighbours,
offset and source unchanged), and each holds exactly one copy per particle
currently in its source InternCell, in the same order and nothing else: the
copy has the speed, mass and name of the source particle and its position is
the source position plus the offset of the cell. -/
theorem fillCells_border_copies (u : GriddedUniverse)
    (hper : u.oobbehavior = OOBBehavior.PERIODIC)
    (hidx : ∀ p, p < u.particles.length → u.cellIndexOf p < u.internCells.length)
    (hcopy : ∀ e ∈ u.externBorderCells, e.copyCell < u.internCells.length) :
    ∃ u1, u.clearCells.fillCells = some u1 ∧ u1.particles = u.particles ∧
      List.Forall₂ (fun (e0 e : ExternBorderCell) =>
        e.coordinates = e0.coordinates ∧ e.neighbours = e0.neighbours ∧
        e.offset = e0.offset ∧ e.copyCell = e0.copyCell ∧
        ∃ source, u1.internCells[e.copyCell]? = some source ∧
          List.Forall₂ (fun i (c : Particle) => ∃ p, u1.particles[i]? = some p ∧
            c.position = p.position.add e.offset ∧ c.speed = p.speed ∧ c.mass = p.mass ∧
            c.name = p.name) source.particles e.particles)
        u.externBorderCells u1.externBorderCells := by
  obtain ⟨hpar, hcells, hoob, hint, hci, hext, _⟩ := GriddedUniverse.clearCells_facts u
  have hext := hext hper
  -- the first loop ends
  obtain ⟨u2, h2⟩ := GriddedUniverse.foldlM_put_isSome (List.range u.clearCells.particles.length)
    u.clearCells (by
      intro p hp
      rw [List.mem_range] at hp
      rw [hci, hcells, List.length_map]
      exact ⟨hp, hidx p (by rw [hpar] at hp; exact hp)⟩)
  obtain ⟨e1, _, e3, e4⟩ := GriddedUniverse.foldlM_put_eq_some _ _ _ h2
  have hp2 : u2.particles = u.particles := by rw [e1]; exact hpar
  have hoob2 : u2.oobbehavior = OOBBehavior.PERIODIC := by rw [e1]; exact hoob.trans hper
  have hext2 : u2.externBorderCells =
      u.externBorderCells.map ExternBorderCell.clearParticles := by rw [e1]; exact hext
  have hlen2 : u2.internCells.length = u.internCells.length := by
    rw [e3, hcells, List.length_map]
  -- the particles referenced by a cell are live
  have hsrc : ∀ (c : Nat) (source : InternCell), u2.internCells[c]? = some source →
      ∀ i ∈ source.particles, i < u2.particles.length := by
    intro c source hs i hi
    rw [e4 c, hcells, List.getElem?_map] at hs
    cases hc : u.internCells[c]? with
    | none => simp [hc] at hs
    | some cell =>
      simp only [hc, Option.map_some', InternCell.clearParticles, List.nil_append,
        Option.some.injEq] at hs
      subst hs
      simp only [List.mem_filter, List.mem_range] at hi
      rw [hp2, ← hpar]; exact hi.1
  -- the second loop ends
  obtain ⟨r, hr⟩ := GriddedUniverse.copyAllLoop_isSome u2 u2.externBorderCells [] u2.particleCount
    (by
      intro e0 he0
      rw [hext2, List.mem_map] at he0
      obtain ⟨e, he, rfl⟩ := he0
      have hlt : e.copyCell < u2.internCells.length := by rw [hlen2]; exact hcopy e he
      exact ⟨u2.internCells[e.copyCell], List.getElem?_eq_getElem hlt,
        hsrc _ _ (List.getElem?_eq_getElem hlt)⟩)
  obtain ⟨res, n⟩ := r
  obtain ⟨added, hres, hf⟩ := GriddedUniverse.copyAllLoop_eq_some u2 _ _ _ _ _ hr
  have hfill : u.clearCells.fillCells =
      some { u2 with externBorderCells := res, particleCount := n } := by
    unfold GriddedUniverse.fillCells
    simp only [h2, hoob2, if_true, GriddedUniverse.copyAllParticles, hr, Option.map_some']
  refine ⟨_, hfill, hp2, ?_⟩
  simp only [List.nil_append] at hres
  subst hres
  rw [hext2, List.forall₂_map_left_iff] at hf
  refine hf.imp ?_
  intro e0 e ⟨source, copies, hs, he, hcp⟩
  subst he
  refine ⟨rfl, rfl, rfl, rfl, source, hs, ?_⟩
  simp only [ExternBorderCell.clearParticles, List.nil_append]
  exact hcp

/-! ## The calls made by the gridded pass -/

theorem foldl_eq_append_flatMap {α β : Type} (f : List β → α → List β) (g : α → List β)
    (h : ∀ st x, f st x = st ++ g x) (l : List α) (init : List β) :
    l.foldl f init = init ++ l.flatMap g := by
  induction l generalizing init with
  | nil => simp
  | cons x xs ih => simp [List.foldl_cons, h, ih, List.flatMap_cons, List.append_assoc]

theorem foldl_addNeighbour (cond : Nat → Bool) (l : List Nat) (cell : InternCell) :
    l.foldl (fun c j => if cond j then c.addNeighbour j else c) cell =
      { cell with neighbours := cell.neighbours ++ l.filter cond } := by
  induction l generalizing cell with
  | nil => cases cell; simp
  | cons j rest ih =>
    rw [List.foldl_cons, ih]
    by_cases h : cond j = true
    · simp [h, InternCell.addNeighbour, List.filter_cons]
    · simp [h, List.filter_cons]

/-- Method `setOneInernCellNeighbours`: the cell receives, in increasing order,
the positions of the other cells whose coordinates are within 1 of its own on
every axis. -/
theorem GriddedUniverse.setOneInernCellNeighbours_eq (internCells : List InternCell) (k : Nat)
    (internCell : InternCell) :
    GriddedUniverse.setOneInernCellNeighbours internCells k internCell =
      { internCell with neighbours := internCell.neighbours ++
          (List.range internCells.length).filter (fun j =>
            !decide (j = k) && areNeighbours internCell.coordinates
              ((internCells.getD j (InternCell.new [])).coordinates)) } := by
  unfold GriddedUniverse.setOneInernCellNeighbours
  rw [← foldl_addNeighbour]
  congr 1
  funext c j
  by_cases h : j = k
  · simp [h]
  · simp [h]

theorem createInternCellsRecursive_neighbours (dimensions : List Int) (depth : Nat)
    (coordinates : List Int) (cells : List InternCell)
    (h : ∀ cell ∈ cells, cell.neighbours = []) :
    ∀ cell ∈ createInternCellsRecursive dimensions depth coordinates cells,
      cell.neighbours = [] := by
  induction depth generalizing coordinates cells with
  | zero =>
    intro cell hc
    simp only [createInternCellsRecursive, List.mem_append, List.mem_singleton] at hc
    rcases hc with hc | hc
    · exact h cell hc
    · rw [hc]; rfl
  | succ d ih =>
    simp only [createInternCellsRecursive]
    generalize List.range (dimensions.getD d 0).toNat = l
    induction l generalizing cells with
    | nil => exact h
    | cons i rest ih2 =>
      rw [List.foldl_cons]
      exact ih2 _ (ih _ _ h)

/-- Neighbour lists of a constructed universe: the neighbours of the cell at
position `c` are, in increasing order and without repetition, the positions
`j ≠ c` whose coordinates differ from its own by at most 1 on every axis. -/
theorem GriddedUniverse.neighbours_new {lb ub : Vector} {side mf : ℚ} {pc : Int}
    {u0 : GriddedUniverse} (h : GriddedUniverse.new lb ub side mf pc = some u0)
    (c : Nat) (cell : InternCell) (hc : u0.internCells[c]? = some cell) :
    cell.neighbours = (List.range u0.internCells.length).filter (fun j =>
      !decide (j = c) && areNeighbours cell.coordinates
        ((u0.internCells.getD j (InternCell.new [])).coordinates)) := by
  unfold GriddedUniverse.new at h
  rw [Option.map_eq_some'] at h
  obtain ⟨u1, h1, rfl⟩ := h
  unfold GriddedUniverse.cellsCreation at h1
  rw [Option.map_eq_some'] at h1
  obtain ⟨ext, _, rfl⟩ := h1
  simp only [GriddedUniverse.setCellsNeighbours] at hc ⊢
  generalize hcs : createInternCellsRecursive _ _ _ _ = cs at hc ⊢
  have hnil : ∀ cell ∈ cs, cell.neighbours = [] := by
    rw [← hcs]
    exact createInternCellsRecursive_neighbours _ _ _ _ (by intro cell hcell; cases hcell)
  rw [List.getElem?_mapIdx] at hc
  cases hcc : cs[c]? with
  | none => simp [hcc] at hc
  | some cell0 =>
    simp only [hcc, Option.map_some', Option.some.injEq] at hc
    have hmem : cell0 ∈ cs := List.getElem?_mem hcc
    rw [← hc, GriddedUniverse.setOneInernCellNeighbours_eq, hnil cell0 hmem]
    simp only [List.nil_append, List.length_mapIdx]
    apply List.filter_congr
    intro j hj
    congr 2
    simp only [List.getD_eq_getElem?_getD, List.getElem?_mapIdx]
    cases hjc : cs[j]? with
    | none => rfl
    | some cellj =>
      simp only [Option.map_some', Option.getD_some,
        GriddedUniverse.setOneInernCellNeighbours_eq]

theorem Option.eq_some_getD_of_isSome {α : Type} (o : Option α) (d : α)
    (h : o.isSome = true) : o = some (o.getD d) := by
  cases o with
  | none => simp at h
  | some a => rfl

/-- C9, witness: in the periodic universe `[0, 3]` with cell side 1 and particles
at 0.25, 2.75 and 0.5, filling the cells returns; the border cell at -1 holds
the copy of `b` at -0.25 and the border cell at 3 holds the copies of `a` and
`c` at 3.25 and 3.5, in this order. -/
theorem fillCells_border_copies_witness :
    (∃ u1, periodicLine3U.clearCells.fillCells = some u1 ∧
      u1.particles = periodicLine3U.particles) ∧
    periodicLine3U.clearCells.fillCells.map (fun u =>
      u.externBorderCells.map (fun e => (e.coordinates, e.copyCell))) =
      some [([-1], 2), ([3], 0)] ∧
    periodicLine3U.clearCells.fillCells.map (fun u =>
      u.externBorderCells.map (fun e => e.particles.map (fun p => p.name))) =
      some [["b"], ["a", "c"]] ∧
    periodicLine3U.clearCells.fillCells.map (fun u =>
      u.externBorderCells.map (fun e => e.particles.map (fun p => p.position.data))) =
      some [[[-1 / 4]], [[13 / 4], [7 / 2]]] :=
  ⟨(fillCells_border_copies periodicLine3U (by decide!) (by decide!) (by decide!)).imp
      (fun _ h => ⟨h.1, h.2.1⟩),
   by decide!, by decide!, by decide!⟩

/-! ## Border cells and the boundary policy -/

theorem foldl_addNeighbour_border (cond : Nat → Bool) (l : List Nat) (cell : ExternBorderCell) :
    l.foldl (fun c j => if cond j then c.addNeighbour j else c) cell =
      { cell with neighbours := cell.neighbours ++ l.filter cond } := by
  induction l generalizing cell with
  | nil => cases cell; simp
  | cons j rest ih =>
    rw [List.foldl_cons, ih]
    by_cases h : cond j = true
    · simp [h, ExternBorderCell.addNeighbour, List.filter_cons]
    · simp [h, List.filter_cons]

/-- Method `setOneExternCellNeighbours`: the border cell receives, in increasing
order, the positions of the intern cells whose coordinates are within 1 of its
own on every axis. -/
theorem GriddedUniverse.setOneExternCellNeighbours_eq (internCells : List InternCell)
    (borderCell : ExternBorderCell) :
    GriddedUniverse.setOneExternCellNeighbours internCells borderCell =
      { borderCell with neighbours := borderCell.neighbours ++
          (List.range internCells.length).filter (fun j =>
            areNeighbours borderCell.coordinates
              ((internCells.getD j (InternCell.new [])).coordinates)) } := by
  unfold GriddedUniverse.setOneExternCellNeighbours
  rw [← foldl_addNeighbour_border]

theorem GriddedUniverse.foldlM_createExtern_inv (P : ExternBorderCell → Prop)
    (f : List ExternBorderCell → Nat → Option (List ExternBorderCell))
    (hf : ∀ cells k res, (∀ e ∈ cells, P e) → f cells k = some res → ∀ e ∈ res, P e)
    (l : List Nat) (cells res : List ExternBorderCell) (h : ∀ e ∈ cells, P e)
    (hres : l.foldlM f cells = some res) : ∀ e ∈ res, P e := by
  induction l generalizing cells with
  | nil =>
    simp only [List.foldlM_nil, pure, Option.some.injEq] at hres
    subst hres; exact h
  | cons k rest ih =>
    rw [List.foldlM_cons] at hres
    cases hk : f cells k with
    | none => simp [hk] at hres
    | some mid =>
      simp only [hk] at hres
      exact ih mid (hf cells k mid h hk) hres

/-- Every border cell created by `createExternCellsRecursive` satisfies `P` when
the cells created before do and every cell that `createExternBorderCell` can
create does. -/
theorem GriddedUniverse.createExternCellsRecursive_inv (u : GriddedUniverse)
    (P : ExternBorderCell → Prop)
    (hP : ∀ coords index, isExternCoord coords u.dimensions = true →
      index = internCellIndex u.dimensions (GriddedUniverse.copyCellCoords u.dimensions coords) →
      index < u.internCells.length → P (u.createExternBorderCell coords index))
    (depth : Nat) (coordinates : List Int) (cells res : List ExternBorderCell)
    (h : ∀ e ∈ cells, P e)
    (hres : u.createExternCellsRecursive depth coordinates cells = some res) :
    ∀ e ∈ res, P e := by
  induction depth generalizing coordinates cells res with
  | zero =>
    simp only [GriddedUniverse.createExternCellsRecursive] at hres
    by_cases hb : isExternCoord coordinates u.dimensions = true
    · simp only [hb, if_true] at hres
      by_cases hi : internCellIndex u.dimensions
          (GriddedUniverse.copyCellCoords u.dimensions coordinates) < u.internCells.length
      · simp only [hi, if_true, Option.some.injEq] at hres
        subst hres
        intro e he
        rcases List.mem_append.mp he with he | he
        · exact h e he
        · rw [List.mem_singleton] at he
          rw [he]; exact hP coordinates _ hb rfl hi
      · simp [hi] at hres
    · simp only [hb, Bool.false_eq_true, if_false, Option.some.injEq] at hres
      subst hres; exact h
  | succ d ih =>
    simp only [GriddedUniverse.createExternCellsRecursive] at hres
    exact GriddedUniverse.foldlM_createExtern_inv P _
      (fun cells k res hc hk => ih _ cells res hc hk) _ cells res h hres

/-- Shape of a constructed universe: the record `v` holding the counts and the
intern cells, the border cells `ext` created from it, and the neighbour lists
added last. -/
theorem GriddedUniverse.new_eq_some {lb ub : Vector} {side mf : ℚ} {pc : Int}
    {u0 : GriddedUniverse} (h : GriddedUniverse.new lb ub side mf pc = some u0) :
    ∃ (v : GriddedUniverse) (ext : List ExternBorderCell),
      v.dimensions = (List.range lb.getDimension).map (GriddedUniverse.cellCount lb ub side) ∧
      v.internCells = createInternCellsRecursive v.dimensions v.dimensions.length
        (List.replicate v.dimensions.length 0) [] ∧
      v.lowerBound = lb ∧ v.upperBound = ub ∧ v.oobbehavior = OOBBehavior.ABSORPTION ∧
      v.particles = [] ∧
      v.createExternCellsRecursive v.dimensions.length
        (List.replicate v.dimensions.length 0) [] = some ext ∧
      u0 = GriddedUniverse.setCellsNeighbours { v with externBorderCells := ext } := by
  unfold GriddedUniverse.new at h
  rw [Option.map_eq_some'] at h
  obtain ⟨u1, h1, rfl⟩ := h
  unfold GriddedUniverse.cellsCreation at h1
  rw [Option.map_eq_some'] at h1
  obtain ⟨ext, hext, rfl⟩ := h1
  exact ⟨_, ext, rfl, rfl, rfl, rfl, rfl, rfl, hext, rfl⟩

theorem GriddedUniverse.externBorderCells_fillCells_of_not_periodic {u u1 : GriddedUniverse}
    (hper : u.oobbehavior ≠ OOBBehavior.PERIODIC) (h : u.clearCells.fillCells = some u1) :
    u1.externBorderCells = u.externBorderCells := by
  obtain ⟨_, _, hoob, _, _, _, hext⟩ := GriddedUniverse.clearCells_facts u
  obtain ⟨u2, h2, h3⟩ := GriddedUniverse.fillCells_eq_some h
  obtain ⟨e1, _, _, _⟩ := GriddedUniverse.foldlM_put_eq_some _ _ _ h2
  have hoob2 : u2.oobbehavior = u.oobbehavior := by rw [e1]; exact hoob
  have hne : ¬ u2.oobbehavior = OOBBehavior.PERIODIC := by rw [hoob2]; exact hper
  simp only [hne, if_false] at h3
  rw [h3, e1]
  exact hext hper

/-- C15 (amended): the constructor creates the border cells whatever the
boundary policy: a constructed universe is under the default ABSORPTION and
its border cells (created by `cellsCreation`) hold no particle; under a policy
other than PERIODIC, `clearCells` followed by `fillCells` leaves the border
cells as they are, so they never receive a copy. -/
theorem border_cells_unused_without_periodic {lb ub : Vector} {side mf : ℚ} {pc : Int}
    {u0 : GriddedUniverse} (hnew : GriddedUniverse.new lb ub side mf pc = some u0) :
    u0.oobbehavior = OOBBehavior.ABSORPTION ∧
    (∀ e ∈ u0.externBorderCells, e.particles = []) ∧
    (∀ u u1 : GriddedUniverse, u.externBorderCells = u0.externBorderCells →
      u.oobbehavior ≠ OOBBehavior.PERIODIC → u.clearCells.fillCells = some u1 →
      u1.externBorderCells = u0.externBorderCells) := by
  obtain ⟨v, ext, _, _, _, _, hoob, _, hext, rfl⟩ := GriddedUniverse.new_eq_some hnew
  refine ⟨hoob, ?_, ?_⟩
  · intro e he
    simp only [GriddedUniverse.setCellsNeighbours, List.mem_map] at he
    obtain ⟨e0, he0, rfl⟩ := he
    rw [GriddedUniverse.setOneExternCellNeighbours_eq]
    exact GriddedUniverse.createExternCellsRecursive_inv v (fun e => e.particles = [])
      (fun _ _ _ _ _ => rfl) _ _ [] ext (by intro e he; cases he) hext e0 he0
  · intro u u1 hu hper hfill
    rw [GriddedUniverse.externBorderCells_fillCells_of_not_periodic hper hfill, hu]

theorem grid2x3_new : GriddedUniverse.new ⟨[0, 0]⟩ ⟨[3 / 2, 3]⟩ 1 0 0 = some grid2x3 :=
  Option.eq_some_getD_of_isSome _ _ (by decide!)

/-- C15, witness: the 2 x 3 grid right after construction. -/
theorem border_cells_unused_without_periodic_witness :
    grid2x3.oobbehavior = OOBBehavior.ABSORPTION ∧
    (∀ e ∈ grid2x3.externBorderCells, e.particles = []) := by
  have h := border_cells_unused_without_periodic grid2x3_new
  exact ⟨h.1, h.2.1⟩

/-- C15, counterexample: the universe of sizes (1.5, 3) with cell side 1 is,
right after construction, under ABSORPTION and contains 14 border cells. -/
theorem border_cells_exist_under_absorption :
    (GriddedUniverse.new ⟨[0, 0]⟩ ⟨[3 / 2, 3]⟩ 1 0 0).map
      (fun u => (u.oobbehavior, u.externBorderCells.length)) =
      some (OOBBehavior.ABSORPTION, 14) := by
  decide!

/-! ## Enumeration of the coordinate tuples -/

theorem mem_enumWith (vals : Nat → List Int) (depth : Nat) (coordinates tup : List Int)
    (hd : depth ≤ coordinates.length) :
    tup ∈ enumWith vals depth coordinates ↔
      tup.length = coordinates.length ∧
      (∀ i, i < depth → ∃ v, v ∈ vals i ∧ tup[i]? = some v) ∧
      (∀ i, depth ≤ i → tup[i]? = coordinates[i]?) := by
  induction depth generalizing coordinates with
  | zero =>
    simp only [enumWith, List.mem_singleton]
    constructor
    · rintro rfl
      exact ⟨rfl, fun i hi => absurd hi (by omega), fun _ _ => rfl⟩
    · rintro ⟨_, _, h3⟩
      exact List.ext_getElem? (fun i => h3 i (Nat.zero_le i))
  | succ d ih =>
    simp only [enumWith, List.mem_flatMap]
    constructor
    · rintro ⟨v, hv, hc⟩
      rw [ih _ (by rw [List.length_set]; omega)] at hc
      obtain ⟨h1, h2, h3⟩ := hc
      rw [List.length_set] at h1
      refine ⟨h1, ?_, ?_⟩
      · intro i hi
        by_cases hid : i = d
        · subst hid
          refine ⟨v, hv, ?_⟩
          rw [h3 i (Nat.le_refl i), List.getElem?_set_self (by omega)]
        · exact h2 i (by omega)
      · intro i hi
        rw [h3 i (by omega), List.getElem?_set_ne (by omega)]
    · rintro ⟨h1, h2, h3⟩
      obtain ⟨v, hv, hcv⟩ := h2 d (by omega)
      refine ⟨v, hv, ?_⟩
      rw [ih _ (by rw [List.length_set]; omega)]
      refine ⟨by rw [List.length_set]; exact h1, fun i hi => h2 i (by omega), ?_⟩
      intro i hi
      by_cases hid : i = d
      · subst hid
        rw [hcv, List.getElem?_set_self (by omega)]
      · rw [h3 i (by omega), List.getElem?_set_ne (fun h => hid h.symm)]

theorem nodup_enumWith (vals : Nat → List Int) (depth : Nat) (coordinates : List Int)
    (hd : depth ≤ coordinates.length) (hv : ∀ i, i < depth → (vals i).Nodup) :
    (enumWith vals depth coordinates).Nodup := by
  induction depth generalizing coordinates with
  | zero => simp [enumWith]
  | succ d ih =>
    simp only [enumWith]
    rw [List.nodup_flatMap]
    refine ⟨fun v _ => ih _ (by rw [List.length_set]; omega) (fun i hi => hv i (by omega)), ?_⟩
    refine List.Pairwise.imp_of_mem ?_ (hv d (by omega))
    intro a b _ _ hab
    intro tup hca hcb
    rw [mem_enumWith _ _ _ _ (by rw [List.length_set]; omega)] at hca hcb
    have h1 := hca.2.2 d (Nat.le_refl d)
    have h2 := hcb.2.2 d (Nat.le_refl d)
    rw [List.getElem?_set_self (by omega)] at h1 h2
    rw [h1] at h2
    exact hab (Option.some.inj h2)

theorem length_enumWith (vals : Nat → List Int) (depth : Nat) (coordinates : List Int) :
    (enumWith vals depth coordinates).length =
      ((List.range depth).map (fun i => (vals i).length)).prod := by
  induction depth generalizing coordinates with
  | zero => simp [enumWith]
  | succ d ih =>
    simp only [enumWith, List.length_flatMap, ih, List.range_succ, List.map_append,
      List.prod_append, List.map_cons, List.map_nil, List.prod_cons, List.prod_nil, mul_one]
    have hc : (List.length ∘ fun v => enumWith vals d (coordinates.set d v)) =
        fun _ => ((List.range d).map (fun i => (vals i).length)).prod := by
      funext v
      exact ih _
    rw [hc, List.map_const', List.sum_replicate, smul_eq_mul, Nat.mul_comm]

/-- The cells appended by `createInternCellsRecursive` are the cells of the
enumerated coordinate tuples, in the order of the enumeration. -/
theorem createInternCellsRecursive_eq (dimensions : List Int) (depth : Nat)
    (coordinates : List Int) (cells : List InternCell) :
    createInternCellsRecursive dimensions depth coordinates cells =
      cells ++ (enumWith (internVals dimensions) depth coordinates).map InternCell.new := by
  induction depth generalizing coordinates cells with
  | zero => simp [createInternCellsRecursive, enumWith]
  | succ d ih =>
    simp only [createInternCellsRecursive, enumWith]
    rw [foldl_eq_append_flatMap _
      (fun i => (enumWith (internVals dimensions) d
        (coordinates.set d (Int.ofNat i))).map InternCell.new)
      (fun st i => ih _ st)]
    congr 1
    rw [List.map_flatMap]
    simp only [internVals, List.flatMap_map]

theorem mem_internVals (dimensions : List Int) (i : Nat) (v : Int) :
    v ∈ internVals dimensions i ↔ 0 ≤ v ∧ v < dimensions.getD i 0 := by
  simp only [internVals, List.mem_map, List.mem_range]
  constructor
  · rintro ⟨k, hk, rfl⟩
    have : (Int.ofNat k) = (k : Int) := rfl
    omega
  · rintro ⟨h1, h2⟩
    refine ⟨v.toNat, by omega, ?_⟩
    have : (Int.ofNat v.toNat) = (v.toNat : Int) := rfl
    omega

theorem nodup_internVals (dimensions : List Int) (i : Nat) :
    (internVals dimensions i).Nodup := by
  unfold internVals
  refine (List.nodup_range _).map ?_
  intro a b hab
  exact Int.ofNat.inj hab

theorem getElem?_eq_some_iff_getD {l : List Int} {i : Nat} (hi : i < l.length) (v : Int) :
    l[i]? = some v ↔ l.getD i 0 = v := by
  simp [List.getD_eq_getElem?_getD, List.getElem?_eq_getElem hi]

theorem map_coordinates_setCellsNeighbours (u : GriddedUniverse) :
    u.setCellsNeighbours.internCells.map (fun c => c.coordinates) =
      u.internCells.map (fun c => c.coordinates) := by
  apply List.ext_getElem?
  intro i
  simp only [GriddedUniverse.setCellsNeighbours, List.getElem?_map, List.getElem?_mapIdx]
  cases u.internCells[i]? with
  | none => rfl
  | some cell => simp [GriddedUniverse.setOneInernCellNeighbours_eq]

/-- Coordinates of the intern cells of a constructed universe, in order: the
enumeration of the tuples with entries in `[0, count)` on every axis. -/
theorem GriddedUniverse.coordinates_new {lb ub : Vector} {side mf : ℚ} {pc : Int}
    {u : GriddedUniverse} (hnew : GriddedUniverse.new lb ub side mf pc = some u) :
    u.internCells.map (fun c => c.coordinates) =
      enumWith (internVals u.dimensions) u.dimensions.length
        (List.replicate u.dimensions.length 0) := by
  obtain ⟨v, ext, _, hint, _, _, _, _, _, rfl⟩ := GriddedUniverse.new_eq_some hnew
  rw [map_coordinates_setCellsNeighbours]
  show v.internCells.map (fun c => c.coordinates) =
    enumWith (internVals v.dimensions) v.dimensions.length
      (List.replicate v.dimensions.length 0)
  rw [hint, createInternCellsRecursive_eq, List.nil_append, List.map_map]
  have : ((fun c : InternCell => c.coordinates) ∘ InternCell.new) = id := by
    funext c; rfl
  rw [this, List.map_id]

theorem prod_map_toNat (l : List Int) (h : ∀ d ∈ l, 0 ≤ d) :
    (((l.map Int.toNat).prod : Nat) : Int) = l.prod := by
  induction l with
  | nil => simp
  | cons d ds ih =>
    have hd := h d (List.mem_cons_self _ _)
    simp only [List.map_cons, List.prod_cons, Nat.cast_mul]
    rw [ih (fun x hx => h x (List.mem_cons_of_mem _ hx)), Int.toNat_of_nonneg hd]

/-- Coordinates of the intern cells of a constructed universe: no repetition,
and exactly the tuples with `0 ≤ c_i < count_i` on every axis. -/
theorem internCells_enumeration_aux {lb ub : Vector} {side mf : ℚ} {pc : Int}
    {u : GriddedUniverse} (hnew : GriddedUniverse.new lb ub side mf pc = some u) :
    (u.internCells.map (fun c => c.coordinates)).Nodup ∧
    (∀ tup : List Int, tup ∈ u.internCells.map (fun c => c.coordinates) ↔
      tup.length = u.dimensions.length ∧
      ∀ i, i < u.dimensions.length →
        0 ≤ tup.getD i 0 ∧ tup.getD i 0 < u.dimensions.getD i 0) := by
  have hco := GriddedUniverse.coordinates_new hnew
  refine ⟨?_, ?_⟩
  · rw [hco]
    exact nodup_enumWith _ _ _ (by simp) (fun i _ => nodup_internVals _ i)
  · intro tup
    rw [hco, mem_enumWith _ _ _ _ (by simp)]
    simp only [List.length_replicate]
    constructor
    · rintro ⟨h1, h2, _⟩
      refine ⟨h1, fun i hi => ?_⟩
      obtain ⟨v, hv, hvi⟩ := h2 i hi
      rw [getElem?_eq_some_iff_getD (by omega)] at hvi
      rw [hvi]
      exact (mem_internVals _ _ _).mp hv
    · rintro ⟨h1, h2⟩
      refine ⟨h1, fun i hi => ?_, fun i hi => ?_⟩
      · exact ⟨tup.getD i 0, (mem_internVals _ _ _).mpr (h2 i hi),
          (getElem?_eq_some_iff_getD (by omega) _).mpr rfl⟩
      · rw [List.getElem?_eq_none (by omega), List.getElem?_eq_none (by simp; omega)]

theorem GriddedUniverse.length_internCells_new {lb ub : Vector} {side mf : ℚ} {pc : Int}
    {u : GriddedUniverse} (hnew : GriddedUniverse.new lb ub side mf pc = some u) :
    u.internCells.length = (u.dimensions.map Int.toNat).prod := by
  have hco := GriddedUniverse.coordinates_new hnew
  have h1 := congrArg List.length hco
  rw [List.length_map, length_enumWith] at h1
  rw [h1]
  congr 1
  apply List.ext_getElem?
  intro i
  simp only [List.getElem?_map, List.getElem?_range, internVals, List.length_map,
    List.length_range]
  by_cases hi : i < u.dimensions.length
  · simp [List.getElem?_range, hi, List.getD_eq_getElem?_getD, List.getElem?_eq_getElem hi]
  · have h2 : u.dimensions[i]? = none := List.getElem?_eq_none (by omega)
    simp [List.getElem?_range, hi, h2]
    omega

/-- C11: after construction, the coordinates of the InternCells are without
repetition; a tuple is the coordinate tuple of an InternCell if and only if it
has one entry per axis and every entry `c_i` satisfies `0 ≤ c_i < count_i`; the
number of InternCells is the product of the per-axis counts. -/
theorem internCells_enumeration {lb ub : Vector} {side mf : ℚ} {pc : Int}
    {u : GriddedUniverse} (hnew : GriddedUniverse.new lb ub side mf pc = some u) :
    (u.internCells.map (fun c => c.coordinates)).Nodup ∧
    (∀ tup : List Int, tup ∈ u.internCells.map (fun c => c.coordinates) ↔
      tup.length = u.dimensions.length ∧
      ∀ i, i < u.dimensions.length → 0 ≤ tup.getD i 0 ∧ tup.getD i 0 < u.dimensions.getD i 0) ∧
    u.internCells.length = (u.dimensions.map Int.toNat).prod ∧
    ((∀ d ∈ u.dimensions, 0 ≤ d) → (u.internCells.length : Int) = u.dimensions.prod) := by
  refine ⟨(internCells_enumeration_aux hnew).1, (internCells_enumeration_aux hnew).2,
    GriddedUniverse.length_internCells_new hnew, ?_⟩
  intro hpos
  rw [GriddedUniverse.length_internCells_new hnew]
  exact prod_map_toNat _ hpos

/-! ## The neighbour relation -/

theorem areNeighbours_iff (coord1 coord2 : List Int) :
    areNeighbours coord1 coord2 = true ↔
      ∀ d, d < coord1.length → |coord1.getD d 0 - coord2.getD d 0| ≤ 1 := by
  simp [areNeighbours, List.all_eq_true]

theorem areNeighbours_comm (coord1 coord2 : List Int) (h : coord1.length = coord2.length) :
    areNeighbours coord1 coord2 = areNeighbours coord2 coord1 := by
  rw [Bool.eq_iff_iff, areNeighbours_iff, areNeighbours_iff, h]
  constructor <;> intro hh d hd <;> have := hh d hd <;> rw [abs_sub_comm] <;> exact this

theorem GriddedUniverse.length_coordinates_new {lb ub : Vector} {side mf : ℚ} {pc : Int}
    {u : GriddedUniverse} (hnew : GriddedUniverse.new lb ub side mf pc = some u)
    (a : Nat) (cell : InternCell) (ha : u.internCells[a]? = some cell) :
    cell.coordinates.length = u.dimensions.length := by
  have hco := GriddedUniverse.coordinates_new hnew
  have hmem : cell.coordinates ∈ u.internCells.map (fun c => c.coordinates) :=
    List.mem_map.mpr ⟨cell, List.getElem?_mem ha, rfl⟩
  rw [hco, mem_enumWith _ _ _ _ (by simp)] at hmem
  simpa using hmem.1

theorem GriddedUniverse.mem_neighbours_new {lb ub : Vector} {side mf : ℚ} {pc : Int}
    {u : GriddedUniverse} (hnew : GriddedUniverse.new lb ub side mf pc = some u)
    (a b : Nat) (cellA cellB : InternCell) (ha : u.internCells[a]? = some cellA)
    (hb : u.internCells[b]? = some cellB) :
    b ∈ cellA.neighbours ↔
      b ≠ a ∧ areNeighbours cellA.coordinates cellB.coordinates = true := by
  rw [GriddedUniverse.neighbours_new hnew a cellA ha]
  have hlt : b < u.internCells.length := by
    rcases Nat.lt_or_ge b u.internCells.length with h | h
    · exact h
    · rw [List.getElem?_eq_none h] at hb; exact absurd hb (by simp)
  have hget : (u.internCells.getD b (InternCell.new [])) = cellB := by
    simp [List.getD_eq_getElem?_getD, hb]
  simp only [List.mem_filter, List.mem_range, Bool.and_eq_true, Bool.not_eq_true',
    decide_eq_false_iff_not, hget]
  exact ⟨fun h => ⟨h.2.1, h.2.2⟩, fun h => ⟨hlt, h.1, h.2⟩⟩

/-- C13: after construction, for every two InternCells `a` and `b` (given by
their positions), `b` is in the neighbour list of `a` if and only if `a` is in
the neighbour list of `b`, and no InternCell is in its own neighbour list. -/
theorem neighbours_symmetric_irreflexive {lb ub : Vector} {side mf : ℚ} {pc : Int}
    {u : GriddedUniverse} (hnew : GriddedUniverse.new lb ub side mf pc = some u)
    (a b : Nat) (cellA cellB : InternCell) (ha : u.internCells[a]? = some cellA)
    (hb : u.internCells[b]? = some cellB) :
    (b ∈ cellA.neighbours ↔ a ∈ cellB.neighbours) ∧ a ∉ cellA.neighbours := by
  constructor
  · rw [GriddedUniverse.mem_neighbours_new hnew a b cellA cellB ha hb,
      GriddedUniverse.mem_neighbours_new hnew b a cellB cellA hb ha,
      areNeighbours_comm cellA.coordinates cellB.coordinates
        ((GriddedUniverse.length_coordinates_new hnew a cellA ha).trans
          (GriddedUniverse.length_coordinates_new hnew b cellB hb).symm)]
    exact ⟨fun h => ⟨fun e => h.1 e.symm, h.2⟩, fun h => ⟨fun e => h.1 e.symm, h.2⟩⟩
  · rw [GriddedUniverse.mem_neighbours_new hnew a a cellA cellA ha ha]
    exact fun h => h.1 rfl

/-- C13, witness: in the 2 x 3 grid the cell at position 0 (coordinates `(0, 0)`)
and the cell at position 3 (coordinates `(1, 1)`) are neighbours of each
other. -/
theorem neighbours_symmetric_irreflexive_witness :
    ((3 ∈ (grid2x3.internCells.getD 0 (InternCell.new [])).neighbours ↔
      0 ∈ (grid2x3.internCells.getD 3 (InternCell.new [])).neighbours) ∧
     0 ∉ (grid2x3.internCells.getD 0 (InternCell.new [])).neighbours) ∧
    (grid2x3.internCells.getD 0 (InternCell.new [])).neighbours = [1, 2, 3] ∧
    (grid2x3.internCells.getD 3 (InternCell.new [])).neighbours = [0, 1, 2, 4, 5] :=
  ⟨neighbours_symmetric_irreflexive grid2x3_new 0 3 _ _ (by decide!) (by decide!),
   by decide!, by decide!⟩

/-- C11, witness: the 2 x 3 grid has 6 InternCells with the coordinates
`(0,0)`, `(1,0)`, `(0,1)`, `(1,1)`, `(0,2)`, `(1,2)`. -/
theorem internCells_enumeration_witness :
    (grid2x3.internCells.map (fun c => c.coordinates)).Nodup ∧
    grid2x3.internCells.length = 6 ∧
    grid2x3.internCells.map (fun c => c.coordinates) =
      [[0, 0], [1, 0], [0, 1], [1, 1], [0, 2], [1, 2]] := by
  have h := internCells_enumeration grid2x3_new
  exact ⟨h.1, h.2.2.1.trans (by decide!), by decide!⟩

/-! ## Position of a cell in `_internCells` -/

theorem getElem?_flatMap_uniform {α β : Type} (l : List α) (f : α → List β) (L : Nat)
    (hL : ∀ a ∈ l, (f a).length = L) (k r : Nat) (hr : r < L) :
    (l.flatMap f)[k * L + r]? = (l[k]?).bind (fun a => (f a)[r]?) := by
  induction l generalizing k with
  | nil => simp
  | cons a as ih =>
    rw [List.flatMap_cons]
    have ha := hL a (List.mem_cons_self _ _)
    cases k with
    | zero =>
      rw [Nat.zero_mul, Nat.zero_add, List.getElem?_append_left (by omega)]
      simp
    | succ j =>
      have hge : (f a).length ≤ (j + 1) * L + r := by
        rw [ha, Nat.succ_mul]; omega
      rw [List.getElem?_append_right hge, ha]
      have : (j + 1) * L + r - L = j * L + r := by
        rw [Nat.succ_mul]; omega
      rw [this, ih (fun b hb => hL b (List.mem_cons_of_mem _ hb))]
      simp

theorem length_internVals (dimensions : List Int) (i : Nat) :
    (internVals dimensions i).length = (dimensions.getD i 0).toNat := by
  simp [internVals]

theorem strideOf_succ (dimensions : List Int) (i : Nat) (hi : i < dimensions.length) :
    strideOf dimensions (i + 1) = strideOf dimensions i * (dimensions.getD i 0).toNat := by
  unfold strideOf
  rw [List.take_succ, List.map_append, List.prod_append, List.getElem?_eq_getElem hi,
    List.getD_eq_getElem?_getD, List.getElem?_eq_getElem hi]
  simp only [Option.toList, List.map_cons, List.map_nil, List.prod_cons, List.prod_nil,
    Nat.mul_one, Option.getD_some]

theorem length_enumWith_internVals (dimensions : List Int) (depth : Nat)
    (coordinates : List Int) (hd : depth ≤ dimensions.length) :
    (enumWith (internVals dimensions) depth coordinates).length = strideOf dimensions depth := by
  rw [length_enumWith]
  induction depth with
  | zero => simp [strideOf]
  | succ d ih =>
    rw [List.range_succ, List.map_append, List.prod_append, ih (by omega),
      strideOf_succ dimensions d (by omega)]
    simp [length_internVals]

theorem linearIndex_succ (dimensions coordinates : List Int) (d : Nat) :
    linearIndex dimensions coordinates (d + 1) =
      linearIndex dimensions coordinates d +
        (coordinates.getD d 0).toNat * strideOf dimensions d := by
  simp [linearIndex, List.range_succ]

/-- A tuple of the enumeration stands at the position given by `linearIndex`. -/
theorem getElem?_enumWith_linearIndex (dimensions : List Int) (depth : Nat)
    (coordinates tup : List Int) (hd : depth ≤ coordinates.length)
    (hdl : depth ≤ dimensions.length)
    (h : tup ∈ enumWith (internVals dimensions) depth coordinates) :
    (enumWith (internVals dimensions) depth coordinates)[linearIndex dimensions tup depth]? =
      some tup := by
  induction depth generalizing coordinates with
  | zero =>
    simp only [enumWith, List.mem_singleton] at h
    simp [enumWith, linearIndex, h]
  | succ d ih =>
    have hmem := (mem_enumWith _ _ _ _ hd).mp h
    obtain ⟨v, hv, htv⟩ := hmem.2.1 d (by omega)
    have hvd : tup.getD d 0 = v := by
      simp [List.getD_eq_getElem?_getD, htv]
    have hvr := (mem_internVals _ _ _).mp hv
    have hin : tup ∈ enumWith (internVals dimensions) d (coordinates.set d v) := by
      rw [mem_enumWith _ _ _ _ (by rw [List.length_set]; omega)]
      refine ⟨by rw [List.length_set]; exact hmem.1, fun i hi => hmem.2.1 i (by omega), ?_⟩
      intro i hi
      by_cases hid : i = d
      · subst hid
        rw [htv, List.getElem?_set_self (by omega)]
      · rw [hmem.2.2 i (by omega), List.getElem?_set_ne (fun e => hid e.symm)]
    have hih := ih (coordinates.set d v) (by rw [List.length_set]; omega) (by omega) hin
    have hr : linearIndex dimensions tup d < strideOf dimensions d := by
      have hlt : linearIndex dimensions tup d <
          (enumWith (internVals dimensions) d (coordinates.set d v)).length := by
        rcases Nat.lt_or_ge (linearIndex dimensions tup d)
          (enumWith (internVals dimensions) d (coordinates.set d v)).length with hl | hl
        · exact hl
        · rw [List.getElem?_eq_none hl] at hih; exact absurd hih (by simp)
      rw [length_enumWith_internVals _ _ _ (by omega)] at hlt
      exact hlt
    simp only [enumWith]
    rw [linearIndex_succ, Nat.add_comm, hvd,
      getElem?_flatMap_uniform _ _ (strideOf dimensions d)
        (fun a _ => length_enumWith_internVals _ _ _ (by omega)) _ _ hr]
    have hk : (internVals dimensions d)[v.toNat]? = some v := by
      simp only [internVals, List.getElem?_map, List.getElem?_range]
      have h1 : v.toNat < (dimensions.getD d 0).toNat := by omega
      have h2 : Int.ofNat v.toNat = v := by
        show ((v.toNat : Int) = v)
        omega
      have h3 : (List.range (dimensions.getD d 0).toNat)[v.toNat]? = some v.toNat := by
        rw [List.getElem?_range h1]
      rw [h3]
      exact congrArg some h2
    rw [hk]
    exact hih

theorem intToSize_of_nonneg {z : Int} (hz : 0 ≤ z) : intToSize z = z.toNat % 2 ^ 64 := by
  unfold intToSize
  have h : z = (z.toNat : Int) := (Int.toNat_of_nonneg hz).symm
  rw [h]
  simp only [Int.toNat_ofNat]
  have : ((z.toNat : Int) % (2 ^ 64 : Int)) = ((z.toNat % 2 ^ 64 : Nat) : Int) := by
    push_cast; rfl
  rw [this, Int.toNat_ofNat]

theorem internCellIndexLoop_lt (dimensions coordinates : List Int) (index multiplier : Nat)
    (h : index < 2 ^ 64) :
    internCellIndexLoop dimensions coordinates index multiplier < 2 ^ 64 := by
  induction dimensions generalizing coordinates index multiplier with
  | nil => exact h
  | cons d ds ih =>
    simp only [internCellIndexLoop]
    exact ih _ _ _ (Nat.mod_lt _ (by norm_num))

theorem internCellIndexLoop_modEq (dimensions tup : List Int)
    (hpos : ∀ i, i < dimensions.length → 0 ≤ dimensions.getD i 0)
    (htup : ∀ i, i < dimensions.length → 0 ≤ tup.getD i 0) :
    ∀ (k i index multiplier : Nat), i + k = dimensions.length →
      index ≡ linearIndex dimensions tup i [MOD 2 ^ 64] →
      multiplier ≡ strideOf dimensions i [MOD 2 ^ 64] →
      internCellIndexLoop (dimensions.drop i) (tup.drop i) index multiplier ≡
        linearIndex dimensions tup dimensions.length [MOD 2 ^ 64] := by
  intro k
  induction k with
  | zero =>
    intro i index multiplier hi hidx _
    have : i = dimensions.length := by omega
    subst this
    rw [List.drop_length]
    exact hidx
  | succ k ih =>
    intro i index multiplier hi hidx hmult
    have hlt : i < dimensions.length := by omega
    rw [List.drop_eq_getElem_cons hlt]
    simp only [internCellIndexLoop]
    have hhead : (tup.drop i).headD 0 = tup.getD i 0 := by
      cases h : tup.drop i with
      | nil =>
        have : tup.length ≤ i := List.drop_eq_nil_iff.mp h
        simp [List.getD_eq_getElem?_getD, List.getElem?_eq_none this]
      | cons a as =>
        have h2 := congrArg (fun l => l[0]?) h
        simp only [List.getElem?_drop, Nat.add_zero, List.getElem?_cons_zero] at h2
        simp [List.getD_eq_getElem?_getD, h2]
    have htail : (tup.drop i).tail = tup.drop (i + 1) := by
      rw [List.tail_drop]
    rw [hhead, htail]
    have hd : dimensions[i] = dimensions.getD i 0 := by
      simp [List.getD_eq_getElem?_getD, List.getElem?_eq_getElem hlt]
    rw [hd]
    apply ih (i + 1) _ _ (by omega)
    · rw [linearIndex_succ, intToSize_of_nonneg (htup i hlt)]
      have h1 : (index + (tup.getD i 0).toNat % 2 ^ 64 * multiplier) % 2 ^ 64 ≡
          index + (tup.getD i 0).toNat % 2 ^ 64 * multiplier [MOD 2 ^ 64] := Nat.mod_modEq _ _
      refine h1.trans (Nat.ModEq.add hidx ?_)
      exact Nat.ModEq.mul (Nat.mod_modEq _ _) hmult
    · rw [strideOf_succ dimensions i hlt, intToSize_of_nonneg (hpos i hlt)]
      have h1 : (multiplier * ((dimensions.getD i 0).toNat % 2 ^ 64)) % 2 ^ 64 ≡
          multiplier * ((dimensions.getD i 0).toNat % 2 ^ 64) [MOD 2 ^ 64] := Nat.mod_modEq _ _
      exact h1.trans (Nat.ModEq.mul hmult (Nat.mod_modEq _ _))

/-- Method `internCellIndex` on a tuple with no negative entry: the sum of
coordinate times stride, when that sum is below `2^64`. -/
theorem internCellIndex_eq_linearIndex (dimensions tup : List Int)
    (hpos : ∀ i, i < dimensions.length → 0 ≤ dimensions.getD i 0)
    (htup : ∀ i, i < dimensions.length → 0 ≤ tup.getD i 0)
    (hlt : linearIndex dimensions tup dimensions.length < 2 ^ 64) :
    internCellIndex dimensions tup = linearIndex dimensions tup dimensions.length := by
  have h := internCellIndexLoop_modEq dimensions tup hpos htup dimensions.length 0 0 1
    (by omega) (by simp [linearIndex]; rfl) (by simp [strideOf]; rfl)
  simp only [List.drop_zero] at h
  unfold internCellIndex
  have h1 := internCellIndexLoop_lt dimensions tup 0 1 (by norm_num)
  exact Nat.ModEq.eq_of_lt_of_lt h h1 hlt

/-- In a constructed universe with at most `2^64` intern cells, `internCellIndex`
of a tuple with `0 ≤ c_i < count_i` on every axis is the position of the cell
that has these coordinates. -/
theorem GriddedUniverse.internCellIndex_new {lb ub : Vector} {side mf : ℚ} {pc : Int}
    {u : GriddedUniverse} (hnew : GriddedUniverse.new lb ub side mf pc = some u)
    (hsize : u.internCells.length ≤ 2 ^ 64) (tup : List Int)
    (hlen : tup.length = u.dimensions.length)
    (htup : ∀ i, i < u.dimensions.length →
      0 ≤ tup.getD i 0 ∧ tup.getD i 0 < u.dimensions.getD i 0) :
    ∃ cell, u.internCells[internCellIndex u.dimensions tup]? = some cell ∧
      cell.coordinates = tup := by
  have hco := GriddedUniverse.coordinates_new hnew
  have hmem : tup ∈ u.internCells.map (fun c => c.coordinates) :=
    ((internCells_enumeration_aux hnew).2 tup).mpr ⟨hlen, htup⟩
  rw [hco] at hmem
  have hget := getElem?_enumWith_linearIndex u.dimensions u.dimensions.length
    (List.replicate u.dimensions.length 0) tup (by simp) (Nat.le_refl _) hmem
  rw [← hco] at hget
  have hlt : linearIndex u.dimensions tup u.dimensions.length < u.internCells.length := by
    rcases Nat.lt_or_ge (linearIndex u.dimensions tup u.dimensions.length)
      u.internCells.length with hl | hl
    · exact hl
    · rw [List.getElem?_eq_none (by rw [List.length_map]; exact hl)] at hget
      exact absurd hget (by simp)
  rw [internCellIndex_eq_linearIndex u.dimensions tup
    (fun i hi => by have := htup i hi; omega) (fun i hi => (htup i hi).1) (by omega)]
  rw [List.getElem?_map] at hget
  cases hc : u.internCells[linearIndex u.dimensions tup u.dimensions.length]? with
  | none => simp [hc] at hget
  | some cell =>
    simp only [hc, Option.map_some', Option.some.injEq] at hget
    exact ⟨cell, rfl, hget⟩

/-! ## Enumeration of the border cells -/

theorem foldlM_map_append {α β γ : Type} (f : List β → α → Option (List β)) (proj : β → γ)
    (g : α → List γ)
    (h : ∀ st x res, f st x = some res → res.map proj = st.map proj ++ g x)
    (l : List α) (init res : List β) (hres : l.foldlM f init = some res) :
    res.map proj = init.map proj ++ l.flatMap g := by
  induction l generalizing init with
  | nil =>
    simp only [List.foldlM_nil, pure, Option.some.injEq] at hres
    subst hres; simp
  | cons x xs ih =>
    rw [List.foldlM_cons] at hres
    cases hx : f init x with
    | none => simp [hx] at hres
    | some mid =>
      simp only [hx] at hres
      rw [ih mid hres, h init x mid hx, List.flatMap_cons, List.append_assoc]

theorem filter_flatMap {α β : Type} (l : List α) (f : α → List β) (p : β → Bool) :
    (l.flatMap f).filter p = l.flatMap (fun a => (f a).filter p) := by
  induction l with
  | nil => rfl
  | cons a as ih => simp [List.flatMap_cons, List.filter_append, ih]

/-- Coordinates of the border cells appended by `createExternCellsRecursive`:
the tuples of the enumeration over the expanded ranges that have an entry equal
to -1 or to the count of its axis, in the order of the enumeration. -/
theorem GriddedUniverse.createExternCellsRecursive_coordinates (u : GriddedUniverse)
    (depth : Nat) (coordinates : List Int) (cells res : List ExternBorderCell)
    (hres : u.createExternCellsRecursive depth coordinates cells = some res) :
    res.map (fun e => e.coordinates) =
      cells.map (fun e => e.coordinates) ++
        (enumWith (externVals u.dimensions) depth coordinates).filter
          (fun tup => isExternCoord tup u.dimensions) := by
  induction depth generalizing coordinates cells res with
  | zero =>
    simp only [GriddedUniverse.createExternCellsRecursive] at hres
    simp only [enumWith]
    by_cases hb : isExternCoord coordinates u.dimensions = true
    · simp only [hb, if_true] at hres
      by_cases hi : internCellIndex u.dimensions
          (GriddedUniverse.copyCellCoords u.dimensions coordinates) < u.internCells.length
      · simp only [hi, if_true, Option.some.injEq] at hres
        subst hres
        simp [List.filter_cons, hb, GriddedUniverse.createExternBorderCell]
      · simp [hi] at hres
    · simp only [hb, Bool.false_eq_true, if_false, Option.some.injEq] at hres
      subst hres
      simp [List.filter_cons, hb]
  | succ d ih =>
    simp only [GriddedUniverse.createExternCellsRecursive] at hres
    rw [foldlM_map_append _ (fun e => e.coordinates)
      (fun k => (enumWith (externVals u.dimensions) d
        (coordinates.set d (Int.ofNat k - 1))).filter
          (fun tup => isExternCoord tup u.dimensions))
      (fun st k r hk => ih _ st r hk) _ cells res hres]
    congr 1
    simp only [enumWith, filter_flatMap]
    simp only [externVals, List.flatMap_map]

theorem mem_externVals (dimensions : List Int) (i : Nat) (v : Int) :
    v ∈ externVals dimensions i ↔ -1 ≤ v ∧ v ≤ dimensions.getD i 0 := by
  simp only [externVals, List.mem_map, List.mem_range]
  constructor
  · rintro ⟨k, hk, rfl⟩
    have : (Int.ofNat k) = (k : Int) := rfl
    omega
  · rintro ⟨h1, h2⟩
    refine ⟨(v + 1).toNat, by omega, ?_⟩
    have : (Int.ofNat (v + 1).toNat) = ((v + 1).toNat : Int) := rfl
    omega

theorem nodup_externVals (dimensions : List Int) (i : Nat) :
    (externVals dimensions i).Nodup := by
  unfold externVals
  refine (List.nodup_range _).map ?_
  intro a b hab
  have h1 : (Int.ofNat a) = (a : Int) := rfl
  have h2 : (Int.ofNat b) = (b : Int) := rfl
  simp only at hab
  omega

theorem isExternCoord_iff (coords dimensions : List Int) :
    isExternCoord coords dimensions = true ↔
      ∃ i, i < dimensions.length ∧
        (coords.getD i 0 = -1 ∨ coords.getD i 0 = dimensions.getD i 0) := by
  simp [isExternCoord, List.any_eq_true]

theorem GriddedUniverse.getD_coordinates_setCellsNeighbours (v : GriddedUniverse) (j : Nat) :
    (v.setCellsNeighbours.internCells.getD j (InternCell.new [])).coordinates =
      (v.internCells.getD j (InternCell.new [])).coordinates := by
  simp only [GriddedUniverse.setCellsNeighbours, List.getD_eq_getElem?_getD,
    List.getElem?_mapIdx]
  cases v.internCells[j]? with
  | none => rfl
  | some cell => simp [GriddedUniverse.setOneInernCellNeighbours_eq]

/-- Border cells of a constructed universe, one by one: the coordinates have an
entry out of range, the source is the position computed by `internCellIndex`
from the wrapped coordinates and is a valid position, the offset is the one
computed by `createExternBorderCell`, there is no particle, and the neighbours
are the intern cells within 1 on every axis. -/
theorem GriddedUniverse.borderCell_facts {lb ub : Vector} {side mf : ℚ} {pc : Int}
    {u : GriddedUniverse} (hnew : GriddedUniverse.new lb ub side mf pc = some u)
    (e : ExternBorderCell) (he : e ∈ u.externBorderCells) :
    isExternCoord e.coordinates u.dimensions = true ∧
    e.copyCell = internCellIndex u.dimensions
      (GriddedUniverse.copyCellCoords u.dimensions e.coordinates) ∧
    e.copyCell < u.internCells.length ∧
    e.offset = ⟨(List.range u.dimensions.length).map (fun i =>
        if e.coordinates.getD i 0 = -1 then 0 - (ub.sub lb).get i
        else if e.coordinates.getD i 0 = u.dimensions.getD i 0 then 0 + (ub.sub lb).get i
        else 0)⟩ ∧
    e.particles = [] ∧
    e.neighbours = (List.range u.internCells.length).filter (fun j =>
      areNeighbours e.coordinates ((u.internCells.getD j (InternCell.new [])).coordinates)) := by
  obtain ⟨v, ext, _, _, hlb, hub, _, _, hext, rfl⟩ := GriddedUniverse.new_eq_some hnew
  have hlen : (GriddedUniverse.setCellsNeighbours
      { v with externBorderCells := ext }).internCells.length = v.internCells.length := by
    simp [GriddedUniverse.setCellsNeighbours]
  simp only [GriddedUniverse.setCellsNeighbours, List.mem_map] at he
  obtain ⟨e0, he0, rfl⟩ := he
  have hP := GriddedUniverse.createExternCellsRecursive_inv v
    (fun e => isExternCoord e.coordinates v.dimensions = true ∧
      e.copyCell = internCellIndex v.dimensions
        (GriddedUniverse.copyCellCoords v.dimensions e.coordinates) ∧
      e.copyCell < v.internCells.length ∧
      e.offset = ⟨(List.range v.dimensions.length).map (fun i =>
        if e.coordinates.getD i 0 = -1 then 0 - (v.upperBound.sub v.lowerBound).get i
        else if e.coordinates.getD i 0 = v.dimensions.getD i 0
          then 0 + (v.upperBound.sub v.lowerBound).get i
        else 0)⟩ ∧
      e.particles = [] ∧ e.neighbours = [])
    (fun coords index hb hi hlt => ⟨hb, hi, hlt, rfl, rfl, rfl⟩)
    _ _ [] ext (by intro e he; cases he) hext e0 he0
  obtain ⟨h1, h2, h3, h4, h5, h6⟩ := hP
  rw [GriddedUniverse.setOneExternCellNeighbours_eq]
  refine ⟨h1, h2, ?_, ?_, h5, ?_⟩
  · rw [hlen]; exact h3
  · rw [h4, hlb, hub]; rfl
  · show e0.neighbours ++ _ = _
    rw [h6, List.nil_append, hlen]
    apply List.filter_congr
    intro j _
    have := GriddedUniverse.getD_coordinates_setCellsNeighbours
      { v with externBorderCells := ext } j
    exact congrArg (areNeighbours e0.coordinates) this.symm

/-- Coordinates of the border cells of a constructed universe, in order. -/
theorem GriddedUniverse.borderCoordinates_new {lb ub : Vector} {side mf : ℚ} {pc : Int}
    {u : GriddedUniverse} (hnew : GriddedUniverse.new lb ub side mf pc = some u) :
    u.externBorderCells.map (fun e => e.coordinates) =
      (enumWith (externVals u.dimensions) u.dimensions.length
        (List.replicate u.dimensions.length 0)).filter
          (fun tup => isExternCoord tup u.dimensions) := by
  obtain ⟨v, ext, _, _, _, _, _, _, hext, rfl⟩ := GriddedUniverse.new_eq_some hnew
  have h := GriddedUniverse.createExternCellsRecursive_coordinates v _ _ [] ext hext
  simp only [List.map_nil, List.nil_append] at h
  simp only [GriddedUniverse.setCellsNeighbours, List.map_map]
  have hf : ((fun e : ExternBorderCell => e.coordinates) ∘
      GriddedUniverse.setOneExternCellNeighbours v.internCells) =
      fun e => e.coordinates := by
    funext e
    simp [GriddedUniverse.setOneExternCellNeighbours_eq]
  rw [hf]
  exact h

theorem borderCells_enumeration_aux {lb ub : Vector} {side mf : ℚ} {pc : Int}
    {u : GriddedUniverse} (hnew : GriddedUniverse.new lb ub side mf pc = some u) :
    (u.externBorderCells.map (fun e => e.coordinates)).Nodup ∧
    (∀ tup : List Int, tup ∈ u.externBorderCells.map (fun e => e.coordinates) ↔
      tup.length = u.dimensions.length ∧
      (∀ i, i < u.dimensions.length →
        -1 ≤ tup.getD i 0 ∧ tup.getD i 0 ≤ u.dimensions.getD i 0) ∧
      ∃ i, i < u.dimensions.length ∧
        (tup.getD i 0 = -1 ∨ tup.getD i 0 = u.dimensions.getD i 0)) := by
  have hco := GriddedUniverse.borderCoordinates_new hnew
  refine ⟨?_, ?_⟩
  · rw [hco]
    exact (nodup_enumWith _ _ _ (by simp) (fun i _ => nodup_externVals _ i)).filter _
  · intro tup
    rw [hco, List.mem_filter, mem_enumWith _ _ _ _ (by simp), isExternCoord_iff]
    simp only [List.length_replicate]
    constructor
    · rintro ⟨⟨h1, h2, _⟩, h3⟩
      refine ⟨h1, fun i hi => ?_, h3⟩
      obtain ⟨v, hv, hvi⟩ := h2 i hi
      rw [getElem?_eq_some_iff_getD (by omega)] at hvi
      rw [hvi]
      exact (mem_externVals _ _ _).mp hv
    · rintro ⟨h1, h2, h3⟩
      refine ⟨⟨h1, fun i hi => ?_, fun i hi => ?_⟩, h3⟩
      · exact ⟨tup.getD i 0, (mem_externVals _ _ _).mpr (h2 i hi),
          (getElem?_eq_some_iff_getD (by omega) _).mpr rfl⟩
      · rw [List.getElem?_eq_none (by omega), List.getElem?_eq_none (by simp; omega)]

theorem getD_copyCellCoords (dimensions coordinates : List Int) (i : Nat)
    (hi : i < coordinates.length) :
    (GriddedUniverse.copyCellCoords dimensions coordinates).getD i 0 =
      if coordinates.getD i 0 = dimensions.getD i 0 then 0
      else if coordinates.getD i 0 = -1 then dimensions.getD i 0 - 1
      else coordinates.getD i 0 := by
  unfold GriddedUniverse.copyCellCoords
  rw [getD_map_range _ _ _ _ hi]

theorem cellCount_of_extent_zero (lb ub : Vector) (side : ℚ) (i : Nat)
    (h : (ub.sub lb).get i = 0) : GriddedUniverse.cellCount lb ub side i = 0 := by
  unfold GriddedUniverse.cellCount
  rw [h, roundDouble_zero, zero_div, roundDouble_zero, Int.ceil_zero]
  simp [doubleToSize, truncToInt, sizeToInt]

/-- C12: in a universe returned by the constructor, with every cell count at
least 1 (and a number of cells that fits `size_t`), the coordinates of the
border cells are without repetition and are exactly the tuples with every
entry in `[-1, count_i]` and at least one entry equal to `-1` or `count_i`;
the source of each border cell is the intern cell whose coordinates replace
`-1` by `count_i - 1` and `count_i` by `0`; the offset is `-extent_i` where
the coordinate is `-1`, `+extent_i` where it is `count_i`, `0` elsewhere, and
is not the zero vector. -/
theorem externBorderCells_enumeration {lb ub : Vector} {side mf : ℚ} {pc : Int}
    {u : GriddedUniverse} (hnew : GriddedUniverse.new lb ub side mf pc = some u)
    (hdim : ub.getDimension = lb.getDimension)
    (hpos : ∀ i, i < u.dimensions.length → 1 ≤ u.dimensions.getD i 0)
    (hsize : u.internCells.length ≤ 2 ^ 64) :
    (u.externBorderCells.map (fun e => e.coordinates)).Nodup ∧
    (∀ tup : List Int, tup ∈ u.externBorderCells.map (fun e => e.coordinates) ↔
      tup.length = u.dimensions.length ∧
      (∀ i, i < u.dimensions.length →
        -1 ≤ tup.getD i 0 ∧ tup.getD i 0 ≤ u.dimensions.getD i 0) ∧
      ∃ i, i < u.dimensions.length ∧
        (tup.getD i 0 = -1 ∨ tup.getD i 0 = u.dimensions.getD i 0)) ∧
    (∀ e ∈ u.externBorderCells,
      (∃ cell, u.internCells[e.copyCell]? = some cell ∧
        cell.coordinates.length = u.dimensions.length ∧
        ∀ i, i < u.dimensions.length →
          cell.coordinates.getD i 0 =
            if e.coordinates.getD i 0 = -1 then u.dimensions.getD i 0 - 1
            else if e.coordinates.getD i 0 = u.dimensions.getD i 0 then 0
            else e.coordinates.getD i 0) ∧
      e.offset.getDimension = u.dimensions.length ∧
      (∀ i, i < u.dimensions.length →
        e.offset.get i =
          if e.coordinates.getD i 0 = -1 then -(ub.get i - lb.get i)
          else if e.coordinates.getD i 0 = u.dimensions.getD i 0 then ub.get i - lb.get i
          else 0) ∧
      e.offset ≠ Vector.zero u.dimensions.length) := by
  have haux := borderCells_enumeration_aux hnew
  refine ⟨haux.1, haux.2, ?_⟩
  intro e he
  obtain ⟨_, hcopy, _, hoff, _, _⟩ := GriddedUniverse.borderCell_facts hnew e he
  have hmem : e.coordinates ∈ u.externBorderCells.map (fun e => e.coordinates) :=
    List.mem_map.mpr ⟨e, he, rfl⟩
  obtain ⟨hlen, hrange, i0, hi0, hext⟩ := (haux.2 _).mp hmem
  have hdims := GriddedUniverse.dimensions_new hnew
  have hn : u.dimensions.length = lb.getDimension := by
    rw [hdims, List.length_map, List.length_range]
  have hget : ∀ i, i < u.dimensions.length →
      e.offset.get i =
        if e.coordinates.getD i 0 = -1 then -(ub.get i - lb.get i)
        else if e.coordinates.getD i 0 = u.dimensions.getD i 0 then ub.get i - lb.get i
        else 0 := by
    intro i hi
    rw [hoff]
    show ((List.range u.dimensions.length).map _).getD i 0 = _
    rw [getD_map_range _ _ _ _ hi, Vector.get_sub _ _ _ (by omega), zero_sub, zero_add]
  have hne : ∀ i, i < u.dimensions.length → ub.get i - lb.get i ≠ 0 := by
    intro i hi h0
    have h1 := hpos i hi
    rw [hdims, getD_map_range _ _ _ _ (by omega),
      cellCount_of_extent_zero lb ub side i
        ((Vector.get_sub _ _ _ (by omega)).trans h0)] at h1
    omega
  refine ⟨?_, ?_, hget, ?_⟩
  · have hclen : (GriddedUniverse.copyCellCoords u.dimensions e.coordinates).length =
        u.dimensions.length := by
      simp [GriddedUniverse.copyCellCoords, hlen]
    have hvalid : ∀ i, i < u.dimensions.length →
        0 ≤ (GriddedUniverse.copyCellCoords u.dimensions e.coordinates).getD i 0 ∧
        (GriddedUniverse.copyCellCoords u.dimensions e.coordinates).getD i 0 <
          u.dimensions.getD i 0 := by
      intro i hi
      rw [getD_copyCellCoords _ _ _ (by omega)]
      have h1 := hpos i hi
      have h2 := hrange i hi
      split_ifs <;> omega
    obtain ⟨cell, hcell, hcoords⟩ :=
      GriddedUniverse.internCellIndex_new hnew hsize _ hclen hvalid
    refine ⟨cell, by rw [hcopy]; exact hcell, by rw [hcoords]; exact hclen, ?_⟩
    intro i hi
    rw [hcoords, getD_copyCellCoords _ _ _ (by omega)]
    have h1 := hpos i hi
    split_ifs <;> omega
  · rw [hoff]
    simp [Vector.getDimension]
  · intro hzero
    have h1 := hget i0 hi0
    rw [hzero] at h1
    have h2 : (Vector.zero u.dimensions.length).get i0 = 0 := by
      simp [Vector.zero, Vector.get, List.getD_eq_getElem?_getD]
    rw [h2] at h1
    have h3 := hne i0 hi0
    have h4 := hpos i0 hi0
    rcases hext with hm | hm
    · rw [if_pos hm] at h1
      exact h3 (by linarith)
    · rw [if_neg (by omega), if_pos hm] at h1
      exact h3 h1.symm

/-- C12, witness: the 2 x 3 grid has 14 border cells; the one at `(-1, -1)`
copies the intern cell `(1, 2)` at position 5 with the offset `(-1.5, -3)`. -/
theorem externBorderCells_enumeration_witness :
    (grid2x3.externBorderCells.map (fun e => e.coordinates)).Nodup ∧
    grid2x3.externBorderCells.length = 14 ∧
    (grid2x3.externBorderCells.head?.map
      (fun e => (e.coordinates, e.copyCell, e.offset.data))) =
        some ([-1, -1], 5, [-(3 / 2), -3]) ∧
    (∀ e ∈ grid2x3.externBorderCells, e.offset ≠ Vector.zero grid2x3.dimensions.length) := by
  have h := externBorderCells_enumeration grid2x3_new rfl (by decide!) (by decide!)
  exact ⟨h.1, by decide!, by decide!, fun e he => (h.2.2 e he).2.2.2⟩

/-- In a constructed universe a valid coordinate tuple is the tuple of the cell
at some position. -/
theorem GriddedUniverse.exists_position_new {lb ub : Vector} {side mf : ℚ} {pc : Int}
    {u : GriddedUniverse} (hnew : GriddedUniverse.new lb ub side mf pc = some u)
    (tup : List Int) (hlen : tup.length = u.dimensions.length)
    (htup : ∀ i, i < u.dimensions.length →
      0 ≤ tup.getD i 0 ∧ tup.getD i 0 < u.dimensions.getD i 0) :
    ∃ j, j < u.internCells.length ∧
      (u.internCells.getD j (InternCell.new [])).coordinates = tup := by
  have hmem : tup ∈ u.internCells.map (fun c => c.coordinates) :=
    ((internCells_enumeration_aux hnew).2 tup).mpr ⟨hlen, htup⟩
  obtain ⟨cell, hcell, rfl⟩ := List.mem_map.mp hmem
  obtain ⟨j, hj, rfl⟩ := List.getElem_of_mem hcell
  exact ⟨j, hj, by simp [List.getD_eq_getElem?_getD, List.getElem?_eq_getElem hj]⟩

/-- In a constructed universe the coordinates of the cell at a valid position
are in range. -/
theorem GriddedUniverse.coordinates_range_new {lb ub : Vector} {side mf : ℚ} {pc : Int}
    {u : GriddedUniverse} (hnew : GriddedUniverse.new lb ub side mf pc = some u)
    (j : Nat) (hj : j < u.internCells.length) (i : Nat) (hi : i < u.dimensions.length) :
    0 ≤ (u.internCells.getD j (InternCell.new [])).coordinates.getD i 0 ∧
    (u.internCells.getD j (InternCell.new [])).coordinates.getD i 0 < u.dimensions.getD i 0 := by
  have hmem : (u.internCells.getD j (InternCell.new [])).coordinates ∈
      u.internCells.map (fun c => c.coordinates) := by
    refine List.mem_map.mpr ⟨u.internCells[j], List.getElem_mem hj, ?_⟩
    simp [List.getD_eq_getElem?_getD, List.getElem?_eq_getElem hj]
  exact (((internCells_enumeration_aux hnew).2 _).mp hmem).2 i hi

/-- C14, amended: in a universe returned by the constructor, with every cell
count at least 1, the neighbour list of a border cell holds exactly the
positions of the intern cells within distance 1 on every axis, each once; it
is not empty and has at most as many entries as there are intern cells; it has
strictly fewer when the border coordinate is out of range on an axis with at
least 2 cells, and as many when every axis has one cell. -/
theorem externBorderCell_neighbours_count {lb ub : Vector} {side mf : ℚ} {pc : Int}
    {u : GriddedUniverse} (hnew : GriddedUniverse.new lb ub side mf pc = some u)
    (hpos : ∀ i, i < u.dimensions.length → 1 ≤ u.dimensions.getD i 0)
    (e : ExternBorderCell) (he : e ∈ u.externBorderCells) :
    (∀ j, j ∈ e.neighbours ↔ j < u.internCells.length ∧
      ∀ d, d < u.dimensions.length →
        |e.coordinates.getD d 0 -
          (u.internCells.getD j (InternCell.new [])).coordinates.getD d 0| ≤ 1) ∧
    e.neighbours.Nodup ∧
    0 < e.neighbours.length ∧
    e.neighbours.length ≤ u.internCells.length ∧
    ((∃ i, i < u.dimensions.length ∧ 2 ≤ u.dimensions.getD i 0 ∧
        (e.coordinates.getD i 0 = -1 ∨ e.coordinates.getD i 0 = u.dimensions.getD i 0)) →
      e.neighbours.length < u.internCells.length) ∧
    ((∀ i, i < u.dimensions.length → u.dimensions.getD i 0 = 1) →
      e.neighbours.length = u.internCells.length) := by
  obtain ⟨_, _, _, _, _, hnb⟩ := GriddedUniverse.borderCell_facts hnew e he
  have hmem : e.coordinates ∈ u.externBorderCells.map (fun e => e.coordinates) :=
    List.mem_map.mpr ⟨e, he, rfl⟩
  obtain ⟨hlen, hrange, _⟩ := ((borderCells_enumeration_aux hnew).2 _).mp hmem
  have hiff : ∀ j, j ∈ e.neighbours ↔ j < u.internCells.length ∧
      ∀ d, d < u.dimensions.length →
        |e.coordinates.getD d 0 -
          (u.internCells.getD j (InternCell.new [])).coordinates.getD d 0| ≤ 1 := by
    intro j
    rw [hnb, List.mem_filter, List.mem_range, areNeighbours_iff, hlen]
  have hle : e.neighbours.length ≤ u.internCells.length := by
    rw [hnb]
    exact (List.length_filter_le _ _).trans (by rw [List.length_range])
  refine ⟨hiff, ?_, ?_, hle, ?_, ?_⟩
  · rw [hnb]
    exact (List.nodup_range _).filter _
  · obtain ⟨j, hj, hco⟩ := GriddedUniverse.exists_position_new hnew
      ((List.range u.dimensions.length).map (fun i =>
        if e.coordinates.getD i 0 = -1 then 0
        else if e.coordinates.getD i 0 = u.dimensions.getD i 0 then u.dimensions.getD i 0 - 1
        else e.coordinates.getD i 0))
      (by simp)
      (by
        intro i hi
        rw [getD_map_range _ _ _ _ hi]
        have h1 := hpos i hi
        have h2 := hrange i hi
        split_ifs <;> omega)
    have hjmem : j ∈ e.neighbours := by
      rw [hiff]
      refine ⟨hj, fun d hd => ?_⟩
      rw [hco, getD_map_range _ _ _ _ hd, abs_le]
      have h1 := hpos d hd
      have h2 := hrange d hd
      split_ifs <;> constructor <;> omega
    exact List.length_pos_of_mem hjmem
  · rintro ⟨i, hi, h2, hout⟩
    obtain ⟨j, hj, hco⟩ := GriddedUniverse.exists_position_new hnew
      (GriddedUniverse.copyCellCoords u.dimensions e.coordinates)
      (by simp [GriddedUniverse.copyCellCoords, hlen])
      (by
        intro i hi
        rw [getD_copyCellCoords _ _ _ (by omega)]
        have h1 := hpos i hi
        have h2 := hrange i hi
        split_ifs <;> omega)
    have hjnot : j ∉ e.neighbours := by
      rw [hiff]
      rintro ⟨_, hall⟩
      have h3 := hall i hi
      rw [hco, getD_copyCellCoords _ _ _ (by omega), abs_le] at h3
      rcases hout with hm | hm
      · rw [if_neg (by omega), if_pos hm, hm] at h3
        omega
      · rw [if_pos hm, hm] at h3
        omega
    have hlt : (List.filter (fun j => areNeighbours e.coordinates
        ((u.internCells.getD j (InternCell.new [])).coordinates))
          (List.range u.internCells.length)).length <
        (List.range u.internCells.length).length := by
      rw [List.length_filter_lt_length_iff_exists]
      refine ⟨j, List.mem_range.mpr hj, ?_⟩
      intro hp
      apply hjnot
      rw [hnb, List.mem_filter]
      exact ⟨List.mem_range.mpr hj, hp⟩
    rw [List.length_range] at hlt
    rw [hnb]
    exact hlt
  · intro hone
    have hall : ∀ j, j ∈ List.range u.internCells.length → j ∈ e.neighbours := by
      intro j hj
      rw [List.mem_range] at hj
      rw [hiff]
      refine ⟨hj, fun d hd => ?_⟩
      have h1 := GriddedUniverse.coordinates_range_new hnew j hj d hd
      have h2 := hrange d hd
      have h3 := hone d hd
      rw [abs_le]
      constructor <;> omega
    have hsub : (List.range u.internCells.length).length ≤ e.neighbours.length := by
      rw [hnb, List.filter_eq_self.mpr]
      intro j hj
      have := hall j hj
      rw [hnb, List.mem_filter] at this
      exact this.2
    rw [List.length_range] at hsub
    omega

/-- C14, witness: in the 2 x 3 grid the border cell `(-1, -1)` has the single
neighbour at position 0, out of 6 intern cells. -/
theorem externBorderCell_neighbours_count_witness :
    (∀ e ∈ grid2x3.externBorderCells,
      0 < e.neighbours.length ∧ e.neighbours.length < grid2x3.internCells.length) ∧
    grid2x3.externBorderCells.head?.map (fun e => (e.coordinates, e.neighbours)) =
      some ([-1, -1], [0]) := by
  refine ⟨fun e he => ?_, by decide!⟩
  have h := externBorderCell_neighbours_count grid2x3_new (by decide!) e he
  have hmem : e.coordinates ∈ grid2x3.externBorderCells.map (fun e => e.coordinates) :=
    List.mem_map.mpr ⟨e, he, rfl⟩
  obtain ⟨_, _, i, hi, hout⟩ := ((borderCells_enumeration_aux grid2x3_new).2 _).mp hmem
  refine ⟨h.2.2.1, h.2.2.2.2.1 ⟨i, hi, ?_, hout⟩⟩
  have hall : ∀ k, k < grid2x3.dimensions.length → 2 ≤ grid2x3.dimensions.getD k 0 := by
    decide!
  exact hall i hi

/-- C14, counterexample: in the grid of 1 x 3 cells the border cell `(-1, 1)` has
the three neighbours 0, 1, 2, which are all the intern cells. -/
theorem externBorderCell_neighbours_all_cells :
    strip1x3.map (fun u => (u.dimensions, u.internCells.length,
      (u.externBorderCells.filter (fun e => e.coordinates == [-1, 1])).map
        (fun e => e.neighbours))) = some ([1, 3], 3, [[0, 1, 2]]) := by
  decide!

/-! ## The baseline force update -/

theorem foldl_flatMap_eq {α β σ : Type} (f : σ → β → σ) (g : α → List β) (l : List α) (st : σ) :
    (l.flatMap g).foldl f st = l.foldl (fun st a => (g a).foldl f st) st := by
  induction l generalizing st with
  | nil => rfl
  | cons a as ih => simp [List.flatMap_cons, List.foldl_append, ih]

/-- The loops of `Universe::applyInteractionForces` perform the calls of
`baselineCalls`, in order. -/
theorem Universe.applyInteractionForcesWith_eq_foldl {σ : Type} (act : σ → Nat → Nat → Nat → σ)
    (nbInteractions nbParticles : Nat) (st : σ) :
    Universe.applyInteractionForcesWith act nbInteractions nbParticles st =
      (baselineCalls nbInteractions nbParticles).foldl
        (fun st call => act st call.1 call.2.1 call.2.2) st := by
  unfold Universe.applyInteractionForcesWith baselineCalls
  rw [foldl_flatMap_eq]
  congr 1
  funext st k
  rw [foldl_flatMap_eq]
  congr 1
  funext st i
  rw [foldl_flatMap_eq]
  rfl

theorem foldl_recordCall {α : Type} (l : List (Nat × α × Nat)) (init : List (Nat × α × Nat)) :
    l.foldl (fun st call => recordCall st call.1 call.2.1 call.2.2) init = init ++ l := by
  induction l generalizing init with
  | nil => simp
  | cons a as ih =>
    rw [List.foldl_cons, ih]
    simp [recordCall]

theorem Universe.applyInteractionForcesWith_recordCall (nbInteractions nbParticles : Nat) :
    Universe.applyInteractionForcesWith recordCall nbInteractions nbParticles [] =
      baselineCalls nbInteractions nbParticles := by
  rw [Universe.applyInteractionForcesWith_eq_foldl, foldl_recordCall, List.nil_append]

theorem mem_baselineCalls (nbInteractions nbParticles k s t : Nat) :
    (k, s, t) ∈ baselineCalls nbInteractions nbParticles ↔
      k < nbInteractions ∧ s < nbParticles ∧ t < nbParticles ∧ s ≠ t := by
  simp only [baselineCalls, List.mem_flatMap, List.mem_range, List.mem_range', List.mem_cons,
    Prod.mk.injEq, List.mem_singleton, List.not_mem_nil, or_false]
  constructor
  · rintro ⟨k', hk', i, hi, j, ⟨m, hm, rfl⟩, h | h⟩
    · obtain ⟨rfl, rfl, rfl⟩ := h
      omega
    · obtain ⟨rfl, rfl, rfl⟩ := h
      omega
  · rintro ⟨hk, hs, ht, hne⟩
    rcases Nat.lt_or_gt_of_ne hne with hlt | hgt
    · exact ⟨k, hk, s, by omega, t, ⟨t - (s + 1), by omega, by omega⟩, Or.inl ⟨rfl, rfl, rfl⟩⟩
    · exact ⟨k, hk, t, by omega, s, ⟨s - (t + 1), by omega, by omega⟩, Or.inr ⟨rfl, rfl, rfl⟩⟩

theorem nodup_baselineCalls (nbInteractions nbParticles : Nat) :
    (baselineCalls nbInteractions nbParticles).Nodup := by
  unfold baselineCalls
  rw [List.nodup_flatMap]
  refine ⟨fun k _ => ?_, ?_⟩
  · rw [List.nodup_flatMap]
    refine ⟨fun i _ => ?_, ?_⟩
    · rw [List.nodup_flatMap]
      refine ⟨fun j hj => ?_, ?_⟩
      · rw [List.mem_range'] at hj
        obtain ⟨m, _, rfl⟩ := hj
        simp only [List.nodup_cons, List.mem_singleton, Prod.mk.injEq, List.not_mem_nil,
          not_false_eq_true, List.nodup_nil, and_true]
        omega
      · refine List.Pairwise.imp_of_mem ?_ (List.nodup_range' _ _)
        intro a b ha hb hab
        simp only [Function.onFun, List.disjoint_cons_left, List.mem_cons, Prod.mk.injEq,
          List.mem_singleton, List.not_mem_nil, or_false, List.disjoint_nil_left, and_true]
        rw [List.mem_range'] at ha hb
        obtain ⟨m, _, rfl⟩ := ha
        obtain ⟨m', _, rfl⟩ := hb
        omega
    · refine List.Pairwise.imp_of_mem ?_ (List.nodup_range _)
      intro a b _ _ hab
      simp only [Function.onFun, List.Disjoint, List.mem_flatMap, List.mem_range', List.mem_cons,
        List.mem_singleton, List.not_mem_nil, or_false]
      rintro ⟨k', x, y⟩ ⟨j, ⟨m, _, rfl⟩, h1⟩ ⟨j', ⟨m', _, rfl⟩, h2⟩
      simp only [Prod.mk.injEq] at h1 h2
      omega
  · refine List.Pairwise.imp_of_mem ?_ (List.nodup_range _)
    intro a b _ _ hab
    simp only [Function.onFun, List.Disjoint, List.mem_flatMap, List.mem_range, List.mem_range',
      List.mem_cons, List.mem_singleton, List.not_mem_nil, or_false]
    rintro ⟨k', x, y⟩ ⟨i, _, j, _, h1⟩ ⟨i', _, j', _, h2⟩
    simp only [Prod.mk.injEq] at h1 h2
    omega

theorem Vector.getDimension_add (v w : Vector) : (v.add w).getDimension = v.getDimension := by
  simp [Vector.add, Vector.getDimension]

theorem Vector.get_add (v w : Vector) (i : Nat) (hi : i < v.getDimension) :
    (v.add w).get i = v.get i + w.get i := by
  simp [Vector.add, Vector.get, List.getD_eq_getElem?_getD, List.getElem?_map,
    List.getElem?_range, hi]

/-- Forces after a sequence of calls of additive interactions that do not read
forces: every particle keeps everything but its force, and each coordinate of
its force has grown by the sum, over the calls that target it, of the
coordinate of the vector the call adds. -/
theorem foldl_interactByPointer (Fs : List (Particle → Particle → Vector))
    (hF : ∀ F ∈ Fs, ForceBlindInteraction F) (ps0 : List Particle)
    (calls : List (Nat × Nat × Nat))
    (hcalls : ∀ call ∈ calls,
      call.1 < Fs.length ∧ call.2.1 < ps0.length ∧ call.2.2 < ps0.length) :
    ∀ t p0, ps0[t]? = some p0 → ∃ fo,
      (calls.foldl (fun st call =>
        interactByPointer (Fs.map additiveInteraction) st call.1 call.2.1 call.2.2) ps0)[t]? =
          some { p0 with force := fo } ∧
      fo.getDimension = p0.force.getDimension ∧
      ∀ i, i < p0.force.getDimension →
        fo.get i = p0.force.get i +
          ((calls.filter (fun call => decide (call.2.2 = t))).map (fun call =>
            ((Fs.getD call.1 (fun _ _ => Vector.zero 0)) (ps0.getD call.2.1 p0) p0).get i)).sum := by
  induction calls using List.reverseRecOn with
  | nil =>
    intro t p0 ht
    exact ⟨p0.force, by simpa using ht, rfl, by simp⟩
  | append_singleton calls call ih =>
    have ih2 := ih (fun x hx => hcalls x (List.mem_append_left _ hx))
    obtain ⟨hk, hs, ht'⟩ := hcalls call (List.mem_append_right _ (List.mem_singleton.mpr rfl))
    obtain ⟨k, s, t'⟩ := call
    simp only at hk hs ht'
    intro t p0 ht
    obtain ⟨fo, hfo, hdim, hsum⟩ := ih2 t p0 ht
    obtain ⟨fs, hfs, _, _⟩ := ih2 s ps0[s] (List.getElem?_eq_getElem hs)
    obtain ⟨ft, hft, hdimt, hsumt⟩ := ih2 t' ps0[t'] (List.getElem?_eq_getElem ht')
    rw [List.foldl_append, List.foldl_cons, List.foldl_nil]
    generalize List.foldl (fun st call =>
      interactByPointer (Fs.map additiveInteraction) st call.1 call.2.1 call.2.2) ps0 calls = ps1
      at hfo hfs hft ⊢
    have hFk : Fs[k] ∈ Fs := List.getElem_mem hk
    have hstep : interactByPointer (Fs.map additiveInteraction) ps1 k s t' =
        ps1.set t' { ps0[t'] with force := ft.add (Fs[k] ps0[s] ps0[t']) } := by
      simp only [interactByPointer, hfs, interactOnStore, List.getElem?_map,
        List.getElem?_eq_getElem hk, Option.map_some', hft, additiveInteraction,
        Particle.addToForce]
      rw [hF _ hFk ps0[s] ps0[t'] fs ft]
    show ∃ fo, (interactByPointer (Fs.map additiveInteraction) ps1 k s t')[t]? = _ ∧ _
    rw [hstep]
    have hlen1 : t' < ps1.length := by
      have := List.getElem?_eq_some_iff.mp hft
      exact this.1
    by_cases htt : t' = t
    · subst htt
      have hp0 : ps0[t'] = p0 := by
        rw [List.getElem?_eq_getElem ht'] at ht
        exact Option.some.inj ht
      have hfeq : fo = ft := by
        rw [hfo] at hft
        have := Option.some.inj hft
        rw [hp0] at this
        exact congrArg Particle.force this
      subst hfeq
      refine ⟨fo.add (Fs[k] ps0[s] ps0[t']), ?_, ?_, ?_⟩
      · rw [List.getElem?_set_self hlen1, hp0]
      · rw [Vector.getDimension_add, hdim]
      · intro i hi
        rw [Vector.get_add _ _ _ (by omega), hsum i hi, List.filter_append, List.map_append,
          List.sum_append]
        simp [List.getD_eq_getElem?_getD, List.getElem?_eq_getElem hk,
          List.getElem?_eq_getElem hs, hp0, add_assoc]
    · refine ⟨fo, ?_, hdim, ?_⟩
      · rw [List.getElem?_set_ne htt]
        exact hfo
      · intro i hi
        rw [hsum i hi, List.filter_append]
        simp [htt]

theorem foldl_set_zero (n : Nat) (data : List ℚ) (hn : n ≤ data.length) :
    ((List.range n).foldl (fun (force : Vector) i => force.set i 0) ⟨data⟩).data =
      List.replicate n 0 ++ data.drop n := by
  induction n with
  | zero => simp
  | succ m ih =>
    rw [List.range_succ, List.foldl_append, List.foldl_cons, List.foldl_nil]
    show (((List.range m).foldl (fun (force : Vector) i => force.set i 0) ⟨data⟩).data).set m 0 = _
    rw [ih (by omega)]
    apply List.ext_getElem?
    intro i
    simp only [List.getElem?_set, List.length_append, List.length_replicate, List.length_drop,
      List.getElem?_append, List.getElem?_replicate, List.getElem?_drop]
    by_cases h1 : m = i
    · subst h1
      simp [show m < m + (data.length - m) by omega]
    · by_cases h2 : i < m
      · simp [h1, h2, show i < m + 1 by omega]
      · simp only [h1, h2, show ¬ i < m + 1 by omega, if_false]
        congr 1
        omega

/-- A particle whose force has the dimension of the particle has, after
`setForceToZero`, the zero force of that dimension. -/
theorem Particle.setForceToZero_eq (p : Particle)
    (hdim : p.force.getDimension = p.getDimension) :
    p.setForceToZero = { p with force := Vector.zero p.getDimension } := by
  unfold Particle.setForceToZero
  congr 1
  have h := foldl_set_zero p.getDimension p.force.data (by
    show p.getDimension ≤ p.force.getDimension
    omega)
  have hdrop : p.force.data.drop p.getDimension = [] := by
    apply List.drop_of_length_le
    show p.force.getDimension ≤ p.getDimension
    omega
  rw [hdrop, List.append_nil] at h
  show (List.foldl (fun (force : Vector) i => force.set i 0) ⟨p.force.data⟩
    (List.range p.getDimension)) = _
  cases hf : List.foldl (fun (force : Vector) i => force.set i 0) ⟨p.force.data⟩
    (List.range p.getDimension) with
  | mk d =>
    rw [hf] at h
    simp only [Vector.zero]
    exact congrArg Vector.mk h

theorem foldl_map_eq_map_foldl {α β : Type} (g : β → α → α) (l : List β) (ps : List α) :
    l.foldl (fun ps f => ps.map (g f)) ps = ps.map (fun p => l.foldl (fun q f => g f q) p) := by
  induction l generalizing ps with
  | nil => simp
  | cons f fs ih => simp [List.foldl_cons, ih, List.map_map, Function.comp_def]

/-- Force of one particle after the external forces, when they are additive
and do not read forces. -/
theorem foldl_additiveForce (Gs : List (Particle → Vector))
    (hG : ∀ G ∈ Gs, ForceBlindForce G) (p : Particle) :
    ∃ fo, (Gs.map additiveForce).foldl (fun q f => f.applyOn q) p = { p with force := fo } ∧
      fo.getDimension = p.force.getDimension ∧
      ∀ i, i < p.force.getDimension →
        fo.get i = p.force.get i + (Gs.map (fun G => (G p).get i)).sum := by
  induction Gs using List.reverseRecOn with
  | nil => exact ⟨p.force, rfl, rfl, by simp⟩
  | append_singleton Gs G ih =>
    obtain ⟨fo, hfo, hdim, hsum⟩ := ih (fun G hG2 => hG G (List.mem_append_left _ hG2))
    have hGb := hG G (List.mem_append_right _ (List.mem_singleton.mpr rfl))
    refine ⟨fo.add (G p), ?_, ?_, ?_⟩
    · rw [List.map_append, List.foldl_append, hfo]
      simp only [List.map_cons, List.map_nil, List.foldl_cons, List.foldl_nil, additiveForce,
        ExternalForce.applyOn, Particle.addToForce]
      rw [hGb p fo]
    · rw [Vector.getDimension_add, hdim]
    · intro i hi
      rw [Vector.get_add _ _ _ (by omega), hsum i hi, List.map_append, List.sum_append]
      simp [add_assoc]

theorem sum_map_flatMap {α β : Type} (l : List α) (g : α → List β) (h : β → ℚ) :
    ((l.flatMap g).map h).sum = (l.map (fun a => ((g a).map h).sum)).sum := by
  induction l with
  | nil => simp
  | cons a as ih => simp [List.flatMap_cons, List.map_append, List.sum_append, ih]

theorem map_eq_map_range_getD {α β : Type} (l : List α) (g : α → β) (d : α) :
    l.map g = (List.range l.length).map (fun k => g (l.getD k d)) := by
  apply List.ext_getElem?
  intro i
  simp only [List.getElem?_map, List.getElem?_range, List.getD_eq_getElem?_getD]
  by_cases hi : i < l.length
  · simp [List.getElem?_range, hi, List.getElem?_eq_getElem hi]
  · simp [List.getElem?_eq_none (show l.length ≤ i by omega),
      List.getElem?_eq_none (show (List.range l.length).length ≤ i by simp; omega)]

/-- The calls of the baseline pass that target the particle `t` are, up to
order, one call per interaction and per other particle. -/
theorem baselineCalls_filter_perm (nbInteractions nbParticles t : Nat) (ht : t < nbParticles) :
    List.Perm ((baselineCalls nbInteractions nbParticles).filter
        (fun call => decide (call.2.2 = t)))
      ((List.range nbInteractions).flatMap (fun k =>
        ((List.range nbParticles).filter (fun s => decide (s ≠ t))).map
          (fun s => (k, s, t)))) := by
  rw [List.perm_ext_iff_of_nodup]
  · rintro ⟨k, s, t'⟩
    simp only [List.mem_filter, mem_baselineCalls, decide_eq_true_eq, List.mem_flatMap,
      List.mem_range, List.mem_map, Prod.mk.injEq, ne_eq]
    constructor
    · rintro ⟨⟨hk, hs, _, hne⟩, rfl⟩
      exact ⟨k, hk, s, ⟨hs, hne⟩, rfl, rfl, rfl⟩
    · rintro ⟨k', hk', s', ⟨hs, hne⟩, rfl, rfl, rfl⟩
      exact ⟨⟨hk', hs, ht, hne⟩, rfl⟩
  · exact (nodup_baselineCalls _ _).filter _
  · rw [List.nodup_flatMap]
    refine ⟨fun k _ => ?_, ?_⟩
    · refine ((List.nodup_range _).filter _).map ?_
      intro a b hab
      simp only [Prod.mk.injEq] at hab
      exact hab.2.1
    · refine List.Pairwise.imp_of_mem ?_ (List.nodup_range _)
      intro a b _ _ hab
      simp only [Function.onFun, List.Disjoint, List.mem_map, List.mem_filter]
      rintro ⟨k', x, y⟩ ⟨s, _, h1⟩ ⟨s', _, h2⟩
      simp only [Prod.mk.injEq] at h1 h2
      omega

theorem length_interactByPointer (interactions : List Interaction) (ps : List Particle)
    (k s t : Nat) : (interactByPointer interactions ps k s t).length = ps.length := by
  unfold interactByPointer interactOnStore
  cases ps[s]? with
  | none => rfl
  | some src =>
    cases interactions[k]? with
    | none => rfl
    | some I =>
      cases ps[t]? with
      | none => rfl
      | some tgt => simp

theorem length_foldl_interactByPointer (interactions : List Interaction)
    (calls : List (Nat × Nat × Nat)) (ps : List Particle) :
    (calls.foldl (fun st call =>
      interactByPointer interactions st call.1 call.2.1 call.2.2) ps).length = ps.length := by
  induction calls generalizing ps with
  | nil => rfl
  | cons call calls ih => rw [List.foldl_cons, ih, length_interactByPointer]

/-- Particles after `setForcesToZero` and `applyExternalForces`, for additive
external forces that do not read forces. -/
theorem Universe.particles_applyExternalForces (u : Universe) (Gs : List (Particle → Vector))
    (hE : u.forces = Gs.map additiveForce) (hG : ∀ G ∈ Gs, ForceBlindForce G)
    (hdim : ∀ p ∈ u.particles, p.force.getDimension = p.getDimension)
    (s : Nat) (q : Particle) (hq : u.particles[s]? = some q) :
    ∃ fe, u.setForcesToZero.applyExternalForces.particles[s]? = some { q with force := fe } ∧
      fe.getDimension = q.getDimension ∧
      ∀ i, i < q.getDimension → fe.get i = (Gs.map (fun G => (G q).get i)).sum := by
  have hqm : q ∈ u.particles := List.getElem?_mem hq
  obtain ⟨fe, hfe, hd, hsum⟩ := foldl_additiveForce Gs hG q.setForceToZero
  rw [Particle.setForceToZero_eq q (hdim q hqm)] at hfe hd hsum
  refine ⟨fe, ?_, ?_, ?_⟩
  · simp only [Universe.applyExternalForces, Universe.setForcesToZero, hE]
    rw [foldl_map_eq_map_foldl (fun (f : ExternalForce) q => f.applyOn q), List.getElem?_map,
      List.getElem?_map, hq]
    simp only [Option.map_some']
    rw [Particle.setForceToZero_eq q (hdim q hqm), hfe]
  · rw [hd]
    simp [Vector.zero, Vector.getDimension]
  · intro i hi
    have h1 := hsum i (by simpa [Vector.zero, Vector.getDimension] using hi)
    rw [h1]
    have h0 : (Vector.zero q.getDimension).get i = 0 := by
      simp [Vector.zero, Vector.get, List.getD_eq_getElem?_getD]
    simp only [h0, zero_add]
    congr 1
    apply List.map_congr_left
    intro G hGm
    rw [hG G hGm q (Vector.zero q.getDimension)]

theorem count_of_nodup {β : Type} [BEq β] [LawfulBEq β] (l : List β) (h : l.Nodup) (x : β) :
    List.count x l = if x ∈ l then 1 else 0 := by
  induction l with
  | nil => simp
  | cons a as ih =>
    have has : a ∉ as := (List.nodup_cons.mp h).1
    have ih2 := ih (List.nodup_cons.mp h).2
    rw [List.count_cons, ih2]
    by_cases hxa : x = a
    · subst hxa
      simp [has]
    · have hax : ¬ a = x := fun e => hxa e.symm
      simp [hxa, hax]

/-- Forces and calls of `updateForces`, for interactions and external forces
that add to the force of their target a vector that does not depend on stored
forces. -/
theorem Universe.updateForces_spec (u : Universe) (Fs : List (Particle → Particle → Vector))
    (Gs : List (Particle → Vector))
    (hI : u.interactions = Fs.map additiveInteraction)
    (hE : u.forces = Gs.map additiveForce)
    (hF : ∀ F ∈ Fs, ForceBlindInteraction F) (hG : ∀ G ∈ Gs, ForceBlindForce G)
    (hdim : ∀ p ∈ u.particles, p.force.getDimension = p.getDimension) :
    u.updateForces.particles.length = u.particles.length ∧
    (∀ t p, u.particles[t]? = some p → ∃ fo,
      u.updateForces.particles[t]? = some { p with force := fo } ∧
      fo.getDimension = p.getDimension ∧
      ∀ i, i < p.getDimension →
        fo.get i = (Gs.map (fun G => (G p).get i)).sum +
          (Fs.map (fun F =>
            (((List.range u.particles.length).filter (fun s => decide (s ≠ t))).map
              (fun s => (F (u.particles.getD s p) p).get i)).sum)).sum) ∧
    (∀ k s t, List.count (k, s, t)
        (Universe.applyInteractionForcesWith recordCall u.interactions.length
          u.particles.length []) =
      if k < u.interactions.length ∧ s < u.particles.length ∧ t < u.particles.length ∧ s ≠ t
      then 1 else 0) := by
  have hlenE : u.setForcesToZero.applyExternalForces.particles.length = u.particles.length := by
    simp only [Universe.applyExternalForces, Universe.setForcesToZero]
    rw [foldl_map_eq_map_foldl (fun (f : ExternalForce) q => f.applyOn q)]
    simp
  have hIE : u.setForcesToZero.applyExternalForces.interactions = Fs.map additiveInteraction := hI
  have hparts : u.updateForces.particles =
      (baselineCalls Fs.length u.particles.length).foldl (fun st call =>
        interactByPointer (Fs.map additiveInteraction) st call.1 call.2.1 call.2.2)
        u.setForcesToZero.applyExternalForces.particles := by
    show (Universe.applyInteractionForces u.setForcesToZero.applyExternalForces).particles = _
    unfold Universe.applyInteractionForces
    simp only
    rw [Universe.applyInteractionForcesWith_eq_foldl, hIE, hlenE, List.length_map]
  refine ⟨?_, ?_, ?_⟩
  · rw [hparts, length_foldl_interactByPointer, hlenE]
  · intro t p hp
    have htlt : t < u.particles.length := (List.getElem?_eq_some_iff.mp hp).1
    obtain ⟨fe, hfe, hfd, hfsum⟩ := Universe.particles_applyExternalForces u Gs hE hG hdim t p hp
    obtain ⟨fo, hfo, hod, hosum⟩ := foldl_interactByPointer Fs hF
      u.setForcesToZero.applyExternalForces.particles
      (baselineCalls Fs.length u.particles.length)
      (by
        rintro ⟨k, s, t'⟩ hc
        rw [mem_baselineCalls] at hc
        rw [hlenE]
        exact ⟨hc.1, hc.2.1, hc.2.2.1⟩)
      t { p with force := fe } hfe
    refine ⟨fo, by rw [hparts]; exact hfo, by rw [hod]; exact hfd, ?_⟩
    intro i hi
    have hi2 : i < ({ p with force := fe } : Particle).force.getDimension := by
      show i < fe.getDimension
      omega
    rw [hosum i hi2]
    show fe.get i + _ = _
    rw [hfsum i hi]
    congr 1
    rw [((baselineCalls_filter_perm Fs.length u.particles.length t htlt).map _).sum_eq,
      sum_map_flatMap,
      map_eq_map_range_getD Fs _ (fun _ _ => Vector.zero 0)]
    congr 1
    apply List.map_congr_left
    intro k hk
    rw [List.mem_range] at hk
    rw [List.map_map]
    congr 1
    apply List.map_congr_left
    intro s hs
    rw [List.mem_filter, List.mem_range] at hs
    obtain ⟨fs, hfs, _, _⟩ := Universe.particles_applyExternalForces u Gs hE hG hdim s
      u.particles[s] (List.getElem?_eq_getElem hs.1)
    have hFk : Fs.getD k (fun _ _ => Vector.zero 0) ∈ Fs := by
      rw [List.getD_eq_getElem?_getD, List.getElem?_eq_getElem hk]
      exact List.getElem_mem hk
    have hsD : u.setForcesToZero.applyExternalForces.particles.getD s { p with force := fe } =
        { u.particles[s] with force := fs } := by
      rw [List.getD_eq_getElem?_getD, hfs]
      rfl
    have hsD0 : u.particles.getD s p = u.particles[s] := by
      rw [List.getD_eq_getElem?_getD, List.getElem?_eq_getElem hs.1]
      rfl
    show ((Fs.getD k (fun _ _ => Vector.zero 0))
      (u.setForcesToZero.applyExternalForces.particles.getD s { p with force := fe })
      { p with force := fe }).get i = _
    rw [hsD, hsD0, hF _ hFk u.particles[s] p fs fe]
  · intro k s t
    rw [Universe.applyInteractionForcesWith_recordCall, hI, List.length_map]
    rw [count_of_nodup _ (nodup_baselineCalls _ _)]
    by_cases h : k < Fs.length ∧ s < u.particles.length ∧ t < u.particles.length ∧ s ≠ t
    · rw [if_pos h, if_pos ((mem_baselineCalls _ _ _ _ _).mpr h)]
    · rw [if_neg h, if_neg (fun hm => h ((mem_baselineCalls _ _ _ _ _).mp hm))]

/-- C16: in a universe whose interactions and external forces add to the
force of their target a vector that does not depend on stored forces, and
whose particles have a force of their own dimension, `updateForces` keeps the
number of particles and everything of each particle but its force; each
coordinate of the new force is the sum of the external forces on the particle
plus, for each interaction, the sum over every other particle `s` of the force
`s` exerts on it (the previous force does not appear); and the loops call each
interaction exactly once for each ordered pair of distinct particles, and
never for a particle and itself. -/
theorem updateForces_sum (u : Universe) (Fs : List (Particle → Particle → Vector))
    (Gs : List (Particle → Vector))
    (hI : u.interactions = Fs.map additiveInteraction)
    (hE : u.forces = Gs.map additiveForce)
    (hF : ∀ F ∈ Fs, ForceBlindInteraction F) (hG : ∀ G ∈ Gs, ForceBlindForce G)
    (hdim : ∀ p ∈ u.particles, p.force.getDimension = p.getDimension) :
    u.updateForces.particles.length = u.particles.length ∧
    (∀ t p, u.particles[t]? = some p → ∃ fo,
      u.updateForces.particles[t]? = some { p with force := fo } ∧
      fo.getDimension = p.getDimension ∧
      ∀ i, i < p.getDimension →
        fo.get i = (Gs.map (fun G => (G p).get i)).sum +
          (Fs.map (fun F =>
            (((List.range u.particles.length).filter (fun s => decide (s ≠ t))).map
              (fun s => (F (u.particles.getD s p) p).get i)).sum)).sum) ∧
    (∀ k s t, List.count (k, s, t)
        (Universe.applyInteractionForcesWith recordCall u.interactions.length
          u.particles.length []) =
      if k < u.interactions.length ∧ s < u.particles.length ∧ t < u.particles.length ∧ s ≠ t
      then 1 else 0) :=
  Universe.updateForces_spec u Fs Gs hI hE hF hG hdim

/-- C16, witness: three particles with a stored force `(5, 5)`, one pairwise
interaction and a weight; the new forces are `(1, 1)`, `(-2, 0)`, `(1, -7)`. -/
theorem updateForces_sum_witness :
    threeBody.updateForces.particles.length = threeBody.particles.length ∧
    threeBody.updateForces.particles.map (fun p => p.force.data) =
      [[1, 1], [-2, 0], [1, -7]] := by
  have h := updateForces_sum threeBody [linearPull] [weight] rfl rfl
    (by
      intro F hF
      rw [List.mem_singleton] at hF
      subst hF
      intro source target fs ft
      rfl)
    (by
      intro G hG
      rw [List.mem_singleton] at hG
      subst hG
      intro target ft
      rfl)
    (by decide!)
  exact ⟨h.1, by decide!⟩

/-! ## The kinetic-energy clamp -/

theorem Vector.normSq_eq_sum (v : Vector) :
    v.normSq = ((List.range v.getDimension).map (fun i => v.get i * v.get i)).sum := by
  unfold Vector.normSq
  rw [foldl_add_sq, zero_add]

theorem Universe.nbPastStates_updatesExtremumValues (sqrt : ℚ → ℚ) (u : Universe) :
    (u.updatesExtremumValues sqrt).nbPastStates = u.nbPastStates := by
  unfold Universe.updatesExtremumValues
  generalize u.particles = ps
  induction ps generalizing u with
  | nil => rfl
  | cons p ps ih =>
    rw [List.foldl_cons, ih]
    simp only
    split_ifs <;> rfl

theorem Universe.nbPastStates_updatePaces (sqrt : ℚ → ℚ) (u : Universe) (timeStep : ℚ) :
    (u.updatePaces sqrt timeStep).nbPastStates = u.nbPastStates := by
  unfold Universe.updatePaces
  simp only
  split_ifs <;> rfl

theorem Universe.nbPastStates_simulateStep (sqrt : ℚ → ℚ) (u : Universe) (timeStep : ℚ) :
    (u.simulateStep sqrt timeStep).nbPastStates = u.nbPastStates + 1 := by
  unfold Universe.simulateStep
  simp only
  rw [Universe.nbPastStates_updatePaces]
  show (u.updatesExtremumValues sqrt).nbPastStates + 1 = _
  rw [Universe.nbPastStates_updatesExtremumValues]

/-- The loop of `simulateStormerVerlet`, started at `currentTime` with a
positive time step, ends after `⌈(finalTime - currentTime) / timeStep⌉`
iterations when it is given that much fuel. -/
theorem Universe.simulateLoop_nbPastStates (sqrt : ℚ → ℚ) (timeStep finalTime : ℚ)
    (hdt : 0 < timeStep) (fuel : Nat) (currentTime : ℚ) (u : Universe)
    (hfuel : ⌈(finalTime - currentTime) / timeStep⌉.toNat ≤ fuel) :
    ∃ u1, Universe.simulateLoop sqrt timeStep finalTime fuel currentTime u = some u1 ∧
      u1.nbPastStates = u.nbPastStates + ⌈(finalTime - currentTime) / timeStep⌉.toNat := by
  induction fuel generalizing currentTime u with
  | zero =>
    have hle : ⌈(finalTime - currentTime) / timeStep⌉ ≤ 0 := by omega
    have hq : (finalTime - currentTime) / timeStep ≤ 0 := by
      have := Int.ceil_le.mp hle
      simpa using this
    have hnot : ¬ currentTime < finalTime := by
      intro hlt
      have : 0 < (finalTime - currentTime) / timeStep := div_pos (by linarith) hdt
      linarith
    refine ⟨u, by simp [Universe.simulateLoop, hnot], ?_⟩
    have : ⌈(finalTime - currentTime) / timeStep⌉.toNat = 0 := by omega
    rw [this, Nat.add_zero]
  | succ f ih =>
    by_cases hlt : currentTime < finalTime
    · have hpos : 0 < (finalTime - currentTime) / timeStep := div_pos (by linarith) hdt
      have hone : 1 ≤ ⌈(finalTime - currentTime) / timeStep⌉ := Int.one_le_ceil_iff.mpr hpos
      have hshift : (finalTime - (currentTime + timeStep)) / timeStep =
          (finalTime - currentTime) / timeStep - 1 := by
        field_simp
        ring
      have hceil : ⌈(finalTime - (currentTime + timeStep)) / timeStep⌉ =
          ⌈(finalTime - currentTime) / timeStep⌉ - 1 := by
        rw [hshift, Int.ceil_sub_one]
      obtain ⟨u1, h1, h2⟩ := ih (currentTime + timeStep) (u.simulateStep sqrt timeStep)
        (by rw [hceil]; omega)
      refine ⟨u1, by simp only [Universe.simulateLoop, hlt, if_true]; exact h1, ?_⟩
      rw [h2, Universe.nbPastStates_simulateStep, hceil]
      omega
    · have hq : (finalTime - currentTime) / timeStep ≤ 0 :=
        div_nonpos_of_nonpos_of_nonneg (by linarith) (le_of_lt hdt)
      have hle : ⌈(finalTime - currentTime) / timeStep⌉ ≤ 0 := Int.ceil_le.mpr (by simpa using hq)
      refine ⟨u, by simp [Universe.simulateLoop, hlt], ?_⟩
      have : ⌈(finalTime - currentTime) / timeStep⌉.toNat = 0 := by omega
      rw [this, Nat.add_zero]

/-- With a positive time step `simulateStormerVerlet` returns, given enough
fuel, and has then run `⌈finalTime / timeStep⌉` iterations. -/
theorem Universe.simulateStormerVerlet_nbPastStates (sqrt : ℚ → ℚ) (u : Universe)
    (timeStep finalTime : ℚ) (hdt : 0 < timeStep) (fuel : Nat)
    (hfuel : ⌈finalTime / timeStep⌉.toNat ≤ fuel) :
    ∃ u1, u.simulateStormerVerlet sqrt fuel timeStep finalTime = some u1 ∧
      u1.nbPastStates = u.nbPastStates + ⌈finalTime / timeStep⌉.toNat := by
  have h := Universe.simulateLoop_nbPastStates sqrt timeStep finalTime hdt fuel 0 u.updateForces
    (by rw [sub_zero]; exact hfuel)
  rw [sub_zero] at h
  exact h

/-- C18, evaluation: with `timeStep = 0.3` and `finalTime = 1` the value
`nbIterations` computed for the progress bar is `⌊1 / 0.3⌋ = 3`, while the loop
runs 4 times (at the times 0, 0.3, 0.6 and 0.9) and the number of past states
grows by 4; more fuel does not change the result. -/
theorem simulateStormerVerlet_extra_iteration :
    Universe.nbIterations (3 / 10) 1 = 3 ∧
    ⌊(1 : ℚ) / (3 / 10)⌋ = 3 ∧
    ((Universe.new 2 0 0).simulateStormerVerlet id 4 (3 / 10) 1).map
      (fun u => u.nbPastStates) = some 4 ∧
    ((Universe.new 2 0 0).simulateStormerVerlet id 10 (3 / 10) 1).map
      (fun u => u.nbPastStates) = some 4 := by
  decide!

/-! ## A particle at rest -/

theorem Vector.get_scale (v : Vector) (scalar : ℚ) (i : Nat) :
    (v.scale scalar).get i = v.get i * scalar := by
  simp only [Vector.scale, Vector.get, List.getD_eq_getElem?_getD, List.getElem?_map]
  cases v.data[i]? with
  | none => simp
  | some x => simp

theorem Vector.get_add_of_zero (v w : Vector) (hv : ∀ i, v.get i = 0) (hw : ∀ i, w.get i = 0)
    (i : Nat) : (v.add w).get i = 0 := by
  by_cases hi : i < v.getDimension
  · rw [Vector.get_add _ _ _ hi, hv, hw, add_zero]
  · simp only [Vector.add, Vector.get, List.getD_eq_getElem?_getD]
    rw [List.getElem?_eq_none (by simpa using hi)]
    rfl

theorem Vector.add_of_zero (v w : Vector) (hw : ∀ i, w.get i = 0) : v.add w = v := by
  cases v with
  | mk data =>
    simp only [Vector.add, Vector.getDimension, hw, add_zero]
    congr 1
    apply List.ext_getElem?
    intro i
    by_cases hi : i < data.length
    · simp [List.getElem?_range, hi, Vector.get, List.getD_eq_getElem?_getD,
        List.getElem?_eq_getElem hi]
    · simp [List.getElem?_eq_none (show data.length ≤ i by omega),
        List.getElem?_eq_none (show (List.range data.length).length ≤ i by simp; omega)]

/-- A particle with zero speed and zero force is left as it is by the position
update. -/
theorem Particle.updatePosition_of_rest (p : Particle) (timeStep : ℚ)
    (hspeed : ∀ i, p.speed.get i = 0) (hforce : ∀ i, p.force.get i = 0) :
    p.updatePosition timeStep = p := by
  unfold Particle.updatePosition Particle.addToPosition
  simp only
  rw [Vector.add_of_zero]
  intro i
  rw [Vector.get_scale, Vector.get_add_of_zero _ _ ?_ hspeed, zero_mul]
  intro j
  rw [Vector.get_scale, hforce, zero_mul]

theorem FiniteUniverse.reflectLoop_of_inBounds (lowerBound upperBound : ℚ) (i fuel : Nat)
    (x : ℚ) (p : Particle) (h1 : lowerBound ≤ x) (h2 : x ≤ upperBound) :
    FiniteUniverse.reflectLoop lowerBound upperBound i fuel x p = some p := by
  have hn : ¬ (x < lowerBound ∨ x > upperBound) := by
    rintro (h | h) <;> linarith
  cases fuel <;> simp [FiniteUniverse.reflectLoop, hn]

theorem FiniteUniverse.reflectParticle_of_inBounds (u : FiniteUniverse) (fuel : Nat)
    (p : Particle)
    (h : ∀ i, i < u.dimension →
      u.lowerBound.get i ≤ p.position.get i ∧ p.position.get i ≤ u.upperBound.get i) :
    u.reflectParticle fuel p = some p := by
  unfold FiniteUniverse.reflectParticle
  have key : ∀ l : List Nat, (∀ i ∈ l, i < u.dimension) →
      l.foldlM (fun p i => FiniteUniverse.reflectLoop (u.lowerBound.get i) (u.upperBound.get i)
        i fuel (p.position.get i) p) p = some p := by
    intro l
    induction l with
    | nil => intro _; rfl
    | cons a l ih =>
      intro hl
      have ha := h a (hl a (List.mem_cons_self _ _))
      rw [List.foldlM_cons, FiniteUniverse.reflectLoop_of_inBounds _ _ _ _ _ _ ha.1 ha.2]
      exact ih (fun i hi => hl i (List.mem_cons_of_mem _ hi))
  exact key _ (fun i hi => List.mem_range.mp hi)

theorem FiniteUniverse.teleportParticle_of_inBounds (u : FiniteUniverse) (p : Particle)
    (h : ∀ i, i < u.dimension →
      u.lowerBound.get i ≤ p.position.get i ∧ p.position.get i ≤ u.upperBound.get i) :
    u.teleportParticle p = p := by
  unfold FiniteUniverse.teleportParticle
  have key : ∀ l : List Nat, (∀ i ∈ l, i < u.dimension) →
      l.foldl (fun p i =>
        let coordValue := p.position.get i
        if coordValue < u.lowerBound.get i ∨ coordValue > u.upperBound.get i then
          let divisor := u.upperBound.get i - u.lowerBound.get i
          let coordValue := fmod (fmod (coordValue - u.lowerBound.get i) divisor + divisor) divisor
          p.setPosCoord i coordValue
        else p) p = p := by
    intro l
    induction l with
    | nil => intro _; rfl
    | cons a l ih =>
      intro hl
      have ha := h a (hl a (List.mem_cons_self _ _))
      have hn : ¬ (p.position.get a < u.lowerBound.get a ∨
          p.position.get a > u.upperBound.get a) := by
        rintro (h | h) <;> linarith
      rw [List.foldl_cons]
      simp only [hn, if_false]
      exact ih (fun i hi => hl i (List.mem_cons_of_mem _ hi))
  exact key _ (fun i hi => List.mem_range.mp hi)

theorem FiniteUniverse.mem_removeOutOfBoundsLoop (u : FiniteUniverse) (ps : List Particle)
    (p : Particle) (hp : p ∈ ps) (hin : u.isInBounds p = true) :
    p ∈ u.removeOutOfBoundsLoop ps := by
  induction ps with
  | nil => cases hp
  | cons q qs ih =>
    unfold FiniteUniverse.removeOutOfBoundsLoop
    rcases List.mem_cons.mp hp with rfl | hmem
    · rw [if_pos hin]
      exact List.mem_cons_self _ _
    · split_ifs
      · exact List.mem_cons_of_mem _ (ih hmem)
      · exact ih hmem

theorem FiniteUniverse.reflectLoop_succ (lowerBound upperBound : ℚ) (i fuel : Nat) (x : ℚ)
    (p q : Particle) (h : FiniteUniverse.reflectLoop lowerBound upperBound i fuel x p = some q) :
    FiniteUniverse.reflectLoop lowerBound upperBound i (fuel + 1) x p = some q := by
  induction fuel generalizing x p with
  | zero =>
    by_cases hout : x < lowerBound ∨ x > upperBound
    · simp [FiniteUniverse.reflectLoop, hout] at h
    · simp only [FiniteUniverse.reflectLoop, hout, if_false] at h ⊢
      exact h
  | succ f ih =>
    by_cases hout : x < lowerBound ∨ x > upperBound
    · rw [FiniteUniverse.reflectLoop, if_pos hout] at h ⊢
      exact ih _ _ h
    · rw [FiniteUniverse.reflectLoop, if_neg hout] at h ⊢
      exact h

theorem FiniteUniverse.reflectLoop_mono (lowerBound upperBound : ℚ) (i fuel fuel2 : Nat)
    (x : ℚ) (p q : Particle) (hle : fuel ≤ fuel2)
    (h : FiniteUniverse.reflectLoop lowerBound upperBound i fuel x p = some q) :
    FiniteUniverse.reflectLoop lowerBound upperBound i fuel2 x p = some q := by
  induction fuel2 with
  | zero =>
    have : fuel = 0 := by omega
    subst this
    exact h
  | succ f ih =>
    by_cases hf : fuel = f + 1
    · subst hf
      exact h
    · exact FiniteUniverse.reflectLoop_succ _ _ _ _ _ _ _ (ih (by omega))

/-! ## Two bodies under gravitation -/

theorem Vector.normSq_sub_comm (v w : Vector) (h : v.getDimension = w.getDimension) :
    (v.sub w).normSq = (w.sub v).normSq := by
  rw [Vector.normSq_eq_sum, Vector.normSq_eq_sum, Vector.getDimension_sub,
    Vector.getDimension_sub, h]
  congr 1
  apply List.map_congr_left
  intro i hi
  rw [List.mem_range] at hi
  rw [Vector.get_sub _ _ _ (by omega), Vector.get_sub _ _ _ hi]
  ring

theorem Vector.normSq_sub_pos (v w : Vector) (h : v.getDimension = w.getDimension)
    (hne : v ≠ w) : 0 < (v.sub w).normSq := by
  have hex : ∃ i, i < v.getDimension ∧ v.get i ≠ w.get i := by
    by_contra hno
    push_neg at hno
    apply hne
    cases v with
    | mk dv =>
      cases w with
      | mk dw =>
        congr 1
        apply List.ext_getElem?
        intro i
        have hl : dv.length = dw.length := h
        by_cases hi : i < dv.length
        · have := hno i hi
          simp only [Vector.get, List.getD_eq_getElem?_getD, List.getElem?_eq_getElem hi,
            List.getElem?_eq_getElem (show i < dw.length by omega), Option.getD_some] at this
          rw [List.getElem?_eq_getElem hi, List.getElem?_eq_getElem (show i < dw.length by omega),
            this]
        · rw [List.getElem?_eq_none (by omega), List.getElem?_eq_none (by omega)]
  obtain ⟨i, hi, hd⟩ := hex
  have h1 := Vector.sq_le_normSq (v.sub w) i (by rw [Vector.getDimension_sub]; exact hi)
  rw [Vector.get_sub _ _ _ hi] at h1
  have h2 : 0 < (v.get i - w.get i) * (v.get i - w.get i) :=
    mul_self_pos.mpr (sub_ne_zero.mpr hd)
  linarith

theorem sqrtPos_pos (x : ℚ) (hx : 0 < x) : 0 < sqrtPos x := by
  unfold sqrtPos
  split_ifs with h
  · have hnn : 0 ≤ sqrtExact x := by
      unfold sqrtExact
      exact div_nonneg (Nat.cast_nonneg _) (Nat.cast_nonneg _)
    rcases eq_or_lt_of_le hnn with h0 | hpos
    · rw [← h0] at h
      simp at h
      linarith
    · exact hpos
  · exact one_pos

theorem list_eq_pair {α : Type} (l : List α) (a b : α) (hlen : l.length = 2)
    (h0 : l[0]? = some a) (h1 : l[1]? = some b) : l = [a, b] := by
  match l, hlen with
  | [x, y], _ =>
    simp only [List.getElem?_cons_zero, Option.some.injEq] at h0
    simp only [List.getElem?_cons_succ, List.getElem?_cons_zero, Option.some.injEq] at h1
    rw [h0, h1]

theorem Vector.getDimension_scale (v : Vector) (scalar : ℚ) :
    (v.scale scalar).getDimension = v.getDimension := by
  simp [Vector.scale, Vector.getDimension]

/-- C20: two particles of the same positive mass at rest at distinct positions
`posA`, `posB` of the same dimension, in an unbounded universe with the
gravitational interaction alone, with `sqrt` positive on positive numbers and
a non-zero time step.  After `updateForces` and one `updatePositions` there is
a factor `lam > 0` such that the displacement of `a` is `lam * (posB - posA)`
and that of `b` is `lam * (posA - posB)`: both are along the line joining the
positions, each towards the other particle, they sum to zero and have the same
squared norm. -/
theorem gravitational_pair_displacements (sqrt : ℚ → ℚ) (hsqrt : ∀ x, 0 < x → 0 < sqrt x)
    (posA posB : Vector) (mass timeStep : ℚ)
    (hdim : posA.getDimension = posB.getDimension) (hne : posA ≠ posB)
    (hm : 0 < mass) (hdt : timeStep ≠ 0) :
    ∃ lam qa qb, 0 < lam ∧
      ((twoBody sqrt posA posB mass).updateForces.updatePositions timeStep).particles =
        [qa, qb] ∧
      qa.position.getDimension = posA.getDimension ∧
      qb.position.getDimension = posB.getDimension ∧
      (∀ i, i < posA.getDimension →
        qa.position.get i - posA.get i = lam * (posB.get i - posA.get i)) ∧
      (∀ i, i < posA.getDimension →
        qb.position.get i - posB.get i = lam * (posA.get i - posB.get i)) ∧
      (∀ i, i < posA.getDimension →
        (qa.position.get i - posA.get i) + (qb.position.get i - posB.get i) = 0) ∧
      (qa.position.sub posA).normSq = (qb.position.sub posB).normSq := by
  have hD : 0 < (posA.sub posB).normSq := Vector.normSq_sub_pos posA posB hdim hne
  have hr : 0 < sqrt (posA.sub posB).normSq := hsqrt _ hD
  have hsym : (posB.sub posA).normSq = (posA.sub posB).normSq :=
    (Vector.normSq_sub_comm posA posB hdim).symm
  have hps : (twoBody sqrt posA posB mass).particles =
      [Particle.new posA (Vector.zero posA.getDimension) mass "a" 0,
       Particle.new posB (Vector.zero posA.getDimension) mass "b" 1] := rfl
  have hspec := Universe.updateForces_spec (twoBody sqrt posA posB mass)
    [gravitationalVector sqrt] [] rfl rfl
    (by
      intro F hF
      rw [List.mem_singleton] at hF
      subst hF
      intro source target fs ft
      rfl)
    (by intro G hG; cases hG)
    (by
      intro p hp
      rw [hps] at hp
      simp only [List.mem_cons, List.mem_singleton, List.not_mem_nil, or_false] at hp
      rcases hp with rfl | rfl <;>
        simp [Particle.new, Particle.getDimension, Vector.zero, Vector.getDimension])
  obtain ⟨hlen, hforce, _⟩ := hspec
  rw [hps] at hlen hforce
  have hf0 : (List.range 2).filter (fun s => decide (s ≠ 0)) = [1] := by decide
  have hf1 : (List.range 2).filter (fun s => decide (s ≠ 1)) = [0] := by decide
  obtain ⟨foa, hqa, hda, hsa⟩ := hforce 0
    (Particle.new posA (Vector.zero posA.getDimension) mass "a" 0) rfl
  obtain ⟨fob, hqb, hdb, hsb⟩ := hforce 1
    (Particle.new posB (Vector.zero posA.getDimension) mass "b" 1) rfl
  simp only [List.length_cons, List.length_nil, Nat.zero_add, Nat.reduceAdd, hf0, hf1,
    List.map_cons, List.map_nil, List.sum_cons, List.sum_nil, add_zero, zero_add,
    List.getD_cons_succ, List.getD_cons_zero] at hsa hsb hlen
  have hpair := list_eq_pair _ _ _ hlen hqa hqb
  have hdimA : (Particle.new posA (Vector.zero posA.getDimension) mass "a" 0).getDimension =
      posA.getDimension := rfl
  have hdimB : (Particle.new posB (Vector.zero posA.getDimension) mass "b" 1).getDimension =
      posB.getDimension := rfl
  rw [hdimA] at hda hsa
  rw [hdimB] at hdb hsb
  have hga : ∀ i, i < posA.getDimension →
      foa.get i = (posB.get i - posA.get i) *
        (mass * mass / sqrt (posA.sub posB).normSq ^ 3) := by
    intro i hi
    rw [hsa i hi]
    show ((posB.sub posA).scale _).get i = _
    rw [Vector.get_scale, Vector.get_sub _ _ _ (by omega)]
    rfl
  have hgb : ∀ i, i < posA.getDimension →
      fob.get i = (posA.get i - posB.get i) *
        (mass * mass / sqrt (posA.sub posB).normSq ^ 3) := by
    intro i hi
    rw [hsb i (by omega)]
    show ((posA.sub posB).scale _).get i = _
    rw [Vector.get_scale, Vector.get_sub _ _ _ hi]
    show _ * (mass * mass / sqrt (posB.sub posA).normSq ^ 3) = _
    rw [hsym]
  have hzero : ∀ i, (Vector.zero posA.getDimension).get i = 0 := by
    intro i
    simp only [Vector.zero, Vector.get, List.getD_eq_getElem?_getD, List.getElem?_replicate]
    split_ifs <;> rfl
  have hposA : ∀ i, i < posA.getDimension →
      (({ Particle.new posA (Vector.zero posA.getDimension) mass "a" 0 with
          force := foa } : Particle).updatePosition timeStep).position.get i =
        posA.get i + (foa.get i * (0.5 * timeStep / mass) + 0) * timeStep := by
    intro i hi
    show (posA.add _).get i = _
    rw [Vector.get_add _ _ _ hi, Vector.get_scale, Vector.get_add _ _ _ (by
      rw [Vector.getDimension_scale]
      show i < foa.getDimension
      omega), Vector.get_scale]
    show _ + (_ + (Vector.zero posA.getDimension).get i) * _ = _
    rw [hzero]
    rfl
  have hposB : ∀ i, i < posA.getDimension →
      (({ Particle.new posB (Vector.zero posA.getDimension) mass "b" 1 with
          force := fob } : Particle).updatePosition timeStep).position.get i =
        posB.get i + (fob.get i * (0.5 * timeStep / mass) + 0) * timeStep := by
    intro i hi
    show (posB.add _).get i = _
    rw [Vector.get_add _ _ _ (by omega), Vector.get_scale, Vector.get_add _ _ _ (by
      rw [Vector.getDimension_scale]
      show i < fob.getDimension
      omega), Vector.get_scale]
    show _ + (_ + (Vector.zero posA.getDimension).get i) * _ = _
    rw [hzero]
    rfl
  have hA : ∀ i, i < posA.getDimension →
      (({ Particle.new posA (Vector.zero posA.getDimension) mass "a" 0 with
          force := foa } : Particle).updatePosition timeStep).position.get i - posA.get i =
        mass * mass / sqrt (posA.sub posB).normSq ^ 3 * (0.5 * timeStep / mass) * timeStep *
          (posB.get i - posA.get i) := by
    intro i hi
    rw [hposA i hi, hga i hi]
    ring
  have hB : ∀ i, i < posA.getDimension →
      (({ Particle.new posB (Vector.zero posA.getDimension) mass "b" 1 with
          force := fob } : Particle).updatePosition timeStep).position.get i - posB.get i =
        mass * mass / sqrt (posA.sub posB).normSq ^ 3 * (0.5 * timeStep / mass) * timeStep *
          (posA.get i - posB.get i) := by
    intro i hi
    rw [hposB i hi, hgb i hi]
    ring
  refine ⟨mass * mass / sqrt (posA.sub posB).normSq ^ 3 * (0.5 * timeStep / mass) * timeStep,
    _, _, ?_, ?_, ?_, ?_, hA, hB, ?_, ?_⟩
  · have h1 : 0 < mass * mass / sqrt (posA.sub posB).normSq ^ 3 :=
      div_pos (mul_pos hm hm) (pow_pos hr 3)
    have h2 : 0 < timeStep * timeStep := mul_self_pos.mpr hdt
    have h3 : mass * mass / sqrt (posA.sub posB).normSq ^ 3 * (0.5 * timeStep / mass) * timeStep =
        mass * mass / sqrt (posA.sub posB).normSq ^ 3 * (0.5 * (timeStep * timeStep) / mass) := by
      ring
    rw [h3]
    exact mul_pos h1 (div_pos (mul_pos (by norm_num) h2) hm)
  · show (List.map (fun p => p.updatePosition timeStep)
      (twoBody sqrt posA posB mass).updateForces.particles) = _
    rw [hpair]
    rfl
  · show (posA.add _).getDimension = _
    rw [Vector.getDimension_add]
  · show (posB.add _).getDimension = _
    rw [Vector.getDimension_add]
  · intro i hi
    rw [hA i hi, hB i hi]
    ring
  · rw [Vector.normSq_eq_sum, Vector.normSq_eq_sum, Vector.getDimension_sub,
      Vector.getDimension_sub]
    have e1 : (({ Particle.new posA (Vector.zero posA.getDimension) mass "a" 0 with
        force := foa } : Particle).updatePosition timeStep).position.getDimension =
        posA.getDimension := by
      show (posA.add _).getDimension = _
      rw [Vector.getDimension_add]
    have e2 : (({ Particle.new posB (Vector.zero posA.getDimension) mass "b" 1 with
        force := fob } : Particle).updatePosition timeStep).position.getDimension =
        posA.getDimension := by
      show (posB.add _).getDimension = _
      rw [Vector.getDimension_add, hdim]
    rw [e1, e2]
    congr 1
    apply List.map_congr_left
    intro i hi
    rw [List.mem_range] at hi
    rw [Vector.get_sub _ _ _ (by rw [e1]; exact hi), Vector.get_sub _ _ _ (by rw [e2]; exact hi),
      hA i hi, hB i hi]
    ring

/-- C20, witness: mass 1 at `(0, 0)` and `(3, 0)`, time step 0.01: the distance
is 3, the particle `a` moves by `1/180000` along the first axis towards `b` and
`b` by the same amount towards `a`. -/
theorem gravitational_pair_displacements_witness :
    (∃ lam qa qb, 0 < lam ∧
      ((twoBody sqrtPos ⟨[0, 0]⟩ ⟨[3, 0]⟩ 1).updateForces.updatePositions (1 / 100)).particles =
        [qa, qb] ∧
      (∀ i, i < 2 → qa.position.get i - (Vector.mk [0, 0]).get i =
        lam * ((Vector.mk [3, 0]).get i - (Vector.mk [0, 0]).get i)) ∧
      (∀ i, i < 2 → qb.position.get i - (Vector.mk [3, 0]).get i =
        lam * ((Vector.mk [0, 0]).get i - (Vector.mk [3, 0]).get i))) ∧
    sqrtPos 9 = 3 ∧
    ((twoBody sqrtPos ⟨[0, 0]⟩ ⟨[3, 0]⟩ 1).updateForces.updatePositions (1 / 100)).particles.map
      (fun p => p.position.data) = [[1 / 180000, 0], [539999 / 180000, 0]] := by
  obtain ⟨lam, qa, qb, h1, h2, _, _, h3, h4, _, _⟩ :=
    gravitational_pair_displacements sqrtPos sqrtPos_pos ⟨[0, 0]⟩ ⟨[3, 0]⟩ 1 (1 / 100) rfl
      (by decide!) (by norm_num) (by norm_num)
  exact ⟨⟨lam, qa, qb, h1, h2, h3, h4⟩, by decide!, by decide!⟩

/-! ## Vector operations -/

theorem Vector.eq_of_get (v w : Vector) (hd : v.getDimension = w.getDimension)
    (h : ∀ i, i < v.getDimension → v.get i = w.get i) : v = w := by
  cases v with
  | mk dv =>
    cases w with
    | mk dw =>
      congr 1
      apply List.ext_getElem?
      intro i
      have hl : dv.length = dw.length := hd
      by_cases hi : i < dv.length
      · have := h i hi
        simp only [Vector.get, List.getD_eq_getElem?_getD, List.getElem?_eq_getElem hi,
          List.getElem?_eq_getElem (show i < dw.length by omega), Option.getD_some] at this
        rw [List.getElem?_eq_getElem hi, List.getElem?_eq_getElem (show i < dw.length by omega),
          this]
      · rw [List.getElem?_eq_none (by omega), List.getElem?_eq_none (by omega)]

/-- C29: for vectors `v`, `w` of equal dimension and a scalar `s`, `v += w`,
`v -= w` and `v *= s` keep the dimension of `v` and set each coordinate to
`v[i] + w[i]`, `v[i] - w[i]` and `s * v[i]`; `v += w` followed by `v -= w`
gives `v` back. -/
theorem vector_ops_elementwise (v w : Vector) (s : ℚ)
    (hdim : v.getDimension = w.getDimension) :
    (v.add w).getDimension = v.getDimension ∧
    (v.sub w).getDimension = v.getDimension ∧
    (v.scale s).getDimension = v.getDimension ∧
    (∀ i, i < v.getDimension →
      (v.add w).get i = v.get i + w.get i ∧
      (v.sub w).get i = v.get i - w.get i ∧
      (v.scale s).get i = s * v.get i) ∧
    (v.add w).sub w = v := by
  refine ⟨Vector.getDimension_add v w, Vector.getDimension_sub v w,
    Vector.getDimension_scale v s, ?_, ?_⟩
  · intro i hi
    exact ⟨Vector.get_add v w i hi, Vector.get_sub v w i hi,
      (Vector.get_scale v s i).trans (mul_comm _ _)⟩
  · have hw : w.getDimension = v.getDimension := hdim.symm
    apply Vector.eq_of_get
    · rw [Vector.getDimension_sub, Vector.getDimension_add]
    · intro i hi
      rw [Vector.getDimension_sub, Vector.getDimension_add] at hi
      rw [Vector.get_sub _ _ _ (by rw [Vector.getDimension_add]; exact hi),
        Vector.get_add _ _ _ hi]
      ring

/-- C29, witness: the vectors of the unit tests. -/
theorem vector_ops_elementwise_witness :
    (Vector.mk [4, 5, 6]).add ⟨[1, 2, 3]⟩ = ⟨[5, 7, 9]⟩ ∧
    (Vector.mk [4, 5, 6]).sub ⟨[1, 2, 3]⟩ = ⟨[3, 3, 3]⟩ ∧
    (Vector.mk [1, 2, 3]).scale 2 = ⟨[2, 4, 6]⟩ ∧
    ((Vector.mk [4, 5, 6]).add ⟨[1, 2, 3]⟩).sub ⟨[1, 2, 3]⟩ = ⟨[4, 5, 6]⟩ :=
  ⟨by decide!, by decide!, by decide!,
    (vector_ops_elementwise ⟨[4, 5, 6]⟩ ⟨[1, 2, 3]⟩ 2 rfl).2.2.2.2⟩

theorem Vector.set_get_self (r : Vector) (i : Nat) : r.set i (r.get i) = r := by
  cases r with
  | mk data =>
    simp only [Vector.set, Vector.get]
    congr 1
    apply List.ext_getElem?
    intro j
    rw [List.getElem?_set]
    by_cases hij : i = j
    · subst hij
      by_cases hi : i < data.length
      · simp [hi, List.getD_eq_getElem?_getD, List.getElem?_eq_getElem hi]
      · simp [hi, List.getElem?_eq_none (show data.length ≤ i by omega)]
    · simp [hij]

/-- A loop that rewrites the coordinates `0`, ..., `m - 1` one after the other,
each from its own current value. -/
theorem foldl_set_pointwise (f : Nat → ℚ → ℚ) (m : Nat) (data : List ℚ)
    (hm : m ≤ data.length) :
    ((List.range m).foldl (fun (r : Vector) i => r.set i (f i (r.get i))) ⟨data⟩).data =
      (List.range m).map (fun i => f i (data.getD i 0)) ++ data.drop m := by
  induction m with
  | zero => simp
  | succ k ih =>
    rw [List.range_succ, List.foldl_append, List.foldl_cons, List.foldl_nil]
    have ih2 := ih (by omega)
    generalize (List.range k).foldl (fun (r : Vector) i => r.set i (f i (r.get i))) ⟨data⟩ = r
      at ih2 ⊢
    have hget : r.get k = data.getD k 0 := by
      show r.data.getD k 0 = _
      rw [ih2, List.getD_eq_getElem?_getD, List.getD_eq_getElem?_getD,
        List.getElem?_append_right (by simp)]
      simp
    show r.data.set k (f k (r.get k)) = _
    rw [hget, ih2]
    apply List.ext_getElem?
    intro j
    simp only [List.getElem?_set, List.length_append, List.length_map, List.length_range,
      List.length_drop, List.getElem?_append, List.getElem?_map, List.getElem?_range,
      List.getElem?_drop, List.map_append, List.map_cons, List.map_nil, List.length_cons,
      List.length_nil]
    by_cases h1 : k = j
    · subst h1
      simp [show k < k + (data.length - k) by omega]
    · by_cases h2 : j < k
      · simp [h1, h2, List.getElem?_range, show j < k + 1 by omega,
          List.getElem?_append_left, List.getElem?_eq_getElem]
      · simp only [h1, h2, show ¬ j < k + 1 by omega, if_false]
        congr 1
        omega

theorem Vector.min_data (v1 v2 : Vector) :
    (Vector.min v1 v2).data =
      (List.range v1.getDimension).map (fun i => Min.min (v1.get i) (v2.get i)) := by
  have hstep : (fun (result : Vector) i =>
      if v2.get i < result.get i then result.set i (v2.get i) else result) =
      (fun (r : Vector) i => r.set i ((fun i x => Min.min x (v2.get i)) i (r.get i))) := by
    funext r i
    by_cases h : v2.get i < r.get i
    · simp only [if_pos h]
      rw [min_eq_right (le_of_lt h)]
    · simp only [if_neg h]
      rw [min_eq_left (not_lt.mp h), Vector.set_get_self]
  unfold Vector.min
  rw [hstep]
  have h := foldl_set_pointwise (fun i x => Min.min x (v2.get i)) v1.getDimension v1.data
    (Nat.le_refl _)
  have hdrop : v1.data.drop v1.getDimension = [] := List.drop_of_length_le (Nat.le_refl _)
  rw [hdrop, List.append_nil] at h
  exact h

theorem Vector.max_data (v1 v2 : Vector) :
    (Vector.max v1 v2).data =
      (List.range v1.getDimension).map (fun i => Max.max (v1.get i) (v2.get i)) := by
  have hstep : (fun (result : Vector) i =>
      if v2.get i > result.get i then result.set i (v2.get i) else result) =
      (fun (r : Vector) i => r.set i ((fun i x => Max.max x (v2.get i)) i (r.get i))) := by
    funext r i
    by_cases h : v2.get i > r.get i
    · simp only [if_pos h]
      rw [max_eq_right (le_of_lt h)]
    · simp only [if_neg h]
      rw [max_eq_left (not_lt.mp h), Vector.set_get_self]
  unfold Vector.max
  rw [hstep]
  have h := foldl_set_pointwise (fun i x => Max.max x (v2.get i)) v1.getDimension v1.data
    (Nat.le_refl _)
  have hdrop : v1.data.drop v1.getDimension = [] := List.drop_of_length_le (Nat.le_refl _)
  rw [hdrop, List.append_nil] at h
  exact h

/-- C28: for vectors `v1`, `v2` of equal dimension, `min(v1, v2)` and
`max(v1, v2)` have that dimension, their coordinate `i` is the smaller,
respectively the larger, of `v1[i]` and `v2[i]`, so that
`min[i] ≤ v1[i], v2[i] ≤ max[i]`, and both functions are commutative. -/
theorem min_max_coordinatewise (v1 v2 : Vector) (hdim : v1.getDimension = v2.getDimension) :
    (Vector.min v1 v2).getDimension = v1.getDimension ∧
    (Vector.max v1 v2).getDimension = v1.getDimension ∧
    (∀ i, i < v1.getDimension →
      (Vector.min v1 v2).get i = Min.min (v1.get i) (v2.get i) ∧
      (Vector.max v1 v2).get i = Max.max (v1.get i) (v2.get i) ∧
      (Vector.min v1 v2).get i ≤ v1.get i ∧ (Vector.min v1 v2).get i ≤ v2.get i ∧
      v1.get i ≤ (Vector.max v1 v2).get i ∧ v2.get i ≤ (Vector.max v1 v2).get i) ∧
    Vector.min v1 v2 = Vector.min v2 v1 ∧
    Vector.max v1 v2 = Vector.max v2 v1 := by
  have hmin : ∀ i, i < v1.getDimension →
      (Vector.min v1 v2).get i = Min.min (v1.get i) (v2.get i) := by
    intro i hi
    show (Vector.min v1 v2).data.getD i 0 = _
    rw [Vector.min_data, getD_map_range _ _ _ _ hi]
  have hmax : ∀ i, i < v1.getDimension →
      (Vector.max v1 v2).get i = Max.max (v1.get i) (v2.get i) := by
    intro i hi
    show (Vector.max v1 v2).data.getD i 0 = _
    rw [Vector.max_data, getD_map_range _ _ _ _ hi]
  refine ⟨?_, ?_, ?_, ?_, ?_⟩
  · show (Vector.min v1 v2).data.length = _
    rw [Vector.min_data, List.length_map, List.length_range]
  · show (Vector.max v1 v2).data.length = _
    rw [Vector.max_data, List.length_map, List.length_range]
  · intro i hi
    rw [hmin i hi, hmax i hi]
    exact ⟨rfl, rfl, min_le_left _ _, min_le_right _ _, le_max_left _ _, le_max_right _ _⟩
  · cases hv : Vector.min v1 v2 with
    | mk d1 =>
      cases hw : Vector.min v2 v1 with
      | mk d2 =>
        have e1 := Vector.min_data v1 v2
        have e2 := Vector.min_data v2 v1
        rw [hv] at e1
        rw [hw] at e2
        simp only at e1 e2
        rw [e1, e2, hdim]
        congr 1
        exact List.map_congr_left (fun i _ => min_comm _ _)
  · cases hv : Vector.max v1 v2 with
    | mk d1 =>
      cases hw : Vector.max v2 v1 with
      | mk d2 =>
        have e1 := Vector.max_data v1 v2
        have e2 := Vector.max_data v2 v1
        rw [hv] at e1
        rw [hw] at e2
        simp only at e1 e2
        rw [e1, e2, hdim]
        congr 1
        exact List.map_congr_left (fun i _ => max_comm _ _)

/-- C28, witness: the vectors of the unit tests. -/
theorem min_max_coordinatewise_witness :
    Vector.min ⟨[1, 2, 3]⟩ ⟨[0, 3, -1]⟩ = ⟨[0, 2, -1]⟩ ∧
    Vector.max ⟨[1, 2, 3]⟩ ⟨[0, 3, -1]⟩ = ⟨[1, 3, 3]⟩ ∧
    Vector.min ⟨[1, 2, 3]⟩ ⟨[0, 3, -1]⟩ = Vector.min ⟨[0, 3, -1]⟩ ⟨[1, 2, 3]⟩ ∧
    Vector.max ⟨[1, 2, 3]⟩ ⟨[0, 3, -1]⟩ = Vector.max ⟨[0, 3, -1]⟩ ⟨[1, 2, 3]⟩ :=
  ⟨by decide!, by decide!,
    (min_max_coordinatewise ⟨[1, 2, 3]⟩ ⟨[0, 3, -1]⟩ rfl).2.2.2.1,
    (min_max_coordinatewise ⟨[1, 2, 3]⟩ ⟨[0, 3, -1]⟩ rfl).2.2.2.2⟩

/-! ## Force accumulation on a particle -/

theorem Vector.get_set (r : Vector) (i j : Nat) (x : ℚ) (hi : i < r.getDimension) :
    (r.set i x).get j = if j = i then x else r.get j := by
  simp only [Vector.set, Vector.get, List.getD_eq_getElem?_getD, List.getElem?_set]
  have hi2 : i < r.data.length := hi
  by_cases hij : j = i
  · subst hij
    simp [hi2]
  · have hji : ¬ i = j := fun e => hij e.symm
    simp [hij, hji]

theorem Vector.getDimension_set (r : Vector) (i : Nat) (x : ℚ) :
    (r.set i x).getDimension = r.getDimension := by
  simp [Vector.set, Vector.getDimension]

/-- C30: for a particle whose force has the dimension of the particle,
`addToForce(v)` (with `v` of that dimension) adds `v` to the force coordinate
by coordinate, `addToForceCoord(i, x)` (with `i` below the dimension) adds `x`
to the coordinate `i` of the force and leaves the other coordinates, successive
calls accumulate, `setForceToZero` makes the force the zero vector of the same
dimension, and none of the three changes anything but the force. -/
theorem force_accumulation (p : Particle) (v w : Vector) (i : Nat) (x y : ℚ)
    (hdim : p.force.getDimension = p.getDimension)
    (hv : v.getDimension = p.getDimension) (hw : w.getDimension = p.getDimension)
    (hi : i < p.getDimension) :
    (p.addToForce v = { p with force := (p.addToForce v).force } ∧
      (p.addToForce v).force.getDimension = p.getDimension ∧
      (∀ j, j < p.getDimension → (p.addToForce v).force.get j = p.force.get j + v.get j) ∧
      (∀ j, j < p.getDimension →
        ((p.addToForce v).addToForce w).force.get j = p.force.get j + v.get j + w.get j)) ∧
    (p.addToForceCoord i x = { p with force := (p.addToForceCoord i x).force } ∧
      (p.addToForceCoord i x).force.getDimension = p.getDimension ∧
      (p.addToForceCoord i x).force.get i = p.force.get i + x ∧
      (∀ j, j ≠ i → (p.addToForceCoord i x).force.get j = p.force.get j) ∧
      ((p.addToForceCoord i x).addToForceCoord i y).force.get i = p.force.get i + x + y) ∧
    (p.setForceToZero = { p with force := Vector.zero p.getDimension } ∧
      ∀ j, p.setForceToZero.force.get j = 0) := by
  refine ⟨⟨rfl, ?_, ?_, ?_⟩, ⟨rfl, ?_, ?_, ?_, ?_⟩, ?_, ?_⟩
  · show (p.force.add v).getDimension = _
    rw [Vector.getDimension_add, hdim]
  · intro j hj
    exact Vector.get_add _ _ _ (by omega)
  · intro j hj
    show ((p.force.add v).add w).get j = _
    rw [Vector.get_add _ _ _ (by rw [Vector.getDimension_add]; omega),
      Vector.get_add _ _ _ (by omega)]
  · show (p.force.set i _).getDimension = _
    rw [Vector.getDimension_set, hdim]
  · show (p.force.set i _).get i = _
    rw [Vector.get_set _ _ _ _ (by omega), if_pos rfl]
  · intro j hj
    show (p.force.set i _).get j = _
    rw [Vector.get_set _ _ _ _ (by omega), if_neg hj]
  · show ((p.force.set i _).set i _).get i = _
    rw [Vector.get_set _ _ _ _ (by rw [Vector.getDimension_set]; omega), if_pos rfl]
    show (p.force.set i _).get i + y = _
    rw [Vector.get_set _ _ _ _ (by omega), if_pos rfl]
  · exact Particle.setForceToZero_eq p hdim
  · intro j
    rw [Particle.setForceToZero_eq p hdim]
    show (Vector.zero p.getDimension).get j = 0
    simp only [Vector.zero, Vector.get, List.getD_eq_getElem?_getD, List.getElem?_replicate]
    split_ifs <;> rfl

/-- C30, witness: the particle of the unit tests, of dimension 3: after
`addToForceCoord(0, 2)` the force is `(2, 0, 0)`, after `addToForce((0, 3, 4))`
it is `(2, 3, 4)`, after `setForceToZero` it is `(0, 0, 0)`. -/
theorem force_accumulation_witness :
    ((Particle.new ⟨[1, 5, 3]⟩ ⟨[0, 0, 0]⟩ 1 "p" 0).addToForceCoord 0 2).force = ⟨[2, 0, 0]⟩ ∧
    (((Particle.new ⟨[1, 5, 3]⟩ ⟨[0, 0, 0]⟩ 1 "p" 0).addToForceCoord 0 2).addToForce
      ⟨[0, 3, 4]⟩).force = ⟨[2, 3, 4]⟩ ∧
    ((((Particle.new ⟨[1, 5, 3]⟩ ⟨[0, 0, 0]⟩ 1 "p" 0).addToForceCoord 0 2).addToForce
      ⟨[0, 3, 4]⟩).setForceToZero).force = ⟨[0, 0, 0]⟩ ∧
    (Particle.new ⟨[1, 5, 3]⟩ ⟨[0, 0, 0]⟩ 1 "p" 0).setForceToZero =
      { Particle.new ⟨[1, 5, 3]⟩ ⟨[0, 0, 0]⟩ 1 "p" 0 with force := Vector.zero 3 } :=
  ⟨by decide!, by decide!, by decide!,
    (force_accumulation (Particle.new ⟨[1, 5, 3]⟩ ⟨[0, 0, 0]⟩ 1 "p" 0) ⟨[0, 3, 4]⟩ ⟨[0, 0, 0]⟩ 0 2 0
      rfl rfl rfl (by decide)).2.2.1⟩

/-! ## Force update of a finite universe -/

theorem FiniteUniverse.oobbehavior_applyExternalForces (u : FiniteUniverse) :
    u.applyExternalForces.oobbehavior = u.oobbehavior := by
  unfold FiniteUniverse.applyExternalForces
  simp only
  split_ifs <;> rfl

theorem FiniteUniverse.applyLimitinterractionForces_eq (u : FiniteUniverse) :
    (u.applyLimitinterractionForces = Except.error "Not yet implemented." ↔
      u.oobbehavior = OOBBehavior.PERIODIC) ∧
    (u.oobbehavior ≠ OOBBehavior.PERIODIC → u.applyLimitinterractionForces = Except.ok u) := by
  unfold FiniteUniverse.applyLimitinterractionForces FiniteUniverse.applyForeignNeighboursForces
  by_cases h : u.oobbehavior = OOBBehavior.PERIODIC
  · simp [h]
  · simp [h]

/-- C24: on a finite universe that is not gridded, `updateForces` (and
`applyInteractionForces`) ends with the exception "Not yet implemented." if and
only if the boundary policy is PERIODIC; under the two other policies
`applyInteractionForces` returns the universe in which the particles are those
left by `Universe::applyInteractionForces`, and `updateForces` returns what
`Universe::updateForces` computes when no wall force is activated. -/
theorem finite_forces_periodic_not_implemented (u : FiniteUniverse) :
    (u.updateForces = Except.error "Not yet implemented." ↔
      u.oobbehavior = OOBBehavior.PERIODIC) ∧
    (u.applyInteractionForces = Except.error "Not yet implemented." ↔
      u.oobbehavior = OOBBehavior.PERIODIC) ∧
    (u.oobbehavior ≠ OOBBehavior.PERIODIC →
      u.applyInteractionForces =
        Except.ok { u with toUniverse := u.toUniverse.applyInteractionForces } ∧
      u.updateForces = Except.ok
        { ({ u with toUniverse := u.toUniverse.setForcesToZero } :
            FiniteUniverse).applyExternalForces with
          toUniverse := (({ u with toUniverse := u.toUniverse.setForcesToZero } :
            FiniteUniverse).applyExternalForces).toUniverse.applyInteractionForces } ∧
      (u.applyWallsForce = false →
        u.updateForces = Except.ok { u with toUniverse := u.toUniverse.updateForces })) := by
  have h1 := FiniteUniverse.applyLimitinterractionForces_eq
    (({ u with toUniverse := u.toUniverse.setForcesToZero } :
      FiniteUniverse).applyExternalForces).applyInternInterractionsForces
  have h2 := FiniteUniverse.applyLimitinterractionForces_eq u.applyInternInterractionsForces
  have ho1 : ((({ u with toUniverse := u.toUniverse.setForcesToZero } :
      FiniteUniverse).applyExternalForces).applyInternInterractionsForces).oobbehavior =
      u.oobbehavior :=
    FiniteUniverse.oobbehavior_applyExternalForces
      ({ u with toUniverse := u.toUniverse.setForcesToZero } : FiniteUniverse)
  have ho2 : u.applyInternInterractionsForces.oobbehavior = u.oobbehavior := rfl
  rw [ho1] at h1
  rw [ho2] at h2
  refine ⟨h1.1, h2.1, fun hne => ⟨h2.2 hne, h1.2 hne, fun hw => ?_⟩⟩
  have h3 := h1.2 hne
  have hext : ({ u with toUniverse := u.toUniverse.setForcesToZero } :
      FiniteUniverse).applyExternalForces =
      { u with toUniverse := u.toUniverse.setForcesToZero.applyExternalForces } := by
    unfold FiniteUniverse.applyExternalForces
    simp only [hw]
    rfl
  show FiniteUniverse.applyLimitinterractionForces _ = _
  rw [h3, hext]
  rfl

/-- C24, witness: the unit square with three particles; under PERIODIC the
force update ends with the exception, under ABSORPTION it returns the universe
of the all-pairs pass. -/
theorem finite_forces_periodic_not_implemented_witness :
    (restingBox OOBBehavior.PERIODIC).updateForces = Except.error "Not yet implemented." ∧
    (restingBox OOBBehavior.ABSORPTION).updateForces =
      Except.ok { restingBox OOBBehavior.ABSORPTION with
        toUniverse := (restingBox OOBBehavior.ABSORPTION).toUniverse.updateForces } :=
  ⟨(finite_forces_periodic_not_implemented (restingBox OOBBehavior.PERIODIC)).1.mpr rfl,
   (finite_forces_periodic_not_implemented (restingBox OOBBehavior.ABSORPTION)).2.2
      (by decide) |>.2.2 rfl⟩

/-! ## The periodic wrap -/

theorem fmod_eq (x y : ℚ) : fmod x y = x - y * (truncToInt (x / y) : ℚ) := rfl

theorem fmod_bounds (a d : ℚ) (hd : 0 < d) :
    (0 ≤ a → 0 ≤ fmod a d ∧ fmod a d < d) ∧ (a < 0 → -d < fmod a d ∧ fmod a d ≤ 0) := by
  have hmul : a = d * (a / d) := by field_simp
  constructor
  · intro ha
    have hq : 0 ≤ a / d := div_nonneg ha (le_of_lt hd)
    have ht : truncToInt (a / d) = ⌊a / d⌋ := by simp [truncToInt, hq]
    rw [fmod_eq, ht]
    have h1 := Int.floor_le (a / d)
    have h2 := Int.lt_floor_add_one (a / d)
    constructor
    · have : d * (⌊a / d⌋ : ℚ) ≤ d * (a / d) := mul_le_mul_of_nonneg_left h1 (le_of_lt hd)
      linarith
    · have : d * (a / d) < d * ((⌊a / d⌋ : ℚ) + 1) := mul_lt_mul_of_pos_left h2 hd
      linarith
  · intro ha
    have hq : a / d < 0 := div_neg_of_neg_of_pos ha hd
    have ht : truncToInt (a / d) = ⌈a / d⌉ := by simp [truncToInt, not_le.mpr hq]
    rw [fmod_eq, ht]
    have h1 := Int.le_ceil (a / d)
    have h2 := Int.ceil_lt_add_one (a / d)
    constructor
    · have : d * (⌈a / d⌉ : ℚ) < d * (a / d + 1) := mul_lt_mul_of_pos_left h2 hd
      linarith
    · have : d * (a / d) ≤ d * (⌈a / d⌉ : ℚ) := mul_le_mul_of_nonneg_left h1 (le_of_lt hd)
      linarith

/-- The coordinate written by `teleportOutOfBoundsParticles` on an axis of
positive extent `d`: it lies in `[0, d)` and differs from `x - lowerBound` by
an integer multiple of `d` (the lower bound is not added back). -/
theorem teleport_coordinate (x lowerBound d : ℚ) (hd : 0 < d) :
    0 ≤ fmod (fmod (x - lowerBound) d + d) d ∧
    fmod (fmod (x - lowerBound) d + d) d < d ∧
    ∃ k : Int, fmod (fmod (x - lowerBound) d + d) d = x - lowerBound + (k : ℚ) * d := by
  have hb := fmod_bounds (x - lowerBound) d hd
  have hpos : 0 ≤ fmod (x - lowerBound) d + d := by
    by_cases h : 0 ≤ x - lowerBound
    · have := (hb.1 h).1
      linarith
    · have := (hb.2 (not_le.mp h)).1
      linarith
  have hb2 := (fmod_bounds (fmod (x - lowerBound) d + d) d hd).1 hpos
  refine ⟨hb2.1, hb2.2, ?_⟩
  refine ⟨-truncToInt ((x - lowerBound) / d) + 1 -
    truncToInt ((fmod (x - lowerBound) d + d) / d), ?_⟩
  rw [fmod_eq (fmod (x - lowerBound) d + d) d, fmod_eq (x - lowerBound) d]
  push_cast
  ring

/-- C22, evaluation: periodic bounds `[10, 20]`, one particle at 19 with speed
6, time step 1.  The position update gives 25 and the wrap writes
`fmod(fmod(15, 10) + 10, 10) = 5`, which is outside the bounds; with a grid of
cell side 5 the rebinding that follows has no defined result. -/
theorem teleport_leaves_bounds :
    (shiftedLine.updatePositions 0 1).map
      (fun u => u.particles.map (fun p => (p.position.data, u.isInBounds p))) =
      some [([5], false)] ∧
    shiftedGrid.isSome = true ∧
    (shiftedGrid.bind (fun u => u.updatePositions 0 1)).isSome = false := by
  decide!

/-- C23, evaluation: periodic bounds `[1, 3]` (extent 2), one particle at 2.5
with speed 1, time step 1.  The position update gives 3.5 and the wrap writes
`fmod(fmod(2.5, 2) + 2, 2) = 0.5`; the difference `0.5 - 3.5 = -3` is not an
integer multiple of the extent 2. -/
theorem teleport_not_same_point_modulo_extent :
    (offsetLine.toUniverse.updatePositions 1).particles.map (fun p => p.position.data) =
      [[7 / 2]] ∧
    (offsetLine.updatePositions 0 1).map
      (fun u => u.particles.map (fun p => p.position.data)) = some [[1 / 2]] ∧
    ¬ ∃ k : Int, (1 / 2 : ℚ) - 7 / 2 = (k : ℚ) * (3 - 1) := by
  refine ⟨by decide!, by decide!, ?_⟩
  rintro ⟨k, hk⟩
  have h2 : ((2 * k : Int) : ℚ) = ((-3 : Int) : ℚ) := by
    push_cast
    linarith
  have h3 : 2 * k = -3 := by exact_mod_cast h2
  omega

/-! ## Assertions and the shipped configuration -/

/-- C25, evaluation: in the unit square the position `(2, 2)` is outside the
bounds.  In the shipped configuration `addParticle` appends the particle, with
or without a name; with assertions enabled the overload with a name aborts,
but the overload without a name, which is not the override of
`FiniteUniverse`, still appends the particle.  The same holds on a gridded
universe. -/
theorem addParticle_out_of_bounds_accepted :
    (Vector.mk [2, 2]).isInBounds ⟨[0, 0]⟩ ⟨[1, 1]⟩ = false ∧
    ((FiniteUniverse.new ⟨[0, 0]⟩ ⟨[1, 1]⟩ 0 0).addParticle ⟨[2, 2]⟩ ⟨[0, 0]⟩ 1
      "a").particles.map (fun p => p.position.data) = [[2, 2]] ∧
    ((FiniteUniverse.new ⟨[0, 0]⟩ ⟨[1, 1]⟩ 0 0).addParticleCfg true ⟨[2, 2]⟩ ⟨[0, 0]⟩ 1
      "a").map (fun u => u.particles.map (fun p => p.position.data)) = some [[2, 2]] ∧
    ((FiniteUniverse.new ⟨[0, 0]⟩ ⟨[1, 1]⟩ 0 0).addParticleUnnamedCfg true ⟨[2, 2]⟩ ⟨[0, 0]⟩
      1).map (fun u => u.particles.map (fun p => p.position.data)) = some [[2, 2]] ∧
    ((FiniteUniverse.new ⟨[0, 0]⟩ ⟨[1, 1]⟩ 0 0).addParticleCfg false ⟨[2, 2]⟩ ⟨[0, 0]⟩ 1
      "a").isSome = false ∧
    ((FiniteUniverse.new ⟨[0, 0]⟩ ⟨[1, 1]⟩ 0 0).addParticleUnnamedCfg false ⟨[2, 2]⟩ ⟨[0, 0]⟩
      1).map (fun u => u.particles.map (fun p => p.position.data)) = some [[2, 2]] ∧
    (grid2x3.addParticle ⟨[5, 5]⟩ ⟨[0, 0]⟩ 1 "a").particles.map (fun p => p.position.data) =
      [[5, 5]] := by
  refine ⟨by decide!, by decide!, by decide!, by decide!, by decide!, by decide!, by decide!⟩

theorem FiniteUniverse.addParticleCfg_true (u : FiniteUniverse) (pos speed : Vector) (mass : ℚ)
    (name : String) :
    u.addParticleCfg true pos speed mass name = some (u.addParticle pos speed mass name) := rfl

/-- Result of the reflection loop on axis `i`: after some number `k` of
mirrorings, at most the fuel, the first `k` of which start outside the bounds and the last of
which ends inside, the coordinate `i` of the speed has been multiplied by
`(-1)^k` and, when `k > 0`, the coordinate `i` of the position is the final
value. -/
theorem FiniteUniverse.reflectLoop_spec (lowerBound upperBound : ℚ) (i fuel : Nat) (x : ℚ)
    (p q : Particle)
    (h : FiniteUniverse.reflectLoop lowerBound upperBound i fuel x p = some q) :
    ∃ k : Nat, k ≤ fuel ∧
      (∀ m, m < k → ((mirrorAbout lowerBound upperBound)^[m] x < lowerBound ∨
        (mirrorAbout lowerBound upperBound)^[m] x > upperBound)) ∧
      lowerBound ≤ (mirrorAbout lowerBound upperBound)^[k] x ∧
      (mirrorAbout lowerBound upperBound)^[k] x ≤ upperBound ∧
      q = { p with
        speed := ⟨p.speed.data.set i ((-1) ^ k * p.speed.get i)⟩,
        position := if k = 0 then p.position
          else ⟨p.position.data.set i ((mirrorAbout lowerBound upperBound)^[k] x)⟩ } := by
  induction fuel generalizing x p with
  | zero =>
    by_cases hout : x < lowerBound ∨ x > upperBound
    · simp [FiniteUniverse.reflectLoop, hout] at h
    · simp only [FiniteUniverse.reflectLoop, hout, if_false, Option.some.injEq] at h
      subst h
      refine ⟨0, Nat.zero_le _, fun m hm => absurd hm (Nat.not_lt_zero m), ?_, ?_, ?_⟩
      · exact not_lt.mp (fun hlt => hout (Or.inl hlt))
      · exact not_lt.mp (fun hgt => hout (Or.inr hgt))
      · have hs := Vector.set_get_self p.speed i
        simp only [Vector.set] at hs
        simp only [pow_zero, one_mul, if_true, hs]
  | succ f ih =>
    by_cases hout : x < lowerBound ∨ x > upperBound
    · rw [FiniteUniverse.reflectLoop, if_pos hout] at h
      obtain ⟨k, hkf, hk1, hk2, hk3, hq⟩ := ih _ _ h
      refine ⟨k + 1, by omega, ?_, ?_, ?_, ?_⟩
      · intro m hm
        cases m with
        | zero => exact hout
        | succ n =>
          rw [Function.iterate_succ_apply]
          exact hk1 n (by omega)
      · rw [Function.iterate_succ_apply]
        exact hk2
      · rw [Function.iterate_succ_apply]
        exact hk3
      · rw [hq]
        have hx : roundDouble
            (roundDouble (2 * (if x < lowerBound then lowerBound else upperBound)) - x) =
            mirrorAbout lowerBound upperBound x := rfl
        congr 1
        · rw [if_neg (Nat.succ_ne_zero k), Function.iterate_succ_apply]
          show (if k = 0 then (⟨p.position.data.set i _⟩ : Vector)
            else ⟨(p.position.data.set i _).set i _⟩) = _
          rw [List.set_set, hx]
          split_ifs with hk0
          · subst hk0
            rfl
          · rfl
        · show (⟨(p.speed.data.set i (p.speed.get i * -1)).set i
            ((-1) ^ k * (p.speed.data.set i (p.speed.get i * -1)).getD i 0)⟩ : Vector) = _
          rw [List.set_set]
          by_cases hi : i < p.speed.data.length
          · congr 2
            simp only [List.getD_eq_getElem?_getD, List.getElem?_set, hi, if_true,
              Option.getD_some]
            simp
            ring
          · rw [List.set_eq_of_length_le (by omega), List.set_eq_of_length_le (by omega)]
    · simp only [FiniteUniverse.reflectLoop, hout, if_false, Option.some.injEq] at h
      subst h
      refine ⟨0, Nat.zero_le _, fun m hm => absurd hm (Nat.not_lt_zero m), ?_, ?_, ?_⟩
      · exact not_lt.mp (fun hlt => hout (Or.inl hlt))
      · exact not_lt.mp (fun hgt => hout (Or.inr hgt))
      · have hs := Vector.set_get_self p.speed i
        simp only [Vector.set] at hs
        simp only [pow_zero, one_mul, if_true, hs]

/-- The reflection loop on axis `a`, started from the coordinate `a` of the
position, with `a` below the dimension of the position: what it changes and
what it leaves. -/
theorem FiniteUniverse.reflectLoop_facts (lowerBound upperBound : ℚ) (a fuel : Nat)
    (p q : Particle) (ha : a < p.position.getDimension)
    (h : FiniteUniverse.reflectLoop lowerBound upperBound a fuel (p.position.get a) p =
      some q) :
    (q.force = p.force ∧ q.oldForce = p.oldForce ∧ q.mass = p.mass ∧ q.name = p.name ∧
      q.id = p.id) ∧
    q.position.getDimension = p.position.getDimension ∧
    q.speed.getDimension = p.speed.getDimension ∧
    (∀ i, i ≠ a → q.position.get i = p.position.get i ∧ q.speed.get i = p.speed.get i) ∧
    ∃ k : Nat,
      (∀ m, m < k → ((mirrorAbout lowerBound upperBound)^[m] (p.position.get a) < lowerBound ∨
        (mirrorAbout lowerBound upperBound)^[m] (p.position.get a) > upperBound)) ∧
      lowerBound ≤ (mirrorAbout lowerBound upperBound)^[k] (p.position.get a) ∧
      (mirrorAbout lowerBound upperBound)^[k] (p.position.get a) ≤ upperBound ∧
      q.position.get a = (mirrorAbout lowerBound upperBound)^[k] (p.position.get a) ∧
      q.speed.get a = (-1) ^ k * p.speed.get a := by
  obtain ⟨k, _, hk1, hk2, hk3, hq⟩ := FiniteUniverse.reflectLoop_spec _ _ _ _ _ _ _ h
  have hpos : q.position = if k = 0 then p.position
      else ⟨p.position.data.set a ((mirrorAbout lowerBound upperBound)^[k] (p.position.get a))⟩ := by
    rw [hq]
  have hspeed : q.speed = ⟨p.speed.data.set a ((-1) ^ k * p.speed.get a)⟩ := by
    rw [hq]
  have hposset : q.position =
      p.position.set a ((mirrorAbout lowerBound upperBound)^[k] (p.position.get a)) := by
    rw [hpos]
    split_ifs with hk0
    · subst hk0
      exact (Vector.set_get_self p.position a).symm
    · rfl
  have hspeedset : q.speed = p.speed.set a ((-1) ^ k * p.speed.get a) := hspeed
  refine ⟨?_, ?_, ?_, ?_, k, hk1, hk2, hk3, ?_, ?_⟩
  · rw [hq]
    exact ⟨rfl, rfl, rfl, rfl, rfl⟩
  · rw [hposset, Vector.getDimension_set]
  · rw [hspeedset, Vector.getDimension_set]
  · intro i hi
    constructor
    · rw [hposset, Vector.get_set _ _ _ _ ha, if_neg hi]
    · rw [hspeedset]
      simp only [Vector.set, Vector.get, List.getD_eq_getElem?_getD, List.getElem?_set]
      have : ¬ a = i := fun e => hi e.symm
      simp [this]
  · rw [hposset, Vector.get_set _ _ _ _ ha, if_pos rfl]
  · rw [hspeedset]
    by_cases hs : a < p.speed.getDimension
    · rw [Vector.get_set _ _ _ _ hs, if_pos rfl]
    · have h0 : p.speed.get a = 0 := by
        simp only [Vector.get, List.getD_eq_getElem?_getD]
        rw [List.getElem?_eq_none (by
          have : p.speed.getDimension = p.speed.data.length := rfl
          omega)]
        rfl
      have hset : p.speed.set a ((-1) ^ k * p.speed.get a) = p.speed := by
        simp only [Vector.set]
        rw [List.set_eq_of_length_le (by
          have : p.speed.getDimension = p.speed.data.length := rfl
          omega)]
      rw [hset, h0, mul_zero]

/-- The loops of `reflectOutOfBoundsParticles` over a list of distinct axes. -/
theorem FiniteUniverse.foldlM_reflect_spec (u : FiniteUniverse) (fuel : Nat) (l : List Nat)
    (hl : l.Nodup) (p q : Particle) (hdim : ∀ i ∈ l, i < p.position.getDimension)
    (h : l.foldlM (fun p i => FiniteUniverse.reflectLoop (u.lowerBound.get i)
      (u.upperBound.get i) i fuel (p.position.get i) p) p = some q) :
    (q.force = p.force ∧ q.oldForce = p.oldForce ∧ q.mass = p.mass ∧ q.name = p.name ∧
      q.id = p.id) ∧
    q.position.getDimension = p.position.getDimension ∧
    q.speed.getDimension = p.speed.getDimension ∧
    (∀ i, i ∉ l → q.position.get i = p.position.get i ∧ q.speed.get i = p.speed.get i) ∧
    (∀ i, i ∈ l → ∃ k : Nat,
      (∀ m, m < k →
        ((mirrorAbout (u.lowerBound.get i) (u.upperBound.get i))^[m] (p.position.get i) <
            u.lowerBound.get i ∨
          (mirrorAbout (u.lowerBound.get i) (u.upperBound.get i))^[m] (p.position.get i) >
            u.upperBound.get i)) ∧
      u.lowerBound.get i ≤
        (mirrorAbout (u.lowerBound.get i) (u.upperBound.get i))^[k] (p.position.get i) ∧
      (mirrorAbout (u.lowerBound.get i) (u.upperBound.get i))^[k] (p.position.get i) ≤
        u.upperBound.get i ∧
      q.position.get i =
        (mirrorAbout (u.lowerBound.get i) (u.upperBound.get i))^[k] (p.position.get i) ∧
      q.speed.get i = (-1) ^ k * p.speed.get i) := by
  induction l generalizing p with
  | nil =>
    simp only [List.foldlM_nil, pure, Option.some.injEq] at h
    subst h
    exact ⟨⟨rfl, rfl, rfl, rfl, rfl⟩, rfl, rfl, fun _ _ => ⟨rfl, rfl⟩,
      fun i hi => absurd hi (List.not_mem_nil i)⟩
  | cons a l ih =>
    rw [List.foldlM_cons] at h
    cases h1 : FiniteUniverse.reflectLoop (u.lowerBound.get a) (u.upperBound.get a) a fuel
        (p.position.get a) p with
    | none =>
      rw [h1] at h
      cases h
    | some p1 =>
      rw [h1] at h
      have hanl : a ∉ l := (List.nodup_cons.mp hl).1
      obtain ⟨hf1, hd1, hs1, hother1, k, hk1, hk2, hk3, hk4, hk5⟩ :=
        FiniteUniverse.reflectLoop_facts _ _ _ _ _ _ (hdim a (List.mem_cons_self _ _)) h1
      obtain ⟨hf2, hd2, hs2, hother2, hin2⟩ := ih (List.nodup_cons.mp hl).2 p1
        (fun i hi => by rw [hd1]; exact hdim i (List.mem_cons_of_mem _ hi)) h
      refine ⟨?_, hd2.trans hd1, hs2.trans hs1, ?_, ?_⟩
      · obtain ⟨a1, a2, a3, a4, a5⟩ := hf1
        obtain ⟨b1, b2, b3, b4, b5⟩ := hf2
        exact ⟨b1.trans a1, b2.trans a2, b3.trans a3, b4.trans a4, b5.trans a5⟩
      · intro i hi
        have hia : i ≠ a := fun e => hi (e ▸ List.mem_cons_self _ _)
        have hil : i ∉ l := fun e => hi (List.mem_cons_of_mem _ e)
        exact ⟨((hother2 i hil).1).trans (hother1 i hia).1,
          ((hother2 i hil).2).trans (hother1 i hia).2⟩
      · intro i hi
        rcases List.mem_cons.mp hi with rfl | hil
        · refine ⟨k, hk1, hk2, hk3, ?_, ?_⟩
          · rw [(hother2 i hanl).1, hk4]
          · rw [(hother2 i hanl).2, hk5]
        · have hia : i ≠ a := fun e => hanl (e ▸ hil)
          obtain ⟨k2, g1, g2, g3, g4, g5⟩ := hin2 i hil
          rw [(hother1 i hia).1] at g1 g2 g3 g4
          rw [(hother1 i hia).2] at g5
          exact ⟨k2, g1, g2, g3, g4, g5⟩

theorem mapM_some_getElem? {α β : Type} (f : α → Option β) (ps : List α) (qs : List β)
    (h : ps.mapM f = some qs) :
    qs.length = ps.length ∧
    ∀ (j : Nat) (p : α), ps[j]? = some p → ∃ q, qs[j]? = some q ∧ f p = some q := by
  induction ps generalizing qs with
  | nil =>
    simp only [List.mapM_nil, pure, Option.some.injEq] at h
    subst h
    exact ⟨rfl, fun j p hp => by simp at hp⟩
  | cons a ps ih =>
    rw [List.mapM_cons] at h
    cases h1 : f a with
    | none =>
      rw [h1] at h
      cases h
    | some b =>
      cases h2 : ps.mapM f with
      | none =>
        rw [h1, h2] at h
        cases h
      | some bs =>
        rw [h1, h2] at h
        have hq : qs = b :: bs := by
          have := Option.some.inj h
          exact this.symm
        subst hq
        obtain ⟨hlen, hget⟩ := ih bs h2
        refine ⟨by simp [hlen], ?_⟩
        intro j p hp
        cases j with
        | zero =>
          simp only [List.getElem?_cons_zero, Option.some.injEq] at hp
          subst hp
          exact ⟨b, by simp, h1⟩
        | succ n =>
          simp only [List.getElem?_cons_succ] at hp
          obtain ⟨q, hq1, hq2⟩ := hget n p hp
          exact ⟨q, by simpa using hq1, hq2⟩

/-! ## Speed inversion and distance -/

/-- C31: for a particle and an axis `i` below the dimension of its speed,
`invertSpeed(i)` negates the coordinate `i` of the speed, leaves the other
coordinates of the speed and every other field, and applied twice gives the
particle back. -/
theorem invertSpeed_involution (p : Particle) (i : Nat) (hi : i < p.speed.getDimension) :
    (p.invertSpeed i).speed.get i = -(p.speed.get i) ∧
    (∀ j, j ≠ i → (p.invertSpeed i).speed.get j = p.speed.get j) ∧
    (p.invertSpeed i).speed.getDimension = p.speed.getDimension ∧
    p.invertSpeed i = { p with speed := (p.invertSpeed i).speed } ∧
    (p.invertSpeed i).invertSpeed i = p := by
  refine ⟨?_, ?_, ?_, rfl, ?_⟩
  · show (p.speed.set i _).get i = _
    rw [Vector.get_set _ _ _ _ hi, if_pos rfl]
    ring
  · intro j hj
    show (p.speed.set i _).get j = _
    rw [Vector.get_set _ _ _ _ hi, if_neg hj]
  · show (p.speed.set i _).getDimension = _
    rw [Vector.getDimension_set]
  · have h1 : (p.speed.set i (p.speed.get i * -1)).get i = p.speed.get i * -1 := by
      rw [Vector.get_set _ _ _ _ hi, if_pos rfl]
    have h2 : (p.speed.set i (p.speed.get i * -1)).set i
        ((p.speed.set i (p.speed.get i * -1)).get i * -1) = p.speed := by
      rw [h1]
      have h3 : p.speed.get i * -1 * -1 = p.speed.get i := by ring
      rw [h3]
      have h4 := Vector.set_get_self p.speed i
      simp only [Vector.set] at h4 ⊢
      rw [List.set_set]
      exact h4
    show ({ p with speed := ((p.speed.set i (p.speed.get i * -1)).set i
      ((p.speed.set i (p.speed.get i * -1)).get i * -1)) } : Particle) = p
    rw [h2]

/-- C31, witness: the speed `(1, -2, 3)` with the axis 1. -/
theorem invertSpeed_involution_witness :
    ((Particle.new ⟨[0, 0, 0]⟩ ⟨[1, -2, 3]⟩ 1 "p" 0).invertSpeed 1).speed = ⟨[1, 2, 3]⟩ ∧
    ((Particle.new ⟨[0, 0, 0]⟩ ⟨[1, -2, 3]⟩ 1 "p" 0).invertSpeed 1).invertSpeed 1 =
      Particle.new ⟨[0, 0, 0]⟩ ⟨[1, -2, 3]⟩ 1 "p" 0 :=
  ⟨by decide!,
    (invertSpeed_involution (Particle.new ⟨[0, 0, 0]⟩ ⟨[1, -2, 3]⟩ 1 "p" 0) 1
      (by decide)).2.2.2.2⟩

/-- C37: in a constructed universe with at most `2^64` intern cells, for every
coordinate tuple `c` with `0 ≤ c_i < count_i` on every axis, `internCellIndex`
of `c` is smaller than the number of intern cells, the cell stored at that
position has the coordinates `c`, and two such tuples with the same index are
equal. -/
theorem internCellIndex_valid_injective {lb ub : Vector} {side mf : ℚ} {pc : Int}
    {u : GriddedUniverse} (hnew : GriddedUniverse.new lb ub side mf pc = some u)
    (hsize : u.internCells.length ≤ 2 ^ 64) (tup : List Int)
    (hlen : tup.length = u.dimensions.length)
    (htup : ∀ i, i < u.dimensions.length →
      0 ≤ tup.getD i 0 ∧ tup.getD i 0 < u.dimensions.getD i 0) :
    internCellIndex u.dimensions tup < u.internCells.length ∧
    (∃ cell, u.internCells[internCellIndex u.dimensions tup]? = some cell ∧
      cell.coordinates = tup) ∧
    (∀ other : List Int, other.length = u.dimensions.length →
      (∀ i, i < u.dimensions.length →
        0 ≤ other.getD i 0 ∧ other.getD i 0 < u.dimensions.getD i 0) →
      internCellIndex u.dimensions other = internCellIndex u.dimensions tup →
      other = tup) := by
  obtain ⟨cell, hcell, hco⟩ := GriddedUniverse.internCellIndex_new hnew hsize tup hlen htup
  refine ⟨?_, ⟨cell, hcell, hco⟩, ?_⟩
  · rcases Nat.lt_or_ge (internCellIndex u.dimensions tup) u.internCells.length with hl | hl
    · exact hl
    · rw [List.getElem?_eq_none hl] at hcell
      exact absurd hcell (by simp)
  · intro other holen hother heq
    obtain ⟨cell2, hcell2, hco2⟩ :=
      GriddedUniverse.internCellIndex_new hnew hsize other holen hother
    rw [heq, hcell] at hcell2
    have h := Option.some.inj hcell2
    rw [← hco2, ← h, hco]

/-- C37, witness: in the grid of 2 x 3 cells the tuple (1, 2) has index 5, the
last of the six positions, and the cell stored there has coordinates (1, 2). -/
theorem internCellIndex_valid_injective_witness :
    internCellIndex grid2x3.dimensions [1, 2] = 5 ∧
    grid2x3.internCells.length = 6 ∧
    internCellIndex grid2x3.dimensions [1, 2] < grid2x3.internCells.length ∧
    (∃ cell, grid2x3.internCells[internCellIndex grid2x3.dimensions [1, 2]]? = some cell ∧
      cell.coordinates = [1, 2]) := by
  have h := internCellIndex_valid_injective grid2x3_new (by decide!) [1, 2] (by decide!)
    (by decide!)
  exact ⟨by decide!, by decide!, h.1, h.2.1⟩

/-! ## Running extrema -/

theorem Vector.get_min (v1 v2 : Vector) (i : Nat) (hi : i < v1.getDimension) :
    (Vector.min v1 v2).get i = Min.min (v1.get i) (v2.get i) := by
  show (Vector.min v1 v2).data.getD i 0 = _
  rw [Vector.min_data, getD_map_range _ _ _ _ hi]

theorem Vector.get_max (v1 v2 : Vector) (i : Nat) (hi : i < v1.getDimension) :
    (Vector.max v1 v2).get i = Max.max (v1.get i) (v2.get i) := by
  show (Vector.max v1 v2).data.getD i 0 = _
  rw [Vector.max_data, getD_map_range _ _ _ _ hi]

theorem Vector.getDimension_min (v1 v2 : Vector) :
    (Vector.min v1 v2).getDimension = v1.getDimension := by
  show (Vector.min v1 v2).data.length = _
  rw [Vector.min_data]
  simp

theorem Vector.getDimension_max (v1 v2 : Vector) :
    (Vector.max v1 v2).getDimension = v1.getDimension := by
  show (Vector.max v1 v2).data.length = _
  rw [Vector.max_data]
  simp

/-- The extremum positions after `updatesExtremumValues` are the folds of `min`
and `max` over the particle positions, started at the values recorded before
the call. -/
theorem Universe.extrema_updatesExtremumValues (sqrt : ℚ → ℚ) (u : Universe) :
    (u.updatesExtremumValues sqrt).minPosition =
      u.particles.foldl (fun m p => Vector.min m p.position) u.minPosition ∧
    (u.updatesExtremumValues sqrt).maxPosition =
      u.particles.foldl (fun m p => Vector.max m p.position) u.maxPosition := by
  unfold Universe.updatesExtremumValues
  generalize u.particles = ps
  induction ps generalizing u with
  | nil => exact ⟨rfl, rfl⟩
  | cons p ps ih =>
    rw [List.foldl_cons, List.foldl_cons, List.foldl_cons]
    by_cases h : p.force.norm sqrt > u.maxForce
    · simp only [h, if_true]
      exact ih _
    · simp only [h, if_false]
      exact ih _

theorem foldl_min_get (ps : List Particle) (m : Vector) (i : Nat) (hi : i < m.getDimension) :
    (ps.foldl (fun m p => Vector.min m p.position) m).get i =
      (ps.map (fun p => p.position.get i)).foldl Min.min (m.get i) := by
  induction ps generalizing m with
  | nil => rfl
  | cons p ps ih =>
    rw [List.foldl_cons, List.map_cons, List.foldl_cons,
      ih _ (by rw [Vector.getDimension_min]; exact hi), Vector.get_min _ _ _ hi]

theorem foldl_max_get (ps : List Particle) (m : Vector) (i : Nat) (hi : i < m.getDimension) :
    (ps.foldl (fun m p => Vector.max m p.position) m).get i =
      (ps.map (fun p => p.position.get i)).foldl Max.max (m.get i) := by
  induction ps generalizing m with
  | nil => rfl
  | cons p ps ih =>
    rw [List.foldl_cons, List.map_cons, List.foldl_cons,
      ih _ (by rw [Vector.getDimension_max]; exact hi), Vector.get_max _ _ _ hi]

theorem foldl_min_le (l : List ℚ) (a : ℚ) : l.foldl Min.min a ≤ a := by
  induction l generalizing a with
  | nil => exact le_refl _
  | cons x l ih => exact le_trans (ih _) (min_le_left _ _)

theorem le_foldl_max (l : List ℚ) (a : ℚ) : a ≤ l.foldl Max.max a := by
  induction l generalizing a with
  | nil => exact le_refl _
  | cons x l ih => exact le_trans (le_max_left _ _) (ih _)

theorem Vector.get_zero (d i : Nat) : (Vector.zero d).get i = 0 := by
  simp only [Vector.zero, Vector.get, List.getD_eq_getElem?_getD]
  by_cases h : i < d
  · simp [List.getElem?_replicate, h]
  · simp [List.getElem?_replicate, h]

theorem Vector.getDimension_zero (d : Nat) : (Vector.zero d).getDimension = d := by
  simp [Vector.zero, Vector.getDimension]

/-- C33: in a universe whose recorded extrema are still the zero vectors the
constructor sets, `updatesExtremumValues` records on a valid axis `i` the
smallest of `0` and the coordinates `i` of the particles as minimum and the
largest of `0` and these coordinates as maximum.  The minimum is never above
`0` and the maximum never below `0`: where every particle has a positive
(negative) coordinate `i`, the recorded minimum (maximum) is below (above)
every coordinate observed. -/
theorem updatesExtremumValues_zero_start (sqrt : ℚ → ℚ) (u : Universe)
    (hmin : u.minPosition = Vector.zero u.dimension)
    (hmax : u.maxPosition = Vector.zero u.dimension) (i : Nat) (hi : i < u.dimension) :
    (u.updatesExtremumValues sqrt).minPosition.get i =
      (u.particles.map (fun p => p.position.get i)).foldl Min.min 0 ∧
    (u.updatesExtremumValues sqrt).maxPosition.get i =
      (u.particles.map (fun p => p.position.get i)).foldl Max.max 0 ∧
    (u.updatesExtremumValues sqrt).minPosition.get i ≤ 0 ∧
    0 ≤ (u.updatesExtremumValues sqrt).maxPosition.get i ∧
    ((∀ p ∈ u.particles, 0 < p.position.get i) →
      ∀ p ∈ u.particles, (u.updatesExtremumValues sqrt).minPosition.get i < p.position.get i) ∧
    ((∀ p ∈ u.particles, p.position.get i < 0) →
      ∀ p ∈ u.particles, p.position.get i < (u.updatesExtremumValues sqrt).maxPosition.get i) := by
  obtain ⟨h1, h2⟩ := Universe.extrema_updatesExtremumValues sqrt u
  have e1 : (u.updatesExtremumValues sqrt).minPosition.get i =
      (u.particles.map (fun p => p.position.get i)).foldl Min.min 0 := by
    rw [h1, foldl_min_get _ _ _ (by rw [hmin, Vector.getDimension_zero]; exact hi), hmin,
      Vector.get_zero]
  have e2 : (u.updatesExtremumValues sqrt).maxPosition.get i =
      (u.particles.map (fun p => p.position.get i)).foldl Max.max 0 := by
    rw [h2, foldl_max_get _ _ _ (by rw [hmax, Vector.getDimension_zero]; exact hi), hmax,
      Vector.get_zero]
  have l1 : (u.updatesExtremumValues sqrt).minPosition.get i ≤ 0 := by
    rw [e1]
    exact foldl_min_le _ _
  have l2 : 0 ≤ (u.updatesExtremumValues sqrt).maxPosition.get i := by
    rw [e2]
    exact le_foldl_max _ _
  exact ⟨e1, e2, l1, l2, fun h p hp => lt_of_le_of_lt l1 (h p hp),
    fun h p hp => lt_of_lt_of_le (h p hp) l2⟩

/-- C33, failing input: a universe of dimension 2 with one particle at (1, 2)
records the minimum position (0, 0) at its first call, and with one particle at
(-1, -2) it records the maximum position (0, 0). -/
theorem updatesExtremumValues_zero_start_witness :
    (((Universe.new 2 0 0).addParticle ⟨[1, 2]⟩ ⟨[0, 0]⟩ 1 "a").updatesExtremumValues
      sqrtExact).minPosition = ⟨[0, 0]⟩ ∧
    (((Universe.new 2 0 0).addParticle ⟨[-1, -2]⟩ ⟨[0, 0]⟩ 1 "a").updatesExtremumValues
      sqrtExact).maxPosition = ⟨[0, 0]⟩ ∧
    (((Universe.new 2 0 0).addParticle ⟨[1, 2]⟩ ⟨[0, 0]⟩ 1 "a").updatesExtremumValues
      sqrtExact).minPosition.get 0 ≤ 0 :=
  ⟨by decide!, by decide!,
    (updatesExtremumValues_zero_start sqrtExact
      ((Universe.new 2 0 0).addParticle ⟨[1, 2]⟩ ⟨[0, 0]⟩ 1 "a") rfl rfl 0
      (by decide)).2.2.1⟩

/-! ## Wall force -/

/-- Sign of `FWall` for positive `epsilon`, `sigma` and `r`: positive where
`(sigma / (2 r))^6 < 1/2`, not positive otherwise. -/
theorem FWall_sign (r epsilon sigma : ℚ) (he : 0 < epsilon) (hs : 0 < sigma) (hr : 0 < r) :
    ((sigma / r / 2) ^ 6 < 1 / 2 → 0 < FWall r epsilon sigma) ∧
    (1 / 2 ≤ (sigma / r / 2) ^ 6 → FWall r epsilon sigma ≤ 0) := by
  have hp : 0 < (sigma / r / 2) ^ 6 := by positivity
  have hc : 0 < 24 * epsilon / 2 / r := by positivity
  constructor
  · intro h
    show 0 < 24 * epsilon / 2 / r * (sigma / r / 2) ^ 6 * (1 - 2 * (sigma / r / 2) ^ 6)
    exact mul_pos (mul_pos hc hp) (by linarith)
  · intro h
    show 24 * epsilon / 2 / r * (sigma / r / 2) ^ 6 * (1 - 2 * (sigma / r / 2) ^ 6) ≤ 0
    exact mul_nonpos_of_nonneg_of_nonpos (le_of_lt (mul_pos hc hp)) (by linarith)

theorem wallsForce_fold (a b : Nat → ℚ) (ca cb : Nat → Prop) [DecidablePred ca]
    [DecidablePred cb] (l : List Nat) (t : Particle)
    (hl : ∀ i ∈ l, i < t.force.getDimension) :
    l.foldl
      (fun target i =>
        if cb i then
          (if ca i then target.addToForceCoord i (a i) else target).addToForceCoord i (b i)
        else (if ca i then target.addToForceCoord i (a i) else target)) t =
    { t with force := (l.foldl
      (fun (r : Vector) i => r.set i
        ((fun i x => x + (if ca i then a i else 0) + (if cb i then b i else 0)) i (r.get i)))
      t.force) } := by
  induction l generalizing t with
  | nil => rfl
  | cons i l ih =>
    rw [List.foldl_cons, List.foldl_cons]
    have hi : i < t.force.getDimension := hl i (List.mem_cons_self _ _)
    have hstep : (if cb i then
          (if ca i then t.addToForceCoord i (a i) else t).addToForceCoord i (b i)
        else (if ca i then t.addToForceCoord i (a i) else t)) =
        { t with force := (t.force.set i
          (t.force.get i + (if ca i then a i else 0) + (if cb i then b i else 0))) } := by
      by_cases h1 : ca i <;> by_cases h2 : cb i
      · simp only [h1, h2, if_true, Particle.addToForceCoord]
        rw [Vector.get_set _ _ _ _ hi, if_pos rfl]
        simp only [Vector.set, List.set_set]
      · simp only [h1, h2, if_true, if_false, Particle.addToForceCoord, add_zero]
      · simp only [h1, h2, if_true, if_false, Particle.addToForceCoord, add_zero]
      · simp only [h1, h2, if_false, add_zero, Vector.set_get_self]
    rw [hstep, ih]
    intro j hj
    show j < (t.force.set i _).getDimension
    rw [Vector.getDimension_set]
    exact hl j (List.mem_cons_of_mem _ hj)

/-- What `wallsForce` leaves: only the force changes, and on every axis `i` the
force receives `-FWall` of the distance to the lower wall if that distance is
below `r_cut`, and `FWall` of the distance to the upper wall if that distance is
below `r_cut`. -/
theorem wallsForce_spec (sixthRootOfTwo : ℚ) (target : Particle) (lowerBound upperBound : Vector)
    (epsilon sigma : ℚ) (hforce : target.force.getDimension = target.getDimension) :
    wallsForce sixthRootOfTwo target lowerBound upperBound epsilon sigma =
      { target with
        force := (wallsForce sixthRootOfTwo target lowerBound upperBound epsilon sigma).force } ∧
    ∀ i, i < target.getDimension →
      (wallsForce sixthRootOfTwo target lowerBound upperBound epsilon sigma).force.get i =
        target.force.get i +
        (if target.position.get i - lowerBound.get i < sigma * sixthRootOfTwo then
          -(FWall (target.position.get i - lowerBound.get i) epsilon sigma) else 0) +
        (if upperBound.get i - target.position.get i < sigma * sixthRootOfTwo then
          FWall (upperBound.get i - target.position.get i) epsilon sigma else 0) := by
  have h := wallsForce_fold
    (fun i => -(FWall (target.position.get i - lowerBound.get i) epsilon sigma))
    (fun i => FWall (upperBound.get i - target.position.get i) epsilon sigma)
    (fun i => target.position.get i - lowerBound.get i < sigma * sixthRootOfTwo)
    (fun i => upperBound.get i - target.position.get i < sigma * sixthRootOfTwo)
    (List.range target.getDimension) target
    (fun i hi => by rw [hforce]; exact List.mem_range.mp hi)
  have hw : wallsForce sixthRootOfTwo target lowerBound upperBound epsilon sigma =
      { target with force := ((List.range target.getDimension).foldl
        (fun (r : Vector) i => r.set i
          ((fun i x => x +
            (if target.position.get i - lowerBound.get i < sigma * sixthRootOfTwo then
              -(FWall (target.position.get i - lowerBound.get i) epsilon sigma) else 0) +
            (if upperBound.get i - target.position.get i < sigma * sixthRootOfTwo then
              FWall (upperBound.get i - target.position.get i) epsilon sigma else 0)) i
            (r.get i)))
        target.force) } := by
    rw [← h]
    rfl
  constructor
  · rw [hw]
  · intro i hi
    rw [hw]
    have hp := foldl_set_pointwise
      (fun i x => x +
        (if target.position.get i - lowerBound.get i < sigma * sixthRootOfTwo then
          -(FWall (target.position.get i - lowerBound.get i) epsilon sigma) else 0) +
        (if upperBound.get i - target.position.get i < sigma * sixthRootOfTwo then
          FWall (upperBound.get i - target.position.get i) epsilon sigma else 0))
      target.getDimension target.force.data (by
        show target.getDimension ≤ target.force.getDimension
        omega)
    refine Eq.trans (congrArg (fun d => d.getD i 0) hp) ?_
    show List.getD (_ ++ _) i 0 = _
    rw [List.getD_eq_getElem?_getD, List.getElem?_append_left (by simpa using hi)]
    simp only [List.getElem?_map, List.getElem?_range hi, Option.map_some', Option.getD_some]
    rfl

/-- C34: for positive `epsilon` and `sigma`, a particle whose distance `r` to the
lower wall of axis `i` satisfies `0 < r < r_cut` and `(sigma / (2 r))^6 < 1/2`
(that is, `r` above half of `sigma * 2^(1/6)`), and which is at `r_cut` or more
from the upper wall, receives from `wallsForce` on this axis the component
`-FWall(r)`, which is negative: it points to the wall. -/
theorem wallsForce_attracts_near_cutoff (sixthRootOfTwo : ℚ) (target : Particle)
    (lowerBound upperBound : Vector) (epsilon sigma : ℚ) (i : Nat)
    (hforce : target.force.getDimension = target.getDimension)
    (hi : i < target.getDimension) (he : 0 < epsilon) (hs : 0 < sigma)
    (hr : 0 < target.position.get i - lowerBound.get i)
    (hcut : target.position.get i - lowerBound.get i < sigma * sixthRootOfTwo)
    (hzone : (sigma / (target.position.get i - lowerBound.get i) / 2) ^ 6 < 1 / 2)
    (hfar : sigma * sixthRootOfTwo ≤ upperBound.get i - target.position.get i) :
    (wallsForce sixthRootOfTwo target lowerBound upperBound epsilon sigma).force.get i =
      target.force.get i - FWall (target.position.get i - lowerBound.get i) epsilon sigma ∧
    0 < FWall (target.position.get i - lowerBound.get i) epsilon sigma ∧
    (wallsForce sixthRootOfTwo target lowerBound upperBound epsilon sigma).force.get i <
      target.force.get i := by
  have h := (wallsForce_spec sixthRootOfTwo target lowerBound upperBound epsilon sigma
    hforce).2 i hi
  rw [if_pos hcut, if_neg (not_lt.mpr hfar)] at h
  have hpos := (FWall_sign _ epsilon sigma he hs hr).1 hzone
  refine ⟨by rw [h]; ring, hpos, ?_⟩
  rw [h]
  linarith

/-- C34, failing input: with `epsilon = sigma = 1` and `1.122462` for
`2^(1/6)`, a particle at `1` between the walls `0` and `10`, with no force,
receives the force `-93/512` from the lower wall, at distance `1 < r_cut`. -/
theorem wallsForce_attracts_near_cutoff_witness :
    (wallsForce (1122462 / 1000000) (Particle.new ⟨[1]⟩ ⟨[0]⟩ 1 "a" 0) ⟨[0]⟩ ⟨[10]⟩ 1
      1).force = ⟨[-93 / 512]⟩ ∧
    FWall 1 1 1 = 93 / 512 ∧
    (wallsForce (1122462 / 1000000) (Particle.new ⟨[1]⟩ ⟨[0]⟩ 1 "a" 0) ⟨[0]⟩ ⟨[10]⟩ 1
      1).force.get 0 < (Particle.new ⟨[1]⟩ ⟨[0]⟩ 1 "a" 0).force.get 0 :=
  ⟨by decide!, by decide!,
    (wallsForce_attracts_near_cutoff (1122462 / 1000000) (Particle.new ⟨[1]⟩ ⟨[0]⟩ 1 "a" 0)
      ⟨[0]⟩ ⟨[10]⟩ 1 1 0 rfl (by decide) (by decide!) (by decide!) (by decide!) (by decide!)
      (by decide!) (by decide!)).2.2⟩

/-! ## Newton's third law -/

theorem Particle.distanceTo_comm (sqrt : ℚ → ℚ) (a b : Particle)
    (h : a.getDimension = b.getDimension) : a.distanceTo sqrt b = b.distanceTo sqrt a :=
  congrArg sqrt (Vector.normSq_sub_comm b.position a.position h.symm)

/-- The vector of `gravitationalInteraction` changes sign when the particles are
exchanged. -/
theorem gravitationalVector_antisymm (sqrt : ℚ → ℚ) (a b : Particle)
    (h : a.getDimension = b.getDimension) (i : Nat) (hi : i < a.getDimension) :
    (gravitationalVector sqrt a b).get i = -(gravitationalVector sqrt b a).get i := by
  unfold gravitationalVector
  rw [Vector.get_scale, Vector.get_scale, Vector.get_sub _ _ _ hi,
    Vector.get_sub _ _ _ (show i < b.getDimension from h ▸ hi),
    Particle.distanceTo_comm sqrt b a h.symm]
  ring

/-- The vector of `lennardJonesInteraction` changes sign when the particles are
exchanged. -/
theorem lennardJonesVector_antisymm (sqrt : ℚ → ℚ) (epsilon sigma : ℚ) (a b : Particle)
    (h : a.getDimension = b.getDimension) (i : Nat) (hi : i < a.getDimension) :
    (lennardJonesVector sqrt epsilon sigma a b).get i =
      -(lennardJonesVector sqrt epsilon sigma b a).get i := by
  unfold lennardJonesVector
  rw [Vector.get_scale, Vector.get_scale, Vector.get_sub _ _ _ hi,
    Vector.get_sub _ _ _ (show i < b.getDimension from h ▸ hi),
    Particle.distanceTo_comm sqrt b a h.symm]
  ring

theorem getD_indep {α : Type} (l : List α) (s : Nat) (hs : s < l.length) (d1 d2 : α) :
    l.getD s d1 = l.getD s d2 := by
  simp [List.getD_eq_getElem?_getD, List.getElem?_eq_getElem hs]

theorem sum_map_range_eq_finset (f : Nat → ℚ) (n : Nat) :
    ((List.range n).map f).sum = ∑ t in Finset.range n, f t := by
  induction n with
  | zero => simp
  | succ k ih =>
    rw [List.range_succ, List.map_append, List.sum_append, ih, Finset.sum_range_succ]
    simp

theorem sum_map_filter_eq (l : List Nat) (c : Nat → Bool) (f : Nat → ℚ) :
    ((l.filter c).map f).sum = (l.map (fun s => if c s = true then f s else 0)).sum := by
  induction l with
  | nil => rfl
  | cons x l ih =>
    by_cases hx : c x = true
    · rw [List.filter_cons_of_pos hx, List.map_cons, List.sum_cons, ih, List.map_cons,
        List.sum_cons, if_pos hx]
    · rw [List.filter_cons_of_neg hx, ih, List.map_cons, List.sum_cons, if_neg hx, zero_add]

/-- A double sum over the ordered pairs of distinct indices of an antisymmetric
quantity is zero. -/
theorem sum_antisymm_pairs (M : Nat → Nat → ℚ) (n : Nat)
    (h : ∀ s t, s < n → t < n → s ≠ t → M s t = -M t s) :
    ((List.range n).map (fun t =>
      (((List.range n).filter (fun s => decide (s ≠ t))).map (fun s => M s t)).sum)).sum = 0 := by
  have h1 : ((List.range n).map (fun t =>
      (((List.range n).filter (fun s => decide (s ≠ t))).map (fun s => M s t)).sum)).sum =
      ∑ t in Finset.range n, ∑ s in Finset.range n, (if s ≠ t then M s t else 0) := by
    rw [sum_map_range_eq_finset]
    apply Finset.sum_congr rfl
    intro t _
    rw [sum_map_filter_eq, sum_map_range_eq_finset]
    apply Finset.sum_congr rfl
    intro s _
    simp
  rw [h1]
  have h2 : ∑ t in Finset.range n, ∑ s in Finset.range n, (if s ≠ t then M s t else 0) =
      -∑ t in Finset.range n, ∑ s in Finset.range n, (if s ≠ t then M s t else 0) := by
    conv_lhs => rw [Finset.sum_comm]
    rw [← Finset.sum_neg_distrib]
    apply Finset.sum_congr rfl
    intro s hs
    rw [← Finset.sum_neg_distrib]
    apply Finset.sum_congr rfl
    intro t ht
    by_cases hst : s = t
    · subst hst
      simp
    · have hts : t ≠ s := fun e => hst e.symm
      rw [if_pos hst, if_pos hts, h s t (Finset.mem_range.mp hs) (Finset.mem_range.mp ht) hst]
  linarith

/-- After `updateForces` without external force, with interactions that add to
the force of their target a vector that changes sign when the two particles are
exchanged, the forces of all particles sum to zero on every axis. -/
theorem Universe.updateForces_sum_zero (u : Universe) (Fs : List (Particle → Particle → Vector))
    (d : Nat) (hI : u.interactions = Fs.map additiveInteraction) (hE : u.forces = [])
    (hF : ∀ F ∈ Fs, ForceBlindInteraction F)
    (hanti : ∀ F ∈ Fs, ∀ a b : Particle, a.getDimension = b.getDimension →
      ∀ i, i < a.getDimension → (F a b).get i = -(F b a).get i)
    (hdim : ∀ p ∈ u.particles, p.getDimension = d ∧ p.force.getDimension = d)
    (i : Nat) (hi : i < d) :
    (u.updateForces.particles.map (fun p => p.force.get i)).sum = 0 := by
  obtain ⟨hlen, hpart, _⟩ := Universe.updateForces_spec u Fs [] hI hE hF
    (fun G hG => absurd hG (List.not_mem_nil _))
    (fun p hp => by rw [(hdim p hp).2, (hdim p hp).1])
  cases hps : u.particles with
  | nil =>
    rw [hps] at hlen
    rw [List.length_eq_zero.mp hlen]
    rfl
  | cons q0 rest =>
    have hget : ∀ t, t < u.particles.length →
        u.particles[t]? = some (u.particles.getD t q0) := by
      intro t ht
      rw [List.getD_eq_getElem?_getD, List.getElem?_eq_getElem ht]
      rfl
    rw [map_eq_map_range_getD _ _ q0, hlen]
    have hterm : ∀ t, t < u.particles.length →
        (u.updateForces.particles.getD t q0).force.get i =
          (Fs.map (fun F =>
            (((List.range u.particles.length).filter (fun s => decide (s ≠ t))).map
              (fun s => (F (u.particles.getD s q0) (u.particles.getD t q0)).get i)).sum)).sum := by
      intro t ht
      obtain ⟨fo, hfo, _, hsum⟩ := hpart t _ (hget t ht)
      have hmem : u.particles.getD t q0 ∈ u.particles :=
        List.mem_iff_getElem?.mpr ⟨t, hget t ht⟩
      rw [List.getD_eq_getElem?_getD, hfo]
      show fo.get i = _
      rw [hsum i (by rw [(hdim _ hmem).1]; exact hi)]
      simp only [List.map_nil, List.sum_nil, zero_add]
      congr 1
      apply List.map_congr_left
      intro F _
      congr 1
      apply List.map_congr_left
      intro s hs
      have hs2 : s < u.particles.length := List.mem_range.mp (List.mem_filter.mp hs).1
      rw [getD_indep _ _ hs2 _ q0]
    rw [List.map_congr_left (fun t ht => hterm t (List.mem_range.mp ht))]
    clear hterm hpart
    generalize hn : u.particles.length = n
    have hP : ∀ s, s < n → (u.particles.getD s q0).getDimension = d := by
      intro s hs
      exact (hdim _ (List.mem_iff_getElem?.mpr ⟨s, hget s (hn ▸ hs)⟩)).1
    clear hget hlen hI
    induction Fs with
    | nil => simp
    | cons F Fs ih =>
      simp only [List.map_cons, List.sum_cons]
      rw [List.sum_map_add]
      have h0 := sum_antisymm_pairs
        (fun s t => (F (u.particles.getD s q0) (u.particles.getD t q0)).get i) n
        (fun s t hs ht _ => hanti F (List.mem_cons_self _ _) _ _
          ((hP s hs).trans (hP t ht).symm) i (by rw [hP s hs]; exact hi))
      rw [h0, zero_add]
      exact ih (fun G hG => hF G (List.mem_cons_of_mem _ hG))
        (fun G hG => hanti G (List.mem_cons_of_mem _ hG))

/-- C40: for particles `a`, `b` of the same dimension at distinct positions,
whose forces have that dimension, the vector that `gravitationalInteraction`
adds to the force of `b` with source `a` is the negative of the one it adds to
the force of `a` with source `b`, and likewise for `lennardJonesInteraction`.
In a universe without external force whose interactions are of these two
kinds and whose particles have pairwise distinct positions, the forces of all
particles after `updateForces` sum to zero on every axis. -/
theorem newton_third_law (sqrt : ℚ → ℚ) (u : Universe) (d : Nat)
    (hI : ∀ I ∈ u.interactions, I = ⟨gravitationalInteraction sqrt⟩ ∨
      ∃ epsilon sigma : ℚ, I =
        ⟨fun source target => lennardJonesInteraction sqrt source target epsilon sigma⟩)
    (hE : u.forces = [])
    (hdim : ∀ p ∈ u.particles, p.getDimension = d ∧ p.force.getDimension = d)
    (_hne : u.particles.Pairwise (fun a b => a.position ≠ b.position)) :
    (∀ a b : Particle, a.getDimension = d → b.getDimension = d →
      a.force.getDimension = d → b.force.getDimension = d → a.position ≠ b.position →
      ∀ (epsilon sigma : ℚ) (i : Nat), i < d →
        (gravitationalInteraction sqrt a b).force.get i - b.force.get i =
          -((gravitationalInteraction sqrt b a).force.get i - a.force.get i) ∧
        (lennardJonesInteraction sqrt a b epsilon sigma).force.get i - b.force.get i =
          -((lennardJonesInteraction sqrt b a epsilon sigma).force.get i - a.force.get i)) ∧
    (∀ i, i < d → (u.updateForces.particles.map (fun p => p.force.get i)).sum = 0) := by
  constructor
  · intro a b ha hb hfa hfb _ epsilon sigma i hi
    have hab : a.getDimension = b.getDimension := ha.trans hb.symm
    have hia : i < a.getDimension := by omega
    have hib : i < b.getDimension := by omega
    constructor
    · show (b.force.add (gravitationalVector sqrt a b)).get i - b.force.get i =
        -((a.force.add (gravitationalVector sqrt b a)).get i - a.force.get i)
      rw [Vector.get_add _ _ _ (by omega), Vector.get_add _ _ _ (by omega),
        gravitationalVector_antisymm sqrt a b hab i hia]
      ring
    · show (b.force.add (lennardJonesVector sqrt epsilon sigma a b)).get i - b.force.get i =
        -((a.force.add (lennardJonesVector sqrt epsilon sigma b a)).get i - a.force.get i)
      rw [Vector.get_add _ _ _ (by omega), Vector.get_add _ _ _ (by omega),
        lennardJonesVector_antisymm sqrt epsilon sigma a b hab i hia]
      ring
  · have hFs : ∀ l : List Interaction,
        (∀ I ∈ l, I = ⟨gravitationalInteraction sqrt⟩ ∨
          ∃ epsilon sigma : ℚ, I =
            ⟨fun source target => lennardJonesInteraction sqrt source target epsilon sigma⟩) →
        ∃ Fs : List (Particle → Particle → Vector), l = Fs.map additiveInteraction ∧
          ∀ F ∈ Fs, F = gravitationalVector sqrt ∨
            ∃ epsilon sigma : ℚ, F = lennardJonesVector sqrt epsilon sigma := by
      intro l
      induction l with
      | nil => exact fun _ => ⟨[], rfl, fun F hF => absurd hF (List.not_mem_nil _)⟩
      | cons I l ih =>
        intro h
        obtain ⟨Fs, hl, hFs⟩ := ih (fun J hJ => h J (List.mem_cons_of_mem _ hJ))
        rcases h I (List.mem_cons_self _ _) with hg | ⟨epsilon, sigma, hlj⟩
        · refine ⟨gravitationalVector sqrt :: Fs, ?_, ?_⟩
          · rw [hg, hl]
            rfl
          · intro F hF
            rcases List.mem_cons.mp hF with e | hmem
            · exact Or.inl e
            · exact hFs F hmem
        · refine ⟨lennardJonesVector sqrt epsilon sigma :: Fs, ?_, ?_⟩
          · rw [hlj, hl]
            rfl
          · intro F hF
            rcases List.mem_cons.mp hF with e | hmem
            · exact Or.inr ⟨epsilon, sigma, e⟩
            · exact hFs F hmem
    obtain ⟨Fs, hl, hkind⟩ := hFs u.interactions hI
    intro i hi
    refine Universe.updateForces_sum_zero u Fs d hl hE ?_ ?_ hdim i hi
    · intro F hF
      rcases hkind F hF with e | ⟨epsilon, sigma, e⟩
      · subst e
        intro source target fs ft
        rfl
      · subst e
        intro source target fs ft
        rfl
    · intro F hF a b hab j hj
      rcases hkind F hF with e | ⟨epsilon, sigma, e⟩
      · subst e
        exact gravitationalVector_antisymm sqrt a b hab j hj
      · subst e
        exact lennardJonesVector_antisymm sqrt epsilon sigma a b hab j hj

/-- C40, witness: three particles at `(0, 0)`, `(3, 0)` and `(0, 4)` of masses 1,
2 and 3 with both interactions: the forces after `updateForces` sum to zero on
both axes, and the Lennard-Jones vectors of the first two particles are
opposite. -/
theorem newton_third_law_witness :
    (∀ i, i < 2 → (mixedTriple.updateForces.particles.map (fun p => p.force.get i)).sum = 0) ∧
    mixedTriple.updateForces.particles.map (fun p => p.force.data) =
      [[425810 / 531441, 285 / 1024],
       [-3103975100031116 / 3243658447265625, 1267088568 / 6103515625],
       [950316426 / 6103515625, -3037000646757 / 6250000000000]] ∧
    (lennardJonesInteraction sqrtPos (Particle.new ⟨[0, 0]⟩ ⟨[0, 0]⟩ 1 "a" 0)
      (Particle.new ⟨[3, 0]⟩ ⟨[0, 0]⟩ 2 "b" 1) 1 2).force.data = [-307712 / 531441, 0] ∧
    (lennardJonesInteraction sqrtPos (Particle.new ⟨[3, 0]⟩ ⟨[0, 0]⟩ 2 "b" 1)
      (Particle.new ⟨[0, 0]⟩ ⟨[0, 0]⟩ 1 "a" 0) 1 2).force.data = [307712 / 531441, 0] :=
  ⟨(newton_third_law sqrtPos mixedTriple 2
      (by
        intro I hI
        have hI2 : I ∈ [(⟨gravitationalInteraction sqrtPos⟩ : Interaction),
            ⟨fun source target => lennardJonesInteraction sqrtPos source target 1 2⟩] := hI
        simp only [List.mem_cons, List.mem_singleton, List.not_mem_nil, or_false] at hI2
        rcases hI2 with e | e
        · exact Or.inl e
        · exact Or.inr ⟨1, 2, e⟩)
      rfl (by decide!) (by decide!)).2,
    by decide!, by decide!, by decide!⟩

/-! ## Neighbour lists of the intern cells -/

theorem grid3x3_new : GriddedUniverse.new ⟨[0, 0]⟩ ⟨[3, 3]⟩ 1 0 0 = some grid3x3 :=
  Option.eq_some_getD_of_isSome _ _ (by decide!)

theorem grid1x1_new : GriddedUniverse.new ⟨[0, 0]⟩ ⟨[1, 1]⟩ 1 0 0 = some grid1x1 :=
  Option.eq_some_getD_of_isSome _ _ (by decide!)

/-- In a constructed universe two positions whose cells have the same
coordinates are equal. -/
theorem GriddedUniverse.position_inj_new {lb ub : Vector} {side mf : ℚ} {pc : Int}
    {u : GriddedUniverse} (hnew : GriddedUniverse.new lb ub side mf pc = some u)
    (j1 j2 : Nat) (h1 : j1 < u.internCells.length) (h2 : j2 < u.internCells.length)
    (h : (u.internCells.getD j1 (InternCell.new [])).coordinates =
      (u.internCells.getD j2 (InternCell.new [])).coordinates) : j1 = j2 := by
  have hnd := (internCells_enumeration_aux hnew).1
  have e1 : (u.internCells.map (fun c => c.coordinates))[j1]? =
      some (u.internCells.getD j1 (InternCell.new [])).coordinates := by
    simp [List.getD_eq_getElem?_getD, List.getElem?_eq_getElem h1]
  have e2 : (u.internCells.map (fun c => c.coordinates))[j2]? =
      some (u.internCells.getD j2 (InternCell.new [])).coordinates := by
    simp [List.getD_eq_getElem?_getD, List.getElem?_eq_getElem h2]
  rw [h, ← e2] at e1
  have hl1 : j1 < (u.internCells.map (fun c => c.coordinates)).length := by simpa using h1
  have hl2 : j2 < (u.internCells.map (fun c => c.coordinates)).length := by simpa using h2
  rw [List.getElem?_eq_getElem hl1, List.getElem?_eq_getElem hl2] at e1
  exact (List.Nodup.getElem_inj_iff hnd).mp (Option.some.inj e1)

/-- C36: after construction, the neighbour list of the intern cell at position
`a` has no repetition and holds exactly the positions `b ≠ a` of the intern
cells whose coordinates differ from its own by at most 1 on every axis; these
cells have other coordinates than the cell itself.  If the cell has a cell on
each side on every axis, the list has `3^d - 1` entries, where `d` is the
number of axes; the only cell of a single-cell grid has no neighbour. -/
theorem internCell_neighbours_chebyshev {lb ub : Vector} {side mf : ℚ} {pc : Int}
    {u : GriddedUniverse} (hnew : GriddedUniverse.new lb ub side mf pc = some u)
    (a : Nat) (cellA : InternCell) (ha : u.internCells[a]? = some cellA) :
    cellA.neighbours.Nodup ∧
    (∀ b, b ∈ cellA.neighbours ↔ b < u.internCells.length ∧ b ≠ a ∧
      ∀ i, i < u.dimensions.length →
        |cellA.coordinates.getD i 0 -
          (u.internCells.getD b (InternCell.new [])).coordinates.getD i 0| ≤ 1) ∧
    (∀ b, b ∈ cellA.neighbours →
      (u.internCells.getD b (InternCell.new [])).coordinates ≠ cellA.coordinates) ∧
    ((∀ i, i < u.dimensions.length → 1 ≤ cellA.coordinates.getD i 0 ∧
        cellA.coordinates.getD i 0 + 1 < u.dimensions.getD i 0) →
      cellA.neighbours.length = 3 ^ u.dimensions.length - 1) ∧
    (u.internCells.length = 1 → cellA.neighbours = []) := by
  have hnb := GriddedUniverse.neighbours_new hnew a cellA ha
  have hlenA := GriddedUniverse.length_coordinates_new hnew a cellA ha
  have halt : a < u.internCells.length := (List.getElem?_eq_some_iff.mp ha).1
  have hgetA : u.internCells.getD a (InternCell.new []) = cellA := by
    simp [List.getD_eq_getElem?_getD, ha]
  have hnd : cellA.neighbours.Nodup := by
    rw [hnb]
    exact (List.nodup_range _).filter _
  have hiff : ∀ b, b ∈ cellA.neighbours ↔ b < u.internCells.length ∧ b ≠ a ∧
      ∀ i, i < u.dimensions.length →
        |cellA.coordinates.getD i 0 -
          (u.internCells.getD b (InternCell.new [])).coordinates.getD i 0| ≤ 1 := by
    intro b
    rw [hnb, List.mem_filter, List.mem_range, Bool.and_eq_true, areNeighbours_iff, hlenA]
    simp only [Bool.not_eq_true', decide_eq_false_iff_not]
  have hother : ∀ b, b ∈ cellA.neighbours →
      (u.internCells.getD b (InternCell.new [])).coordinates ≠ cellA.coordinates := by
    intro b hb hco
    obtain ⟨hbl, hba, _⟩ := (hiff b).mp hb
    rw [← hgetA] at hco
    exact hba (GriddedUniverse.position_inj_new hnew b a hbl halt hco)
  refine ⟨hnd, hiff, hother, ?_, ?_⟩
  · intro hin
    have hrangeA : ∀ i, i < u.dimensions.length →
        0 ≤ cellA.coordinates.getD i 0 ∧ cellA.coordinates.getD i 0 < u.dimensions.getD i 0 := by
      intro i hi
      have := GriddedUniverse.coordinates_range_new hnew a halt i hi
      rw [hgetA] at this
      exact this
    have hanot : a ∉ cellA.neighbours := fun h => ((hiff a).mp h).2.1 rfl
    have hnd2 : (a :: cellA.neighbours).Nodup := List.nodup_cons.mpr ⟨hanot, hnd⟩
    have hlt : ∀ j, j ∈ a :: cellA.neighbours → j < u.internCells.length := by
      intro j hj
      rcases List.mem_cons.mp hj with e | hm
      · rw [e]; exact halt
      · exact ((hiff j).mp hm).1
    have hS : ((a :: cellA.neighbours).map
        (fun j => (u.internCells.getD j (InternCell.new [])).coordinates)).Nodup := by
      refine List.Nodup.map_on ?_ hnd2
      intro x hx y hy hxy
      exact GriddedUniverse.position_inj_new hnew x y (hlt x hx) (hlt y hy) hxy
    have hB : (enumWith (fun i => [cellA.coordinates.getD i 0 - 1, cellA.coordinates.getD i 0,
        cellA.coordinates.getD i 0 + 1]) u.dimensions.length
          (List.replicate u.dimensions.length 0)).Nodup := by
      refine nodup_enumWith _ _ _ (by simp) (fun i _ => ?_)
      simp only [List.nodup_cons, List.mem_cons, List.mem_singleton, List.not_mem_nil,
        List.nodup_nil, not_false_eq_true, and_true, not_or]
      omega
    have hperm := (List.perm_ext_iff_of_nodup hS hB).mpr (by
      intro tup
      rw [mem_enumWith _ _ _ _ (by simp), List.mem_map]
      simp only [List.length_replicate]
      constructor
      · rintro ⟨j, hj, rfl⟩
        have hjl := hlt j hj
        have hjget : u.internCells[j]? = some (u.internCells.getD j (InternCell.new [])) := by
          simp [List.getD_eq_getElem?_getD, List.getElem?_eq_getElem hjl]
        have hjlen := GriddedUniverse.length_coordinates_new hnew j _ hjget
        have hnear : ∀ i, i < u.dimensions.length →
            |cellA.coordinates.getD i 0 -
              (u.internCells.getD j (InternCell.new [])).coordinates.getD i 0| ≤ 1 := by
          rcases List.mem_cons.mp hj with e | hm
          · intro i _
            rw [e, hgetA]
            simp
          · exact ((hiff j).mp hm).2.2
        refine ⟨hjlen, fun i hi => ?_, fun i hi => ?_⟩
        · refine ⟨(u.internCells.getD j (InternCell.new [])).coordinates.getD i 0, ?_,
            (getElem?_eq_some_iff_getD (by omega) _).mpr rfl⟩
          have := hnear i hi
          rw [abs_le] at this
          simp only [List.mem_cons, List.mem_singleton, List.not_mem_nil, or_false]
          omega
        · rw [List.getElem?_eq_none (by omega), List.getElem?_eq_none (by simp; omega)]
      · rintro ⟨h1, h2, _⟩
        have hval : ∀ i, i < u.dimensions.length →
            tup.getD i 0 = cellA.coordinates.getD i 0 - 1 ∨
            tup.getD i 0 = cellA.coordinates.getD i 0 ∨
            tup.getD i 0 = cellA.coordinates.getD i 0 + 1 := by
          intro i hi
          obtain ⟨v, hv, hvi⟩ := h2 i hi
          rw [getElem?_eq_some_iff_getD (by omega)] at hvi
          rw [hvi]
          simpa using hv
        obtain ⟨j, hj, hco⟩ := GriddedUniverse.exists_position_new hnew tup h1 (by
          intro i hi
          have := hval i hi
          have := hin i hi
          omega)
        refine ⟨j, ?_, hco⟩
        by_cases hja : j = a
        · rw [hja]
          exact List.mem_cons_self _ _
        · refine List.mem_cons_of_mem _ ((hiff j).mpr ⟨hj, hja, fun i hi => ?_⟩)
          rw [hco, abs_le]
          have := hval i hi
          omega)
    have hlen := hperm.length_eq
    rw [List.length_map, List.length_cons, length_enumWith] at hlen
    simp only [List.length_cons, List.length_nil, List.map_const', List.length_range,
      List.prod_replicate, Nat.zero_add, Nat.reduceAdd] at hlen
    omega
  · intro hone
    apply List.eq_nil_of_length_eq_zero
    rcases Nat.eq_zero_or_pos cellA.neighbours.length with h | h
    · exact h
    · obtain ⟨b, hb⟩ := List.exists_mem_of_length_pos h
      obtain ⟨hbl, hba, _⟩ := (hiff b).mp hb
      omega

/-- C36, witness: in the grid of 3 x 3 cells the cell at position 4, of
coordinates (1, 1), has the 8 other cells as neighbours; in the grid of one
cell the cell has none. -/
theorem internCell_neighbours_chebyshev_witness :
    grid3x3.internCells[4]?.map (fun c => (c.coordinates, c.neighbours)) =
      some ([1, 1], [0, 1, 2, 3, 5, 6, 7, 8]) ∧
    (∀ cell, grid3x3.internCells[4]? = some cell → cell.neighbours.length = 3 ^ 2 - 1) ∧
    grid1x1.internCells.map (fun c => c.neighbours) = [[]] := by
  refine ⟨by decide!, ?_, by decide!⟩
  intro cell hcell
  have h := internCell_neighbours_chebyshev grid3x3_new 4 cell hcell
  have hc : cell = (grid3x3.internCells.getD 4 (InternCell.new [])) := by
    rw [List.getD_eq_getElem?_getD, hcell]
    rfl
  have hd : grid3x3.dimensions.length = 2 := by decide!
  rw [← hd]
  apply h.2.2.2.1
  rw [hc]
  decide!

/-! ## Frame of the periodic ghost pass -/

theorem foldl_preserves {α σ : Type} (P : σ → Prop) (f : σ → α → σ) (l : List α)
    (h : ∀ st a, a ∈ l → P st → P (f st a)) (st : σ) (h0 : P st) : P (l.foldl f st) := by
  induction l generalizing st with
  | nil => exact h0
  | cons a as ih =>
    rw [List.foldl_cons]
    exact ih (fun st b hb => h st b (List.mem_cons_of_mem _ hb)) _
      (h st a (List.mem_cons_self _ _) h0)

/-- A property kept by every call on a target that is in a neighbour cell of a
border cell is kept by the loops of `applyForeignNeighboursForces`. -/
theorem GriddedUniverse.applyForeignNeighboursForcesWith_preserves {σ : Type}
    (act : σ → Nat → Particle → Nat → σ) (u : GriddedUniverse) (P : σ → Prop)
    (hact : ∀ st k source target,
      (∃ e ∈ u.externBorderCells, ∃ j ∈ e.neighbours, ∃ nb,
        u.internCells[j]? = some nb ∧ target ∈ nb.particles) →
      P st → P (act st k source target))
    (st : σ) (h0 : P st) : P (u.applyForeignNeighboursForcesWith act st) := by
  unfold GriddedUniverse.applyForeignNeighboursForcesWith
  refine foldl_preserves P _ _ ?_ st h0
  intro st e he hst
  unfold ExternBorderCell.applyForceOnNeighbours
  refine foldl_preserves P _ _ ?_ st hst
  intro st j hj hst
  cases hnb : u.internCells[j]? with
  | none => exact hst
  | some nb =>
    refine foldl_preserves P _ _ ?_ st hst
    intro st p hp hst
    unfold ExternBorderCell.applyForceOnParticle
    refine foldl_preserves P _ _ ?_ st hst
    intro st cellParticle _ hst
    unfold applyInteractionForcesOn
    refine foldl_preserves P _ _ ?_ st hst
    intro st k _ hst
    exact hact st k cellParticle p ⟨e, he, j, hj, nb, hnb, hp⟩ hst

/-- C35: with interactions that change at most the force of their target,
`GriddedUniverse::applyForeignNeighboursForces` leaves the intern cells and the
border cells with their copies as they are, keeps the number of particles,
changes at most the force of each particle, and leaves unchanged every particle
that is in no neighbour cell of a border cell. -/
theorem ghost_pass_frame (u : GriddedUniverse)
    (hI : ∀ I ∈ u.interactions, ∀ source target : Particle,
      I.interactionFunction source target =
        { target with force := (I.interactionFunction source target).force }) :
    u.applyForeignNeighboursForces.internCells = u.internCells ∧
    u.applyForeignNeighboursForces.externBorderCells = u.externBorderCells ∧
    u.applyForeignNeighboursForces.particles.length = u.particles.length ∧
    (∀ (t : Nat) (p : Particle), u.particles[t]? = some p →
      ∃ fo, u.applyForeignNeighboursForces.particles[t]? = some { p with force := fo }) ∧
    (∀ (t : Nat) (p : Particle), u.particles[t]? = some p →
      (¬ ∃ e ∈ u.externBorderCells, ∃ j ∈ e.neighbours, ∃ nb,
        u.internCells[j]? = some nb ∧ t ∈ nb.particles) →
      u.applyForeignNeighboursForces.particles[t]? = some p) := by
  have h := GriddedUniverse.applyForeignNeighboursForcesWith_preserves
    (interactOnStore u.interactions) u
    (fun ps => ps.length = u.particles.length ∧
      ∀ (t : Nat) (p : Particle), u.particles[t]? = some p →
        (∃ fo, ps[t]? = some { p with force := fo }) ∧
        ((¬ ∃ e ∈ u.externBorderCells, ∃ j ∈ e.neighbours, ∃ nb,
          u.internCells[j]? = some nb ∧ t ∈ nb.particles) → ps[t]? = some p))
    (by
      intro ps k source target htarget hps
      obtain ⟨hlen, hall⟩ := hps
      unfold interactOnStore
      cases hk : u.interactions[k]? with
      | none => exact ⟨hlen, hall⟩
      | some I =>
        cases ht : ps[target]? with
        | none => exact ⟨hlen, hall⟩
        | some tgt =>
          have htl : target < ps.length := (List.getElem?_eq_some_iff.mp ht).1
          refine ⟨by simp only [List.length_set]; exact hlen, ?_⟩
          intro t p hp
          obtain ⟨⟨fo, hfo⟩, hkeep⟩ := hall t p hp
          by_cases htt : target = t
          · subst htt
            simp only
            rw [List.getElem?_set_self htl]
            refine ⟨⟨(I.interactionFunction source tgt).force, ?_⟩,
              fun hn => absurd htarget hn⟩
            rw [hI I (List.getElem?_mem hk) source tgt]
            rw [ht] at hfo
            rw [Option.some.inj hfo]
          · simp only
            rw [List.getElem?_set_ne htt]
            exact ⟨⟨fo, hfo⟩, hkeep⟩)
    u.particles
    ⟨rfl, fun t p hp => ⟨⟨p.force, hp⟩, fun _ => hp⟩⟩
  exact ⟨rfl, rfl, h.1, fun t p hp => (h.2 t p hp).1, fun t p hp => (h.2 t p hp).2⟩

/-- C35, witness: on the periodic line of three cells the pass changes the
forces of `a` and `b`, which are in the neighbour cells of the two border
cells, and leaves `m`, the cells and the copies as they are. -/
theorem ghost_pass_frame_witness :
    periodicTriple.applyForeignNeighboursForces.externBorderCells =
      periodicTriple.externBorderCells ∧
    periodicTriple.externBorderCells.map
      (fun e => (e.neighbours, e.particles.map (fun p => (p.position.data, p.force.data)))) =
      [([0], [([-1 / 4], [0])]), ([2], [([13 / 4], [0])])] ∧
    periodicTriple.particles.map (fun p => (p.position.data, p.force.data)) =
      [([1 / 4], [0]), ([11 / 4], [0]), ([3 / 2], [0])] ∧
    periodicTriple.applyForeignNeighboursForces.particles.map
      (fun p => (p.position.data, p.force.data)) =
      [([1 / 4], [-1 / 2]), ([11 / 4], [1 / 2]), ([3 / 2], [0])] :=
  ⟨(ghost_pass_frame periodicTriple (by
      intro I hI source target
      have hnil : periodicTripleBare.interactions = [] :=
        List.eq_nil_of_length_eq_zero (by decide!)
      have hI2 : I ∈ periodicTripleBare.interactions ++ [(⟨cutoffInteraction 1⟩ : Interaction)] :=
        hI
      rw [hnil, List.nil_append, List.mem_singleton] at hI2
      subst hI2
      show cutoffInteraction 1 source target = _
      unfold cutoffInteraction
      simp only
      split_ifs <;> rfl)).2.1,
    by decide!, by decide!, by decide!⟩

/-! ## Rounding to `double` -/

/-- C3, evaluation: the universe on `[-(1 - 2^-53), 2]` with cell side 1 has three
cells.  The positions `2^-55` and `1` are inside the bounds, at distance
`1 - 2^-55`, below the cell side, but `correspondingCellCoordonates` gives them
the coordinates 0 and 2: the difference `1 - lowerBound = 2 - 2^-53` rounds to
`2`.  After filling the cells the gridded pass makes no call and leaves both
forces at zero, while the all-pairs pass applies the interaction. -/
theorem correspondingCellCoordonates_two_apart :
    roundedLine.map (fun u => (u.dimensions, u.cellSide,
      u.particles.map (fun p => p.position.isInBounds u.lowerBound u.upperBound))) =
      some ([3], 1, [true, true]) ∧
    ((Vector.mk [1]).sub (Vector.mk [1 / 2 ^ 55])).normSq < 1 * 1 ∧
    roundedLine.map (fun u =>
      u.particles.map (fun p => u.correspondingCellCoordonates p.position)) =
      some [[0], [2]] ∧
    roundedLine.map (fun u =>
      (u.correspondingCellCoordonates ⟨[0]⟩, u.correspondingCellCoordonates ⟨[1]⟩)) =
      some ([0], [2]) ∧
    ((1 : ℚ) - -(1 - 1 / 2 ^ 53) < 2 ∧ roundDouble ((1 : ℚ) - -(1 - 1 / 2 ^ 53)) = 2) ∧
    (roundedLine.bind (fun u => u.clearCells.fillCells)).map
        (fun u => u.internCells.map (fun c => (c.coordinates, c.neighbours, c.particles))) =
      some [([0], [1], [0]), ([1], [0, 2], []), ([2], [1], [1])] ∧
    (roundedLine.bind (fun u => u.clearCells.fillCells)).map
        (fun u => u.applyInternInterractionsForcesCalls) = some [] ∧
    (roundedLine.bind (fun u => u.clearCells.fillCells)).map
        (fun u => u.applyInternInterractionsForces.particles.map (fun p => p.force.data)) =
      some [[0], [0]] ∧
    (roundedLine.bind (fun u => u.clearCells.fillCells)).map
        (fun u => u.toUniverse.applyInteractionForces.particles.map (fun p => p.force.data)) =
      some [[1 - 1 / 2 ^ 55], [-(1 - 1 / 2 ^ 55)]] := by
  refine ⟨by decide!, by decide!, by decide!, by decide!, ⟨by decide!, by decide!⟩, by decide!,
    by decide!, by decide!, by decide!⟩

/-- C10, evaluation: with the bounds `[0, 0.9]` and the cell side `0.3` (the
`double` nearest to each decimal number) the quotient computed by
`cellsCreation` rounds to `3`, so that 3 cells are created although
`3 * cellSide < extent` and the ceiling of the exact quotient is 4; the
position just below the upper bound, inside the bounds, gets the cell
coordinate 3, which designates no cell, and filling the cells has no defined
result.  With the bounds `[0, 2^31]` and cell side 1 the ceiling is `2^31`, but
the count stored after the narrowing to `int` is `-2^31` and no cell is
created. -/
theorem cellCount_not_ceil :
    (roundDouble (9 / 10) = 8106479329266893 / 2 ^ 53 ∧
      roundDouble (3 / 10) = 5404319552844595 / 2 ^ 54) ∧
    roundDouble (roundDouble (roundDouble (9 / 10) - 0) / roundDouble (3 / 10)) = 3 ∧
    GriddedUniverse.cellCount ⟨[0]⟩ ⟨[roundDouble (9 / 10)]⟩ (roundDouble (3 / 10)) 0 = 3 ∧
    ⌈(roundDouble (9 / 10) - 0) / roundDouble (3 / 10)⌉ = 4 ∧
    3 * roundDouble (3 / 10) < roundDouble (9 / 10) - 0 ∧
    shortGrid.map (fun u => (u.dimensions, u.internCells.length)) = some ([3], 3) ∧
    shortGrid.map (fun u => u.particles.map (fun p =>
      (p.position.isInBounds u.lowerBound u.upperBound,
        decide (p.position.get 0 = u.upperBound.get 0),
        u.correspondingCellCoordonates p.position))) = some [(true, false, [3])] ∧
    shortGrid.map (fun u => u.clearCells.fillCells.isSome) = some false ∧
    (⌈((Vector.mk [2147483648]).get 0 - (Vector.mk [0]).get 0) / 1⌉ = 2147483648 ∧
      GriddedUniverse.cellCount ⟨[0]⟩ ⟨[2147483648]⟩ 1 0 = -2147483648 ∧
      (GriddedUniverse.new ⟨[0]⟩ ⟨[2147483648]⟩ 1 0 0).map
        (fun u => (u.dimensions, u.internCells.length)) = some ([-2147483648], 0)) := by
  refine ⟨⟨by decide!, by decide!⟩, by decide!, by decide!, by decide!, by decide!, by decide!,
    by decide!, by decide!, by decide!, by decide!, by decide!⟩

/-! ## The reflection loop in `double` arithmetic -/

/-- Between the bounds 0 and 1 the reflection loop started at `2^55` or at
`-2^55` has not ended after any number of iterations: the two coordinates
follow each other. -/
theorem FiniteUniverse.reflectLoop_runaway (i fuel : Nat) (p : Particle) :
    FiniteUniverse.reflectLoop 0 1 i fuel (2 ^ 55) p = none ∧
    FiniteUniverse.reflectLoop 0 1 i fuel (-2 ^ 55) p = none := by
  have hup : (2 : ℚ) ^ 55 < 0 ∨ (2 : ℚ) ^ 55 > 1 := Or.inr (by norm_num)
  have hlow2 : -(2 : ℚ) ^ 55 < 0 ∨ -(2 : ℚ) ^ 55 > 1 := Or.inl (by norm_num)
  have hnl : ¬ (2 : ℚ) ^ 55 < 0 := by norm_num
  have hl : -(2 : ℚ) ^ 55 < 0 := by norm_num
  have e1 : roundDouble (roundDouble (2 * 1) - 2 ^ 55) = -2 ^ 55 := by decide!
  have e2 : roundDouble (roundDouble (2 * 0) - -2 ^ 55) = 2 ^ 55 := by decide!
  induction fuel generalizing p with
  | zero =>
    constructor
    · rw [FiniteUniverse.reflectLoop, if_pos hup]
    · rw [FiniteUniverse.reflectLoop, if_pos hlow2]
  | succ f ih =>
    constructor
    · rw [FiniteUniverse.reflectLoop, if_pos hup]
      simp only [if_neg hnl]
      rw [e1]
      exact (ih _).2
    · rw [FiniteUniverse.reflectLoop, if_pos hlow2]
      simp only [if_pos hl]
      rw [e2]
      exact (ih _).1

theorem mapM_none_of_mem {α β : Type} (f : α → Option β) (l : List α) (a : α) (ha : a ∈ l)
    (h : f a = none) : l.mapM f = none := by
  induction l with
  | nil => cases ha
  | cons b l ih =>
    rw [List.mapM_cons]
    rcases List.mem_cons.mp ha with e | hmem
    · rw [← e, h]
      rfl
    · rw [ih hmem]
      cases f b <;> rfl

/-- A finite universe on the segment `[0, 1]` that holds a particle at `2^55`:
`reflectOutOfBoundsParticles` has not returned after any number of iterations
of its loop. -/
theorem FiniteUniverse.reflectOutOfBoundsParticles_runaway (u : FiniteUniverse)
    (hd : u.dimension = 1) (hl : u.lowerBound.get 0 = 0) (hu : u.upperBound.get 0 = 1)
    (q : Particle) (hq : q ∈ u.particles) (hx : q.position.get 0 = 2 ^ 55) (fuel : Nat) :
    u.reflectOutOfBoundsParticles fuel = none := by
  unfold FiniteUniverse.reflectOutOfBoundsParticles
  rw [mapM_none_of_mem _ _ q hq]
  · rfl
  · unfold FiniteUniverse.reflectParticle
    rw [hd]
    show (do
      let p ← FiniteUniverse.reflectLoop (u.lowerBound.get 0) (u.upperBound.get 0) 0 fuel
        (q.position.get 0) q
      List.foldlM _ p []) = none
    rw [hl, hu, hx, (FiniteUniverse.reflectLoop_runaway 0 fuel q).1]
    rfl

theorem FiniteUniverse.handleOutOfBoundsParticles_of_reflexion (w : FiniteUniverse)
    (h : w.oobbehavior = OOBBehavior.REFLEXION) (fuel : Nat) :
    w.handleOutOfBoundsParticles fuel = w.reflectOutOfBoundsParticles fuel := by
  unfold FiniteUniverse.handleOutOfBoundsParticles
  rw [h]

theorem runawayMoved_never_returns (fuel : Nat) :
    runawayMoved.reflectOutOfBoundsParticles fuel = none :=
  FiniteUniverse.reflectOutOfBoundsParticles_runaway runawayMoved rfl (by decide!) (by decide!)
    { Particle.new ⟨[0]⟩ ⟨[2 ^ 55]⟩ 1 "b" 1 with position := ⟨[2 ^ 55]⟩ }
    (by decide!) (by decide!) fuel

/-- C39: between the bounds 0 and 1, the mirroring loop of
`reflectOutOfBoundsParticles` started at the coordinate `2^55` never exits.
The mirror image `2*1 - 2^55` is not a `double` and rounds to `-2^55`, whose
mirror image about 0 is `2^55` again, so that no number of iterations brings
the coordinate inside the bounds. -/
theorem reflectLoop_never_exits :
    (0 : ℚ) < 1 ∧
    (∀ (i fuel : Nat) (p : Particle),
      FiniteUniverse.reflectLoop 0 1 i fuel (2 ^ 55) p = none) ∧
    roundDouble (2 ^ 55) = 2 ^ 55 ∧
    mirrorAbout 0 1 (2 ^ 55) = -2 ^ 55 ∧
    mirrorAbout 0 1 (-2 ^ 55) = 2 ^ 55 ∧
    (2 * 1 - 2 ^ 55 : ℚ) ≠ -2 ^ 55 ∧
    (∀ k : Nat, (mirrorAbout 0 1)^[2 * k] (2 ^ 55) = 2 ^ 55 ∧
      (mirrorAbout 0 1)^[2 * k + 1] (2 ^ 55) = -2 ^ 55) := by
  have m1 : mirrorAbout 0 1 (2 ^ 55) = -2 ^ 55 := by decide!
  have m2 : mirrorAbout 0 1 (-2 ^ 55) = 2 ^ 55 := by decide!
  refine ⟨by norm_num, fun i fuel p => (FiniteUniverse.reflectLoop_runaway i fuel p).1,
    by decide!, m1, m2, by norm_num, ?_⟩
  intro k
  induction k with
  | zero => exact ⟨rfl, m1⟩
  | succ n ih =>
    have h1 : (mirrorAbout 0 1)^[2 * (n + 1)] (2 ^ 55) = 2 ^ 55 := by
      rw [show 2 * (n + 1) = (2 * n + 1) + 1 from by ring, Function.iterate_succ_apply', ih.2, m2]
    refine ⟨h1, ?_⟩
    rw [Function.iterate_succ_apply', h1, m1]

/-- C21: in a finite universe whose particles have the dimension of the
universe, whenever `reflectOutOfBoundsParticles` returns, the universe has the
same number of particles and every particle is inside the closed bounds; on
each axis the coordinate is the result of `k` mirrorings (rounded to `double`)
about the violated bound, each of the first `k` values being outside the
bounds, and the speed coordinate is multiplied by `(-1)^k`, so that its
absolute value is unchanged; force, previous force, mass, name and identifier
are kept, and a particle inside the bounds is left as it is.  But the call does
not always return: on the segment `[0, 1]`, with a particle at `2^55`, it has
not returned after any number of iterations. -/
theorem reflect_into_bounds_or_never_returns (u : FiniteUniverse)
    (hpdim : ∀ p ∈ u.particles, p.getDimension = u.dimension) :
    (∀ (fuel : Nat) (u1 : FiniteUniverse), u.reflectOutOfBoundsParticles fuel = some u1 →
      u1.particles.length = u.particles.length ∧
      ∀ (j : Nat) (p : Particle), u.particles[j]? = some p → ∃ q, u1.particles[j]? = some q ∧
        u.isInBounds q = true ∧
        q.getDimension = p.getDimension ∧
        (q.force = p.force ∧ q.oldForce = p.oldForce ∧ q.mass = p.mass ∧ q.name = p.name ∧
          q.id = p.id) ∧
        (∀ i, i < u.dimension → ∃ k : Nat,
          (∀ m, m < k →
            ((mirrorAbout (u.lowerBound.get i) (u.upperBound.get i))^[m] (p.position.get i) <
                u.lowerBound.get i ∨
              (mirrorAbout (u.lowerBound.get i) (u.upperBound.get i))^[m] (p.position.get i) >
                u.upperBound.get i)) ∧
          q.position.get i =
            (mirrorAbout (u.lowerBound.get i) (u.upperBound.get i))^[k] (p.position.get i) ∧
          q.speed.get i = (-1) ^ k * p.speed.get i ∧
          |q.speed.get i| = |p.speed.get i|) ∧
        (u.isInBounds p = true → q = p)) ∧
    ((runawayMoved.lowerBound.data, runawayMoved.upperBound.data,
        runawayMoved.particles.map (fun p => (p.name, p.position.data))) =
      ([0], [1], [("a", [1 / 2]), ("b", [2 ^ 55])]) ∧
      ∀ fuel, runawayMoved.reflectOutOfBoundsParticles fuel = none) := by
  refine ⟨?_, by decide!, runawayMoved_never_returns⟩
  intro fuel u1 hret
  unfold FiniteUniverse.reflectOutOfBoundsParticles at hret
  rw [Option.map_eq_some'] at hret
  obtain ⟨qs, hmap, rfl⟩ := hret
  obtain ⟨hlen, hget⟩ := mapM_some_getElem? _ _ _ hmap
  refine ⟨hlen, ?_⟩
  intro j p hp
  obtain ⟨q, hq1, hq2⟩ := hget j p hp
  have hpm : p ∈ u.particles := List.getElem?_mem hp
  have hpd : p.position.getDimension = u.dimension := hpdim p hpm
  obtain ⟨hf, hd, _, _, hin⟩ := FiniteUniverse.foldlM_reflect_spec u fuel
    (List.range u.dimension) (List.nodup_range _) p q
    (fun i hi => by rw [hpd]; exact List.mem_range.mp hi) hq2
  refine ⟨q, hq1, ?_, hd, hf, ?_, ?_⟩
  · show q.position.isInBounds u.lowerBound u.upperBound = true
    rw [Vector.isInBounds_iff]
    intro i hi
    obtain ⟨k, _, g2, g3, g4, _⟩ := hin i (List.mem_range.mpr (by omega))
    rw [g4]
    exact ⟨g2, g3⟩
  · intro i hi
    obtain ⟨k, g1, _, _, g4, g5⟩ := hin i (List.mem_range.mpr hi)
    refine ⟨k, g1, g4, g5, ?_⟩
    rw [g5, abs_mul, abs_pow, abs_neg, abs_one, one_pow, one_mul]
  · intro hinb
    have hb : ∀ i, i < u.dimension →
        u.lowerBound.get i ≤ p.position.get i ∧ p.position.get i ≤ u.upperBound.get i := by
      intro i hi
      exact (Vector.isInBounds_iff _ _ _).mp hinb i (by omega)
    have := FiniteUniverse.reflectParticle_of_inBounds u fuel p hb
    rw [this] at hq2
    exact (Option.some.inj hq2).symm

/-- C21, witness: in the unit square the call returns after 5 iterations: `b` at
`(5.75, 0.5)` with speed `(5, 0)` is mirrored 5 times on the first axis and
ends at `(0.25, 0.5)` with speed `(-5, 0)`; `c` at `(0.5, -3)` with speed
`(0, -3.5)` is mirrored 3 times on the second axis and ends at `(0.5, 1)` with
speed `(0, 3.5)`; `a`, inside the bounds, is left as it is. -/
theorem reflect_into_bounds_or_never_returns_witness :
    (∀ u1, movedBox.reflectOutOfBoundsParticles 5 = some u1 →
      u1.particles.length = movedBox.particles.length) ∧
    (movedBox.reflectOutOfBoundsParticles 5).isSome = true ∧
    movedBox.particles.map (fun p => (p.name, p.position.data, p.speed.data)) =
      [("b", [23 / 4, 1 / 2], [5, 0]), ("a", [1 / 4, 1 / 2], [0, 0]),
       ("c", [1 / 2, -3], [0, -7 / 2])] ∧
    (movedBox.reflectOutOfBoundsParticles 5).map
      (fun u => u.particles.map (fun p => (p.name, p.position.data, p.speed.data))) =
      some [("b", [1 / 4, 1 / 2], [-5, 0]), ("a", [1 / 4, 1 / 2], [0, 0]),
        ("c", [1 / 2, 1], [0, 7 / 2])] ∧
    (mirrorAbout 0 1)^[5] (23 / 4) = 1 / 4 ∧
    (∀ fuel, runawayMoved.reflectOutOfBoundsParticles fuel = none) :=
  ⟨fun u1 h => ((reflect_into_bounds_or_never_returns movedBox (by decide!)).1 5 u1 h).1,
    by decide!, by decide!, by decide!, by decide!,
    (reflect_into_bounds_or_never_returns movedBox (by decide!)).2.2⟩

/-! ## A particle at rest in a finite universe -/

theorem mapM_some_mem_of_fixed {α : Type} (f : α → Option α) (ps qs : List α)
    (h : ps.mapM f = some qs) (p : α) (hp : p ∈ ps) (hfix : f p = some p) : p ∈ qs := by
  obtain ⟨j, hj⟩ := List.mem_iff_getElem?.mp hp
  obtain ⟨q, hq1, hq2⟩ := (mapM_some_getElem? f ps qs h).2 j p hj
  rw [hfix] at hq2
  rw [Option.some.inj hq2]
  exact List.getElem?_mem hq1

/-- A particle inside the bounds of a finite universe is still in the particle
list whenever `handleOutOfBoundsParticles` returns. -/
theorem FiniteUniverse.handleOutOfBoundsParticles_keeps_of_some (w : FiniteUniverse)
    (p : Particle) (hmem : p ∈ w.particles) (hin : w.isInBounds p = true)
    (hbounds : ∀ i, i < w.dimension →
      w.lowerBound.get i ≤ p.position.get i ∧ p.position.get i ≤ w.upperBound.get i)
    (fuel : Nat) (u1 : FiniteUniverse) (h : w.handleOutOfBoundsParticles fuel = some u1) :
    p ∈ u1.particles := by
  unfold FiniteUniverse.handleOutOfBoundsParticles at h
  cases hpol : w.oobbehavior with
  | ABSORPTION =>
    rw [hpol] at h
    simp only [Option.some.injEq] at h
    rw [← h]
    exact FiniteUniverse.mem_removeOutOfBoundsLoop _ _ p hmem hin
  | REFLEXION =>
    rw [hpol] at h
    simp only [FiniteUniverse.reflectOutOfBoundsParticles] at h
    rw [Option.map_eq_some'] at h
    obtain ⟨qs, hmap, rfl⟩ := h
    exact mapM_some_mem_of_fixed _ _ _ hmap p hmem
      (FiniteUniverse.reflectParticle_of_inBounds w fuel p hbounds)
  | PERIODIC =>
    rw [hpol] at h
    simp only [Option.some.injEq] at h
    rw [← h]
    show p ∈ List.map _ _
    exact List.mem_map.mpr ⟨p, hmem, FiniteUniverse.teleportParticle_of_inBounds w p hbounds⟩

/-- Under ABSORPTION and PERIODIC `handleOutOfBoundsParticles` returns. -/
theorem FiniteUniverse.handleOutOfBoundsParticles_isSome (w : FiniteUniverse)
    (hpol : w.oobbehavior ≠ OOBBehavior.REFLEXION) (fuel : Nat) :
    ∃ u1, w.handleOutOfBoundsParticles fuel = some u1 := by
  unfold FiniteUniverse.handleOutOfBoundsParticles
  cases h : w.oobbehavior with
  | ABSORPTION => exact ⟨_, rfl⟩
  | REFLEXION => exact absurd h hpol
  | PERIODIC => exact ⟨_, rfl⟩

/-- C19: a particle with zero speed and zero force is left unchanged by the
position update of `Universe::updatePositions`, whatever the time step.  In a
finite universe whose bounds contain the particle, under ABSORPTION and
PERIODIC `FiniteUniverse::updatePositions` returns and the particle is still in
the list, unchanged, and under every policy this holds whenever the call
returns.  Under REFLEXION the call does not always return: on the segment
`[0, 1]` with the particle `a` at rest at `0.5` and a particle `b` at `0` of
speed `2^55`, with time step 1, it has not returned after any number of
iterations of the reflection loop of `b`. -/
theorem particle_at_rest_or_never_returns (u : FiniteUniverse) (timeStep : ℚ) (p : Particle)
    (hp : p ∈ u.particles)
    (hspeed : ∀ i, p.speed.get i = 0) (hforce : ∀ i, p.force.get i = 0)
    (hdim : p.getDimension = u.dimension) (hin : u.isInBounds p = true) :
    p.updatePosition timeStep = p ∧
    (∀ (v : Universe) (j : Nat), v.particles[j]? = some p →
      (v.updatePositions timeStep).particles[j]? = some p) ∧
    (u.oobbehavior ≠ OOBBehavior.REFLEXION →
      ∀ fuel, ∃ u1, u.updatePositions fuel timeStep = some u1 ∧ p ∈ u1.particles) ∧
    (∀ (fuel : Nat) (u1 : FiniteUniverse), u.updatePositions fuel timeStep = some u1 →
      p ∈ u1.particles) ∧
    (runawayLine.oobbehavior = OOBBehavior.REFLEXION ∧
      (runawayLine.lowerBound.data, runawayLine.upperBound.data) = ([0], [1]) ∧
      runawayLine.particles.map (fun q => (q.name, q.position.data, q.speed.data)) =
        [("a", [1 / 2], [0]), ("b", [0], [2 ^ 55])] ∧
      ∀ fuel, (runawayLine.updatePositions fuel 1).isSome = false) := by
  have hrest := Particle.updatePosition_of_rest p timeStep hspeed hforce
  have hbounds : ∀ i, i < u.dimension →
      u.lowerBound.get i ≤ p.position.get i ∧ p.position.get i ≤ u.upperBound.get i := by
    intro i hi
    exact (Vector.isInBounds_iff _ _ _).mp hin i (by
      show i < p.getDimension
      omega)
  have hmem : p ∈ (u.toUniverse.updatePositions timeStep).particles := by
    show p ∈ u.particles.map (fun p => p.updatePosition timeStep)
    exact List.mem_map.mpr ⟨p, hp, hrest⟩
  have hkeep : ∀ (fuel : Nat) (u1 : FiniteUniverse),
      u.updatePositions fuel timeStep = some u1 → p ∈ u1.particles :=
    fun fuel u1 h => FiniteUniverse.handleOutOfBoundsParticles_keeps_of_some
      { u with toUniverse := u.toUniverse.updatePositions timeStep } p hmem hin hbounds fuel u1 h
  refine ⟨hrest, ?_, ?_, hkeep, by decide!, by decide!, by decide!, ?_⟩
  · intro v j hj
    show (v.particles.map (fun p => p.updatePosition timeStep))[j]? = some p
    rw [List.getElem?_map, hj, Option.map_some', hrest]
  · intro hpol fuel
    obtain ⟨u1, h1⟩ := FiniteUniverse.handleOutOfBoundsParticles_isSome
      { u with toUniverse := u.toUniverse.updatePositions timeStep } hpol fuel
    exact ⟨u1, h1, hkeep fuel u1 h1⟩
  · intro fuel
    have h : runawayLine.updatePositions fuel 1 = none := by
      show runawayMoved.handleOutOfBoundsParticles fuel = none
      rw [FiniteUniverse.handleOutOfBoundsParticles_of_reflexion runawayMoved rfl,
        runawayMoved_never_returns]
    rw [h]
    rfl

/-- C19, witness: in the unit square, with time step 1, the particle `a` at
rest at `(1/4, 1/2)` is still there under the three policies, while `b`
(speed `(5, 0)`) is removed, reflected or wrapped; on the segment `[0, 1]`
with the particle `b` of speed `2^55` the call never returns. -/
theorem particle_at_rest_or_never_returns_witness :
    (∀ fuel, ∃ u1, (restingBox OOBBehavior.ABSORPTION).updatePositions fuel 1 = some u1 ∧
      Particle.new ⟨[1 / 4, 1 / 2]⟩ ⟨[0, 0]⟩ 1 "a" 1 ∈ u1.particles) ∧
    ((restingBox OOBBehavior.ABSORPTION).updatePositions 0 1).map
      (fun u => u.particles.map (fun p => (p.name, p.position.data))) =
      some [("a", [1 / 4, 1 / 2])] ∧
    ((restingBox OOBBehavior.REFLEXION).updatePositions 6 1).map
      (fun u => u.particles.map (fun p => (p.name, p.position.data))) =
      some [("b", [1 / 4, 1 / 2]), ("a", [1 / 4, 1 / 2]), ("c", [1 / 2, 1])] ∧
    ((restingBox OOBBehavior.PERIODIC).updatePositions 0 1).map
      (fun u => u.particles.map (fun p => (p.name, p.position.data))) =
      some [("b", [3 / 4, 1 / 2]), ("a", [1 / 4, 1 / 2]), ("c", [1 / 2, 0])] ∧
    (∀ fuel, (runawayLine.updatePositions fuel 1).isSome = false) := by
  have hs : ∀ i, (Particle.new ⟨[1 / 4, 1 / 2]⟩ ⟨[0, 0]⟩ 1 "a" 1).speed.get i = 0 := by
    intro i
    match i with
    | 0 => decide!
    | 1 => decide!
    | n + 2 => rfl
  have h := particle_at_rest_or_never_returns (restingBox OOBBehavior.ABSORPTION) 1
    (Particle.new ⟨[1 / 4, 1 / 2]⟩ ⟨[0, 0]⟩ 1 "a" 1) (by decide!) hs hs
    (by decide!) (by decide!)
  exact ⟨h.2.2.1 (by decide), by decide!, by decide!, by decide!, h.2.2.2.2.2.2.2⟩

/-! ## Operations on vectors of different dimensions -/

theorem mapM_some_of_forall {α β : Type} (f : α → Option β) (g : α → β) (l : List α)
    (h : ∀ a ∈ l, f a = some (g a)) : l.mapM f = some (l.map g) := by
  induction l with
  | nil => rfl
  | cons a l ih =>
    rw [List.mapM_cons, h a (List.mem_cons_self _ _),
      ih (fun b hb => h b (List.mem_cons_of_mem _ hb))]
    rfl

/-- C26: for two vectors of different dimensions, with assertions enabled, `==`,
`!=`, `areAllCoordsGreater`, `isInBounds` (the vector against a bound), `min`
and `max` abort on their dimension assertion, but `+=` and `-=`, which contain
no assertion, do not: when the left operand is the shorter one (every read is
inside the arrays) they return the sum and the difference over the coordinates
of the left operand, in both configurations. -/
theorem vector_add_sub_unchecked (v w : Vector) (hne : v.getDimension ≠ w.getDimension) :
    (v.eqCfg false w = none ∧ v.neCfg false w = none ∧
      v.areAllCoordsGreaterCfg false w = none ∧
      (∀ upperBound, v.isInBoundsCfg false w upperBound = none) ∧
      Vector.minCfg false v w = none ∧ Vector.maxCfg false v w = none) ∧
    (v.getDimension < w.getDimension →
      ∀ ndebug, v.addCfg ndebug w = some (v.add w) ∧ v.subCfg ndebug w = some (v.sub w)) := by
  have hb : (v.getDimension == w.getDimension) = false := by
    simpa using hne
  have hx : xassert false (v.getDimension == w.getDimension) = none := by
    simp [xassert, hb]
  refine ⟨⟨?_, ?_, ?_, ?_, ?_, ?_⟩, ?_⟩
  · simp [Vector.eqCfg, hx]
  · simp [Vector.neCfg, Vector.eqCfg, hx]
  · simp [Vector.areAllCoordsGreaterCfg, hx]
  · intro upperBound
    unfold Vector.isInBoundsCfg
    cases h1 : xassert false (w.getDimension == upperBound.getDimension) with
    | none => rfl
    | some _ => simp [hx]
  · simp [Vector.minCfg, hx]
  · simp [Vector.maxCfg, hx]
  · intro hlt ndebug
    have hread : ∀ i, i ∈ List.range v.getDimension → w.data[i]? = some (w.get i) := by
      intro i hi
      have hi2 : i < w.data.length := lt_trans (List.mem_range.mp hi) hlt
      simp [Vector.get, List.getD_eq_getElem?_getD, List.getElem?_eq_getElem hi2]
    constructor
    · unfold Vector.addCfg
      rw [mapM_some_of_forall _ (fun i => v.get i + w.get i) _
        (fun i hi => by rw [hread i hi]; rfl)]
      rfl
    · unfold Vector.subCfg
      rw [mapM_some_of_forall _ (fun i => v.get i - w.get i) _
        (fun i hi => by rw [hread i hi]; rfl)]
      rfl

/-- C26, failing input: with assertions enabled, `(1) += (2, 3)` returns `(3)`
and `(1) -= (2, 3)` returns `(-1)`, while `==`, `areAllCoordsGreater`, `min`
and `max` abort on the same operands. -/
theorem vector_add_sub_unchecked_witness :
    (Vector.mk [1]).addCfg false ⟨[2, 3]⟩ = some ⟨[3]⟩ ∧
    (Vector.mk [1]).subCfg false ⟨[2, 3]⟩ = some ⟨[-1]⟩ ∧
    (Vector.mk [1]).eqCfg false ⟨[2, 3]⟩ = none ∧
    (Vector.mk [1]).areAllCoordsGreaterCfg false ⟨[2, 3]⟩ = none ∧
    Vector.minCfg false ⟨[1]⟩ ⟨[2, 3]⟩ = none ∧
    Vector.maxCfg false ⟨[1]⟩ ⟨[2, 3]⟩ = none ∧
    (Vector.mk [1, 1]).eqCfg false ⟨[2, 3]⟩ = some false ∧
    Vector.minCfg false ⟨[1, 5]⟩ ⟨[2, 3]⟩ = some ⟨[1, 3]⟩ :=
  ⟨(((vector_add_sub_unchecked ⟨[1]⟩ ⟨[2, 3]⟩ (by decide)).2 (by decide) false).1).trans
      (by decide!),
   (((vector_add_sub_unchecked ⟨[1]⟩ ⟨[2, 3]⟩ (by decide)).2 (by decide) false).2).trans
      (by decide!),
   (vector_add_sub_unchecked ⟨[1]⟩ ⟨[2, 3]⟩ (by decide)).1.1,
   (vector_add_sub_unchecked ⟨[1]⟩ ⟨[2, 3]⟩ (by decide)).1.2.2.1,
   (vector_add_sub_unchecked ⟨[1]⟩ ⟨[2, 3]⟩ (by decide)).1.2.2.2.2.1,
   (vector_add_sub_unchecked ⟨[1]⟩ ⟨[2, 3]⟩ (by decide)).1.2.2.2.2.2,
   by decide!, by decide!⟩

/-! ## A cell side that is not positive -/

end ParticlesSim
